import Mathlib

/-!
# Lookahead scheduling pipeline of x264 (`encoder/lookahead.c`)

A shallow embedding of the three synchronized frame lists of the lookahead
(`ifbuf`, `next`, `ofbuf`), of the functions of `encoder/lookahead.c` that move
frames between them, and of the properties the specification states about them.

Conventions of the embedding

* A frame pointer is a natural number; `x264_t.mem` maps it to the frame it points
  to. A pointer that may be `NULL` is an `Option`.
* A frame list (`x264_frame_t **`, `NULL`-terminated) is the `List` of the frames
  that stand before its terminator.
* C `int`s are `Int`s.
* A failed `assert`, or a dereference of `NULL`, ends the program: functions that
  can do so return `none` (`Option`) or `Result.abort`.
* A function that can park in `x264_pthread_cond_wait` returns `Result.blocked`
  with the state it parks in; the parked call goes on, once woken, by evaluating
  its wait loop again.
* `x264_pthread_cond_broadcast` on a condition variable is counted in the field of
  the same name.
-/

namespace Lookahead

/-! ## Data model -/

/-- The fields of `x264_frame_t` that `lookahead.c` reads or writes. -/
structure x264_frame_t where
  /-- Coding type decided for the frame. -/
  i_type : Int
  /-- Number of B-frames that follow this frame in its run. -/
  i_bframes : Int
  /-- Number of owners of the frame. -/
  i_reference_count : Int
deriving DecidableEq

/-- The synchronized frame list `x264_synch_frame_list_t`: `list` holds the frames
before the `NULL` terminator, `cv_fill` and `cv_empty` count the broadcasts sent
on the two condition variables. -/
structure x264_synch_frame_list_t where
  list : List Nat
  i_max_size : Int
  i_size : Int
  cv_fill : Nat
  cv_empty : Nat
deriving DecidableEq

/-- The lookahead context `x264_lookahead_t`. -/
structure x264_lookahead_t where
  b_exit_thread : Bool
  b_thread_active : Bool
  b_analyse_keyframe : Bool
  i_last_keyframe : Int
  i_slicetype_length : Int
  last_nonb : Option Nat
  ifbuf : x264_synch_frame_list_t
  next : x264_synch_frame_list_t
  ofbuf : x264_synch_frame_list_t
deriving DecidableEq

/-- The fields of `h->param` read by `lookahead.c`. -/
structure x264_param_t where
  i_sync_lookahead : Int
  i_keyint_max : Int
  b_mb_tree : Int
  i_vbv_buffer_size : Int
  i_lookahead : Int
  b_stat_read : Int
deriving DecidableEq

/-- One invocation of an external hook, as recorded in `x264_t.calls`. -/
inductive HookCall where
  | slicetype_decide : HookCall
  | slicetype_analyse (b_keyframe : Int) : HookCall
deriving DecidableEq

/-- The part of the encoder handle `x264_t` that `lookahead.c` works on:
`frames_current` is `h->frames.current`, `frames_i_delay` is `h->frames.i_delay`,
`mem` is the memory holding the frames, `calls` records the hook invocations in
the order they were made. -/
structure x264_t where
  param : x264_param_t
  frames_i_delay : Int
  frames_current : List Nat
  mem : Nat → x264_frame_t
  lookahead : x264_lookahead_t
  calls : List HookCall

/-- The code `lookahead.c` calls but does not define: the slice type decision
`x264_slicetype_decide`, the propagation analysis `x264_slicetype_analyse`, and
the test `IS_X264_TYPE_I` on a coding type. -/
structure Hooks where
  x264_slicetype_decide : x264_t → x264_t
  x264_slicetype_analyse : x264_t → Int → x264_t
  IS_X264_TYPE_I : Int → Bool

/-- Outcome of a call that may wait on a condition variable. -/
inductive Result (α : Type) where
  /-- The call ran to its end. -/
  | ok (a : α) : Result α
  /-- The call is parked in `x264_pthread_cond_wait`, in state `a`. -/
  | blocked (a : α) : Result α
  /-- An assertion failed or `NULL` was dereferenced. -/
  | abort : Result α

/-! ## Frame lists -/

/-- Modelled from the spec: `x264_frame_shift` (defined in `common/frame.c`, which
is not among the sources) removes the frame at the head of a frame sequence and
returns it. Taking from an empty sequence is the underflow that the
specification (section 7) says must abort. -/
def x264_frame_shift (list : List Nat) : Option (Nat × List Nat) :=
  match list with
  | [] => none
  | f :: rest => some (f, rest)

/-- Modelled from the spec: `x264_frame_push` (defined in `common/frame.c`, which
is not among the sources) appends a frame to the tail of a frame sequence. -/
def x264_frame_push (list : List Nat) (frame : Nat) : List Nat :=
  list ++ [frame]

/-- The store `list[i] = frame` into a `NULL`-terminated frame array whose frames
are `list`. Slot `list.length` holds the terminator, and the slot after it is
`NULL` too: the store makes the sequence one frame longer. A slot before the
terminator holds a frame, which is replaced. A slot past the terminator is not
seen by a walk that stops at the first `NULL`. -/
def list_store (list : List Nat) (i : Int) (frame : Nat) : List Nat :=
  if i = list.length then list ++ [frame]
  else if 0 ≤ i ∧ i < list.length then list.set i.toNat frame
  else list

/-- The loop `while( i-- )` of `x264_lookahead_shift`, for `i` iterations. -/
def x264_lookahead_shift_loop :
    Nat → x264_synch_frame_list_t → x264_synch_frame_list_t →
      Option (x264_synch_frame_list_t × x264_synch_frame_list_t)
  | 0, dst, src => some (dst, src)
  | i + 1, dst, src =>
    if ¬ dst.i_size < dst.i_max_size then none
    else if src.i_size = 0 then none
    else
      match x264_frame_shift src.list with
      | none => none
      | some (f, rest) =>
        x264_lookahead_shift_loop i
          { dst with list := list_store dst.list dst.i_size f, i_size := dst.i_size + 1 }
          { src with list := rest, i_size := src.i_size - 1 }

/-- `x264_lookahead_shift( dst, src, count )`, lines 41-56. The result is the pair
`(dst, src)` after the call, `none` when an assertion fails. With a negative
`count` the loop `while( i-- )` does not stop before an assertion fails. -/
def x264_lookahead_shift (dst src : x264_synch_frame_list_t) (count : Int) :
    Option (x264_synch_frame_list_t × x264_synch_frame_list_t) :=
  if count < 0 then none
  else
    match x264_lookahead_shift_loop count.toNat dst src with
    | none => none
    | some (d, s) =>
      if count ≠ 0 then
        some ({ d with cv_fill := d.cv_fill + 1 }, { s with cv_empty := s.cv_empty + 1 })
      else some (d, s)

/-! ## The anchor frame -/

/-- Modelled from the spec: `x264_frame_push_unused` (defined in `common/frame.c`,
which is not among the sources) releases one retained ownership share of the
frame: its `i_reference_count` goes down by one. -/
def x264_frame_push_unused (h : x264_t) (frame : Nat) : x264_t :=
  { h with
    mem := Function.update h.mem frame
      { h.mem frame with i_reference_count := (h.mem frame).i_reference_count - 1 } }

/-- `x264_lookahead_update_last_nonb( h, new_nonb )`, lines 58-64, for a
`new_nonb` that is not `NULL`. -/
def x264_lookahead_update_last_nonb (h : x264_t) (new_nonb : Nat) : x264_t :=
  let h1 :=
    match h.lookahead.last_nonb with
    | some last_nonb => x264_frame_push_unused h last_nonb
    | none => h
  { h1 with
    lookahead := { h1.lookahead with last_nonb := some new_nonb }
    mem := Function.update h1.mem new_nonb
      { h1.mem new_nonb with
        i_reference_count := (h1.mem new_nonb).i_reference_count + 1 } }

/-! ## Hook invocations -/

/-- The call `x264_stack_align( x264_slicetype_decide, h )`, recorded in `calls`. -/
def call_slicetype_decide (hk : Hooks) (h : x264_t) : x264_t :=
  { hk.x264_slicetype_decide h with calls := h.calls ++ [HookCall.slicetype_decide] }

/-- The call `x264_stack_align( x264_slicetype_analyse, h, b_keyframe )`, recorded
in `calls`. -/
def call_slicetype_analyse (hk : Hooks) (h : x264_t) (b_keyframe : Int) : x264_t :=
  { hk.x264_slicetype_analyse h b_keyframe with
    calls := h.calls ++ [HookCall.slicetype_analyse b_keyframe] }

/-! ## The decision step of the lookahead thread -/

/-- Lines 73-85 of `x264_lookahead_slicetype_decide`: the wait for room in `ofbuf`
and what follows it. A parked decision step goes on from here. -/
def x264_lookahead_slicetype_decide_wait (hk : Hooks) (h : x264_t) : Result x264_t :=
  if h.lookahead.ofbuf.i_size = h.lookahead.ofbuf.i_max_size then Result.blocked h
  else
    match h.lookahead.next.list with
    | [] => Result.abort
    | head :: _ =>
      match x264_lookahead_shift h.lookahead.ofbuf h.lookahead.next
          ((h.mem head).i_bframes + 1) with
      | none => Result.abort
      | some (ofbuf, next) =>
        let h1 := { h with lookahead := { h.lookahead with ofbuf := ofbuf, next := next } }
        if h1.lookahead.b_analyse_keyframe then
          match h1.lookahead.last_nonb with
          | none => Result.abort
          | some last_nonb =>
            if hk.IS_X264_TYPE_I (h1.mem last_nonb).i_type then
              Result.ok (call_slicetype_analyse hk h1 1)
            else Result.ok h1
        else Result.ok h1

/-- `x264_lookahead_slicetype_decide( h )`, lines 67-86. -/
def x264_lookahead_slicetype_decide (hk : Hooks) (h : x264_t) : Result x264_t :=
  let h1 := call_slicetype_decide hk h
  match h1.lookahead.next.list with
  | [] => Result.abort
  | new_nonb :: _ =>
    x264_lookahead_slicetype_decide_wait hk (x264_lookahead_update_last_nonb h1 new_nonb)

/-! ## The lookahead thread -/

/-- `X264_MIN( a, b )`. -/
def X264_MIN (a b : Int) : Int := if a < b then a else b

/-- Lines 97-101 of `x264_lookahead_thread`: frames go from `ifbuf` to `next`, as
many as `next` has room for. -/
def x264_lookahead_thread_fill (h : x264_t) : Option x264_t :=
  let shift := X264_MIN (h.lookahead.next.i_max_size - h.lookahead.next.i_size)
    h.lookahead.ifbuf.i_size
  match x264_lookahead_shift h.lookahead.next h.lookahead.ifbuf shift with
  | none => none
  | some (next, ifbuf) =>
    some { h with lookahead := { h.lookahead with next := next, ifbuf := ifbuf } }

/-- One turn of the loop `while( !h->lookahead->b_exit_thread )`, lines 97-112. -/
def x264_lookahead_thread_iter (hk : Hooks) (h : x264_t) : Result x264_t :=
  match x264_lookahead_thread_fill h with
  | none => Result.abort
  | some h1 =>
    if h1.lookahead.next.i_size ≤ h1.lookahead.i_slicetype_length then
      if h1.lookahead.ifbuf.i_size = 0 ∧ h1.lookahead.b_exit_thread = false then
        Result.blocked h1
      else Result.ok h1
    else x264_lookahead_slicetype_decide hk h1

/-- Lines 114-118 of `x264_lookahead_thread`: after the exit request, all of
`ifbuf` goes to `next`. -/
def x264_lookahead_thread_drain (h : x264_t) : Option x264_t :=
  match x264_lookahead_shift h.lookahead.next h.lookahead.ifbuf
      h.lookahead.ifbuf.i_size with
  | none => none
  | some (next, ifbuf) =>
    some { h with lookahead := { h.lookahead with next := next, ifbuf := ifbuf } }

/-- Lines 121-124 of `x264_lookahead_thread`: the thread marks itself inactive and
wakes whoever waits for output. -/
def x264_lookahead_thread_end (h : x264_t) : x264_t :=
  { h with
    lookahead := { h.lookahead with
      b_thread_active := false
      ofbuf := { h.lookahead.ofbuf with cv_fill := h.lookahead.ofbuf.cv_fill + 1 } } }

/-- Lines 119-124 of `x264_lookahead_thread`: the loop
`while( h->lookahead->next.i_size ) x264_lookahead_slicetype_decide( h )`, then
the end of the thread. `fuel` bounds the number of times the loop condition is
evaluated, and the result is `none` when it is used up. A decision step that
parks leaves the loop parked in it. -/
def x264_lookahead_thread_finish (hk : Hooks) : Nat → x264_t → Option (Result x264_t)
  | 0, _ => none
  | fuel + 1, h =>
    if h.lookahead.next.i_size ≠ 0 then
      match x264_lookahead_slicetype_decide hk h with
      | Result.ok h1 => x264_lookahead_thread_finish hk fuel h1
      | Result.blocked h1 => some (Result.blocked h1)
      | Result.abort => some Result.abort
    else some (Result.ok (x264_lookahead_thread_end h))

/-- Lines 171-174 of `x264_lookahead_delete`: the exit request sent to the
thread. -/
def x264_lookahead_delete_request (h : x264_t) : x264_t :=
  { h with
    lookahead := { h.lookahead with
      b_exit_thread := true
      ifbuf := { h.lookahead.ifbuf with cv_fill := h.lookahead.ifbuf.cv_fill + 1 } } }

/-! ## The encoder side -/

/-- Modelled from the spec: `x264_synch_frame_list_push` (defined in
`common/frame.c`, which is not among the sources) appends the frame to the tail
of the queue and signals the non-empty condition; the caller blocks while the
length equals the capacity. -/
def x264_synch_frame_list_push (slist : x264_synch_frame_list_t) (frame : Nat) :
    Result x264_synch_frame_list_t :=
  if slist.i_size = slist.i_max_size then Result.blocked slist
  else
    Result.ok { slist with
      list := slist.list ++ [frame]
      i_size := slist.i_size + 1
      cv_fill := slist.cv_fill + 1 }

/-- `x264_lookahead_put_frame( h, frame )`, lines 188-194. -/
def x264_lookahead_put_frame (h : x264_t) (frame : Nat) : Result x264_t :=
  if h.param.i_sync_lookahead ≠ 0 then
    match x264_synch_frame_list_push h.lookahead.ifbuf frame with
    | Result.ok ifbuf => Result.ok { h with lookahead := { h.lookahead with ifbuf := ifbuf } }
    | Result.blocked _ => Result.blocked h
    | Result.abort => Result.abort
  else
    match x264_synch_frame_list_push h.lookahead.next frame with
    | Result.ok next => Result.ok { h with lookahead := { h.lookahead with next := next } }
    | Result.blocked _ => Result.blocked h
    | Result.abort => Result.abort

/-- `x264_lookahead_is_empty( h )`, lines 196-204; `true` stands for a non-zero
`b_empty`. -/
def x264_lookahead_is_empty (h : x264_t) : Bool :=
  decide (h.lookahead.next.i_size = 0) && decide (h.lookahead.ofbuf.i_size = 0)

/-- The loop `while( i_frames-- )` of `x264_lookahead_encoder_shift`, for
`i_frames` iterations, on `h->frames.current` and `ofbuf`. -/
def x264_lookahead_encoder_shift_loop :
    Nat → List Nat → x264_synch_frame_list_t → Option (List Nat × x264_synch_frame_list_t)
  | 0, current, ofbuf => some (current, ofbuf)
  | i_frames + 1, current, ofbuf =>
    match x264_frame_shift ofbuf.list with
    | none => none
    | some (f, rest) =>
      x264_lookahead_encoder_shift_loop i_frames (x264_frame_push current f)
        { ofbuf with list := rest, i_size := ofbuf.i_size - 1 }

/-- `x264_lookahead_encoder_shift( h )`, lines 206-217. `none` when `ofbuf.list[0]`
is `NULL` or a frame is taken from an empty list; with a negative `i_frames` the
loop does not stop before that happens. -/
def x264_lookahead_encoder_shift (h : x264_t) : Option x264_t :=
  if h.lookahead.ofbuf.i_size = 0 then some h
  else
    match h.lookahead.ofbuf.list with
    | [] => none
    | head :: _ =>
      let i_frames := (h.mem head).i_bframes + 1
      if i_frames < 0 then none
      else
        match x264_lookahead_encoder_shift_loop i_frames.toNat h.frames_current
            h.lookahead.ofbuf with
        | none => none
        | some (current, ofbuf) =>
          some { h with
            frames_current := current
            lookahead := { h.lookahead with
              ofbuf := { ofbuf with cv_empty := ofbuf.cv_empty + 1 } } }

/-- `x264_lookahead_get_frames( h )`, lines 219-245. -/
def x264_lookahead_get_frames (hk : Hooks) (h : x264_t) : Result x264_t :=
  if h.param.i_sync_lookahead ≠ 0 then
    if h.lookahead.ofbuf.i_size = 0 ∧ h.lookahead.b_thread_active = true then
      Result.blocked h
    else
      match x264_lookahead_encoder_shift h with
      | none => Result.abort
      | some h1 => Result.ok h1
  else
    if h.frames_current ≠ [] ∨ h.lookahead.next.i_size = 0 then Result.ok h
    else
      let h1 := call_slicetype_decide hk h
      match h1.lookahead.next.list with
      | [] => Result.abort
      | new_nonb :: _ =>
        let h2 := x264_lookahead_update_last_nonb h1 new_nonb
        match h2.lookahead.next.list with
        | [] => Result.abort
        | head :: _ =>
          match x264_lookahead_shift h2.lookahead.ofbuf h2.lookahead.next
              ((h2.mem head).i_bframes + 1) with
          | none => Result.abort
          | some (ofbuf, next) =>
            let h3 :=
              { h2 with lookahead := { h2.lookahead with ofbuf := ofbuf, next := next } }
            if h3.lookahead.b_analyse_keyframe then
              match h3.lookahead.last_nonb with
              | none => Result.abort
              | some last_nonb =>
                if hk.IS_X264_TYPE_I (h3.mem last_nonb).i_type then
                  match x264_lookahead_encoder_shift (call_slicetype_analyse hk h3 1) with
                  | none => Result.abort
                  | some h4 => Result.ok h4
                else
                  match x264_lookahead_encoder_shift h3 with
                  | none => Result.abort
                  | some h4 => Result.ok h4
            else
              match x264_lookahead_encoder_shift h3 with
              | none => Result.abort
              | some h4 => Result.ok h4

/-! ## Construction -/

/-- The steps of `x264_lookahead_init` that can fail; `true` makes the step fail. -/
structure InitFaults where
  malloc_look : Bool
  list_init_ifbuf : Bool
  list_init_next : Bool
  list_init_ofbuf : Bool
  macroblock_cache_allocate : Bool
  macroblock_thread_allocate : Bool
  pthread_create : Bool
deriving DecidableEq

/-- What `x264_lookahead_init` acquires. -/
inductive Resource where
  | look : Resource
  | ifbuf : Resource
  | next : Resource
  | ofbuf : Resource
  | macroblock_cache : Resource
  | macroblock_thread : Resource
  | thread : Resource
deriving DecidableEq

/-- What `x264_lookahead_init` leaves behind: the value returned, the handle, and
the resources acquired by the call and not released by it. -/
structure InitResult where
  ret : Int
  h : x264_t
  live : List Resource

/-- Modelled from the spec: `x264_synch_frame_list_init` (defined in
`common/frame.c`, which is not among the sources) builds an empty queue whose
capacity is fixed at construction, or fails. The length of a queue never exceeds
its capacity (a hard invariant of the data model), so no queue is built for a
negative capacity. -/
def x264_synch_frame_list_init (fails : Bool) (max_size : Int) :
    Option x264_synch_frame_list_t :=
  if fails = true ∨ max_size < 0 then none
  else some { list := [], i_max_size := max_size, i_size := 0, cv_fill := 0, cv_empty := 0 }

/-- `x264_lookahead_init( h, i_slicetype_length )`, lines 128-165. -/
def x264_lookahead_init (f : InitFaults) (h : x264_t) (i_slicetype_length : Int) :
    InitResult :=
  if f.malloc_look = true then { ret := -1, h := h, live := [] }
  else
    let zero : x264_synch_frame_list_t :=
      { list := [], i_max_size := 0, i_size := 0, cv_fill := 0, cv_empty := 0 }
    let look : x264_lookahead_t :=
      { b_exit_thread := false
        b_thread_active := false
        b_analyse_keyframe :=
          decide ((h.param.b_mb_tree ≠ 0 ∨
              (h.param.i_vbv_buffer_size ≠ 0 ∧ h.param.i_lookahead ≠ 0)) ∧
            h.param.b_stat_read = 0)
        i_last_keyframe := - h.param.i_keyint_max
        i_slicetype_length := i_slicetype_length
        last_nonb := none
        ifbuf := zero
        next := zero
        ofbuf := zero }
    match x264_synch_frame_list_init f.list_init_ifbuf (h.param.i_sync_lookahead + 3) with
    | none => { ret := -1, h := { h with lookahead := look }, live := [] }
    | some ifbuf =>
      match x264_synch_frame_list_init f.list_init_next (h.frames_i_delay + 3) with
      | none =>
        { ret := -1, h := { h with lookahead := { look with ifbuf := ifbuf } },
          live := [Resource.ifbuf] }
      | some next =>
        match x264_synch_frame_list_init f.list_init_ofbuf (h.frames_i_delay + 3) with
        | none =>
          { ret := -1, h := { h with lookahead := { look with ifbuf := ifbuf, next := next } },
            live := [Resource.ifbuf, Resource.next] }
        | some ofbuf =>
          let h1 : x264_t :=
            { h with lookahead := { look with ifbuf := ifbuf, next := next, ofbuf := ofbuf } }
          if h.param.i_sync_lookahead = 0 then
            { ret := 0, h := h1,
              live := [Resource.look, Resource.ifbuf, Resource.next, Resource.ofbuf] }
          else if f.macroblock_cache_allocate = true then
            { ret := -1, h := h1, live := [Resource.ifbuf, Resource.next, Resource.ofbuf] }
          else if f.macroblock_thread_allocate = true then
            { ret := -1, h := h1,
              live := [Resource.ifbuf, Resource.next, Resource.ofbuf,
                Resource.macroblock_cache] }
          else if f.pthread_create = true then
            { ret := -1, h := h1,
              live := [Resource.ifbuf, Resource.next, Resource.ofbuf,
                Resource.macroblock_cache, Resource.macroblock_thread] }
          else
            { ret := 0,
              h := { h1 with lookahead := { h1.lookahead with b_thread_active := true } },
              live := [Resource.look, Resource.ifbuf, Resource.next, Resource.ofbuf,
                Resource.macroblock_cache, Resource.macroblock_thread, Resource.thread] }

/-! ## The system: encoder thread and lookahead thread -/

/-- A state of the whole system: the handle, the frames submitted so far (in
submission order), the frames the encoder has already taken out of
`frames.current`, and whether the lookahead thread is parked inside its decision
step, waiting for room in `ofbuf`. -/
structure Sys where
  h : x264_t
  submitted : List Nat
  taken : List Nat
  parked : Bool

/-- Every frame retrieved so far: those the encoder took, then those still in
`frames.current`. -/
def Sys.delivered (s : Sys) : List Nat := s.taken ++ s.h.frames_current

/-- One atomic step of the system. The lookahead thread exists only when
`i_sync_lookahead` is not zero; while it is parked it does nothing but wake. -/
inductive Step (hk : Hooks) : Sys → Sys → Prop where
  /-- The encoder submits a frame. -/
  | submit (s : Sys) (frame : Nat) (h1 : x264_t)
      (hput : x264_lookahead_put_frame s.h frame = Result.ok h1) :
      Step hk s { s with h := h1, submitted := s.submitted ++ [frame] }
  /-- The thread fills `next` from `ifbuf`. -/
  | fill (s : Sys) (h1 : x264_t) (hthread : s.h.param.i_sync_lookahead ≠ 0)
      (hrun : s.parked = false) (hfill : x264_lookahead_thread_fill s.h = some h1) :
      Step hk s { s with h := h1 }
  /-- The thread performs a decision step that finds room in `ofbuf`. -/
  | decide (s : Sys) (h1 : x264_t) (hthread : s.h.param.i_sync_lookahead ≠ 0)
      (hrun : s.parked = false)
      (hdec : x264_lookahead_slicetype_decide hk s.h = Result.ok h1) :
      Step hk s { s with h := h1 }
  /-- The thread starts a decision step and parks, `ofbuf` being full. -/
  | decide_park (s : Sys) (h1 : x264_t) (hthread : s.h.param.i_sync_lookahead ≠ 0)
      (hrun : s.parked = false)
      (hdec : x264_lookahead_slicetype_decide hk s.h = Result.blocked h1) :
      Step hk s { s with h := h1, parked := true }
  /-- The parked thread finds room in `ofbuf` and ends its decision step. -/
  | decide_wake (s : Sys) (h1 : x264_t) (hthread : s.h.param.i_sync_lookahead ≠ 0)
      (hparked : s.parked = true)
      (hdec : x264_lookahead_slicetype_decide_wait hk s.h = Result.ok h1) :
      Step hk s { s with h := h1, parked := false }
  /-- The thread, asked to exit, moves what is left of `ifbuf` to `next`. -/
  | drain (s : Sys) (h1 : x264_t) (hthread : s.h.param.i_sync_lookahead ≠ 0)
      (hrun : s.parked = false) (hdrain : x264_lookahead_thread_drain s.h = some h1) :
      Step hk s { s with h := h1 }
  /-- The encoder asks the thread to exit. -/
  | request_exit (s : Sys) (hthread : s.h.param.i_sync_lookahead ≠ 0) :
      Step hk s { s with h := x264_lookahead_delete_request s.h }
  /-- The thread ends. -/
  | thread_end (s : Sys) (hthread : s.h.param.i_sync_lookahead ≠ 0)
      (hrun : s.parked = false) :
      Step hk s { s with h := x264_lookahead_thread_end s.h }
  /-- The encoder retrieves frames. -/
  | retrieve (s : Sys) (h1 : x264_t)
      (hget : x264_lookahead_get_frames hk s.h = Result.ok h1) :
      Step hk s { s with h := h1 }
  /-- The encoder takes the frame at the head of `frames.current`. -/
  | consume (s : Sys) (frame : Nat) (rest : List Nat)
      (htake : x264_frame_shift s.h.frames_current = some (frame, rest)) :
      Step hk s { s with h := { s.h with frames_current := rest }, taken := s.taken ++ [frame] }

/-- The states the system can be in: those built by a successful
`x264_lookahead_init` on a handle with nothing in `frames.current`, and those
reached from them step by step. -/
inductive Reachable (hk : Hooks) : Sys → Prop where
  | init (f : InitFaults) (h : x264_t) (i_slicetype_length : Int)
      (hcur : h.frames_current = [])
      (hret : (x264_lookahead_init f h i_slicetype_length).ret = 0) :
      Reachable hk
        { h := (x264_lookahead_init f h i_slicetype_length).h, submitted := [], taken := [],
          parked := false }
  | step (s s1 : Sys) (hs : Reachable hk s) (hstep : Step hk s s1) : Reachable hk s1

/-! ## What is assumed of the hooks -/

/-- The hooks write into frames only: the lists, the anchor, the flags and the
parameters are as they found them. -/
def Hooks.frames_only (hk : Hooks) : Prop :=
  (∀ h, (hk.x264_slicetype_decide h).lookahead = h.lookahead ∧
      (hk.x264_slicetype_decide h).frames_current = h.frames_current ∧
      (hk.x264_slicetype_decide h).param = h.param) ∧
  (∀ h b, (hk.x264_slicetype_analyse h b).lookahead = h.lookahead ∧
      (hk.x264_slicetype_analyse h b).frames_current = h.frames_current ∧
      (hk.x264_slicetype_analyse h b).param = h.param)

/-- The decision hook leaves the head of `next` with a run length `r` such that
`0 ≤ r` and the `r + 1` frames of the run are in `next`. -/
def Hooks.run_fits (hk : Hooks) : Prop :=
  ∀ h head rest, h.lookahead.next.list = head :: rest →
    0 ≤ ((hk.x264_slicetype_decide h).mem head).i_bframes ∧
    ((hk.x264_slicetype_decide h).mem head).i_bframes + 1 ≤ ((head :: rest).length : Int)

/-- The hooks change the run length of no frame outside `next`: once a run has
left `next`, its run length is final. -/
def Hooks.window_only (hk : Hooks) : Prop :=
  (∀ h p, p ∉ h.lookahead.next.list →
      ((hk.x264_slicetype_decide h).mem p).i_bframes = (h.mem p).i_bframes) ∧
  (∀ h b p, p ∉ h.lookahead.next.list →
      ((hk.x264_slicetype_analyse h b).mem p).i_bframes = (h.mem p).i_bframes)

/-- A complete run: a head frame and as many further frames as its run length. -/
def IsRun (mem : Nat → x264_frame_t) (run : List Nat) : Prop :=
  ∃ head tail, run = head :: tail ∧ (mem head).i_bframes = (tail.length : Int)

/-- A list of frames made of complete runs, one after the other. -/
inductive CompleteRuns (mem : Nat → x264_frame_t) : List Nat → Prop where
  | nil : CompleteRuns mem []
  | run (head : Nat) (tail rest : List Nat)
      (hlen : (mem head).i_bframes = (tail.length : Int))
      (hrest : CompleteRuns mem rest) : CompleteRuns mem (head :: (tail ++ rest))

/-! ## Sessions without a lookahead thread -/

/-- The number of decisions made so far. -/
def decide_count (calls : List HookCall) : Nat :=
  calls.count HookCall.slicetype_decide

/-- The decision hook gives the head of `next` the run length `rs[i]` at the
decision number `i` (counted from zero), and the analysis hook changes no run
length. -/
def Hooks.assigns (hk : Hooks) (rs : List Int) : Prop :=
  (∀ h head rest r, h.lookahead.next.list = head :: rest →
      rs.get? (decide_count h.calls) = some r →
      ((hk.x264_slicetype_decide h).mem head).i_bframes = r) ∧
  (∀ h b p, ((hk.x264_slicetype_analyse h b).mem p).i_bframes = (h.mem p).i_bframes)

/-- The encoder submits the frames one after the other. -/
def put_frames (h : x264_t) : List Nat → Result x264_t
  | [] => Result.ok h
  | frame :: frames =>
    match x264_lookahead_put_frame h frame with
    | Result.ok h1 => put_frames h1 frames
    | Result.blocked h1 => Result.blocked h1
    | Result.abort => Result.abort

/-- The encoder calls `x264_lookahead_get_frames` `k` times and empties
`frames.current` after each call; the result lists what each call delivered. -/
def get_runs (hk : Hooks) : Nat → x264_t → Result (List (List Nat) × x264_t)
  | 0, h => Result.ok ([], h)
  | k + 1, h =>
    match x264_lookahead_get_frames hk h with
    | Result.ok h1 =>
      match get_runs hk k { h1 with frames_current := [] } with
      | Result.ok (runs, h2) => Result.ok (h1.frames_current :: runs, h2)
      | Result.blocked (runs, h2) => Result.blocked (h1.frames_current :: runs, h2)
      | Result.abort => Result.abort
    | Result.blocked h1 => Result.blocked ([], h1)
    | Result.abort => Result.abort

/-- The frames cut into consecutive runs of `r + 1` frames, for `r` in `rs`. -/
def split_runs : List Int → List Nat → List (List Nat)
  | [], _ => []
  | r :: rs, frames =>
    frames.take (r + 1).toNat :: split_runs rs (frames.drop (r + 1).toNat)

/-- The composition the inline path is compared with: the decision step of the
thread, then `x264_lookahead_encoder_shift`. -/
def decide_then_encoder_shift (hk : Hooks) (h : x264_t) : Result x264_t :=
  match x264_lookahead_slicetype_decide hk h with
  | Result.ok h1 =>
    match x264_lookahead_encoder_shift h1 with
    | none => Result.abort
    | some h2 => Result.ok h2
  | Result.blocked h1 => Result.blocked h1
  | Result.abort => Result.abort

/-- The representation invariant of a synchronized frame list: `i_size` is the
number of frames in `list`. -/
def x264_synch_frame_list_t.wf (q : x264_synch_frame_list_t) : Prop :=
  q.i_size = q.list.length

instance (q : x264_synch_frame_list_t) : Decidable q.wf := by
  unfold x264_synch_frame_list_t.wf; infer_instance

/-- The invariant of the pipeline, for a handle `h`, the frames submitted so far
and the frames the encoder has taken: the three lists are well formed and within
their capacity, the frames taken, then those of `frames.current`, `ofbuf`, `next`
and `ifbuf`, are the frames submitted, in order, and `ifbuf` is not used without
a lookahead thread. -/
structure Inv (h : x264_t) (submitted taken : List Nat) : Prop where
  wf_ifbuf : h.lookahead.ifbuf.wf
  wf_next : h.lookahead.next.wf
  wf_ofbuf : h.lookahead.ofbuf.wf
  cap_ifbuf : h.lookahead.ifbuf.i_size ≤ h.lookahead.ifbuf.i_max_size
  cap_next : h.lookahead.next.i_size ≤ h.lookahead.next.i_max_size
  cap_ofbuf : h.lookahead.ofbuf.i_size ≤ h.lookahead.ofbuf.i_max_size
  order : taken ++ (h.frames_current ++ (h.lookahead.ofbuf.list ++
    (h.lookahead.next.list ++ h.lookahead.ifbuf.list))) = submitted
  inline_ifbuf : h.param.i_sync_lookahead = 0 → h.lookahead.ifbuf.list = []

/-! ## Executing the system -/

/-- The steps of the system, as commands. -/
inductive Action where
  | submit (frame : Nat) : Action
  | fill : Action
  | decide : Action
  | wake : Action
  | drain : Action
  | request_exit : Action
  | thread_end : Action
  | retrieve : Action
  | consume : Action
deriving DecidableEq

/-- The state after the step `a`, `none` when the step cannot be taken (the call
blocks or aborts, or there is no lookahead thread to take it). A decision step
that finds `ofbuf` full parks the thread. -/
def Sys.exec (hk : Hooks) (s : Sys) : Action → Option Sys
  | Action.submit frame =>
    match x264_lookahead_put_frame s.h frame with
    | Result.ok h1 => some { s with h := h1, submitted := s.submitted ++ [frame] }
    | Result.blocked _ => none
    | Result.abort => none
  | Action.fill =>
    if s.h.param.i_sync_lookahead ≠ 0 ∧ s.parked = false then
      match x264_lookahead_thread_fill s.h with
      | some h1 => some { s with h := h1 }
      | none => none
    else none
  | Action.decide =>
    if s.h.param.i_sync_lookahead ≠ 0 ∧ s.parked = false then
      match x264_lookahead_slicetype_decide hk s.h with
      | Result.ok h1 => some { s with h := h1 }
      | Result.blocked h1 => some { s with h := h1, parked := true }
      | Result.abort => none
    else none
  | Action.wake =>
    if s.h.param.i_sync_lookahead ≠ 0 ∧ s.parked = true then
      match x264_lookahead_slicetype_decide_wait hk s.h with
      | Result.ok h1 => some { s with h := h1, parked := false }
      | Result.blocked _ => none
      | Result.abort => none
    else none
  | Action.drain =>
    if s.h.param.i_sync_lookahead ≠ 0 ∧ s.parked = false then
      match x264_lookahead_thread_drain s.h with
      | some h1 => some { s with h := h1 }
      | none => none
    else none
  | Action.request_exit =>
    if s.h.param.i_sync_lookahead ≠ 0 then
      some { s with h := x264_lookahead_delete_request s.h }
    else none
  | Action.thread_end =>
    if s.h.param.i_sync_lookahead ≠ 0 ∧ s.parked = false then
      some { s with h := x264_lookahead_thread_end s.h }
    else none
  | Action.retrieve =>
    match x264_lookahead_get_frames hk s.h with
    | Result.ok h1 => some { s with h := h1 }
    | Result.blocked _ => none
    | Result.abort => none
  | Action.consume =>
    match x264_frame_shift s.h.frames_current with
    | some (frame, rest) =>
      some { s with h := { s.h with frames_current := rest }, taken := s.taken ++ [frame] }
    | none => none

/-- The state after the steps `acts`, taken in order. -/
def Sys.run (hk : Hooks) (s : Sys) : List Action → Option Sys
  | [] => some s
  | a :: acts =>
    match s.exec hk a with
    | some s1 => s1.run hk acts
    | none => none

/-- The frames in the three lists of the lookahead, the oldest first. -/
def x264_t.in_flight (h : x264_t) : List Nat :=
  h.lookahead.ofbuf.list ++ (h.lookahead.next.list ++ h.lookahead.ifbuf.list)

/-- The states of the sessions in which no frame is in the lists of the lookahead
twice: those built by a successful `x264_lookahead_init`, and those reached from
them step by step through states whose frames in the three lists are distinct. A
frame may be submitted again once it has been retrieved. -/
inductive ReachableDistinct (hk : Hooks) : Sys → Prop where
  | init (f : InitFaults) (h : x264_t) (i_slicetype_length : Int)
      (hcur : h.frames_current = [])
      (hret : (x264_lookahead_init f h i_slicetype_length).ret = 0) :
      ReachableDistinct hk
        { h := (x264_lookahead_init f h i_slicetype_length).h, submitted := [], taken := [],
          parked := false }
  | step (s s1 : Sys) (hs : ReachableDistinct hk s) (hstep : Step hk s s1)
      (hd : s1.h.in_flight.Nodup) : ReachableDistinct hk s1

/-- The state after the steps `acts`, taken in order; `none` also when a step
leaves a frame twice in the lists of the lookahead. -/
def Sys.run_distinct (hk : Hooks) (s : Sys) : List Action → Option Sys
  | [] => some s
  | a :: acts =>
    match s.exec hk a with
    | some s1 => if s1.h.in_flight.Nodup then s1.run_distinct hk acts else none
    | none => none

/-! ## Stub hooks and sample sessions -/

/-- A decision hook for tests: at the decision number `i` it gives the head of
`next` the run length `rs[i]` (`0` past the end of `rs`), cut down to what `next`
holds when `clamp` is set, and the coding type `X264_TYPE_P`. -/
def stub_slicetype_decide (rs : List Int) (clamp : Bool) (h : x264_t) : x264_t :=
  match h.lookahead.next.list with
  | [] => h
  | head :: rest =>
    let r := rs.getD (decide_count h.calls) 0
    { h with
      mem := Function.update h.mem head
        { h.mem head with
          i_type := 3
          i_bframes := if clamp = true then max 0 (min r (rest.length : Int)) else r } }

/-- Stub hooks: the decision stub, an analysis that changes nothing, and the test
of `x264.h` for the types `X264_TYPE_IDR` (1) and `X264_TYPE_I` (2). -/
def stub_hooks (rs : List Int) (clamp : Bool) : Hooks :=
  { x264_slicetype_decide := stub_slicetype_decide rs clamp
    x264_slicetype_analyse := fun h _ => h
    IS_X264_TYPE_I := fun t => decide (t = 1 ∨ t = 2) }

/-- No step of `x264_lookahead_init` fails. -/
def no_faults : InitFaults :=
  { malloc_look := false, list_init_ifbuf := false, list_init_next := false,
    list_init_ofbuf := false, macroblock_cache_allocate := false,
    macroblock_thread_allocate := false, pthread_create := false }

/-- A handle before `x264_lookahead_init`, with `i_sync_lookahead = sync` and
`frames.i_delay = 2`; every frame is owned once. -/
def sample_handle (sync : Int) : x264_t :=
  { param :=
      { i_sync_lookahead := sync, i_keyint_max := 250, b_mb_tree := 1,
        i_vbv_buffer_size := 0, i_lookahead := 40, b_stat_read := 0 }
    frames_i_delay := 2
    frames_current := []
    mem := fun _ => { i_type := 0, i_bframes := 0, i_reference_count := 1 }
    lookahead :=
      { b_exit_thread := false, b_thread_active := false, b_analyse_keyframe := false,
        i_last_keyframe := 0, i_slicetype_length := 0, last_nonb := none,
        ifbuf := { list := [], i_max_size := 0, i_size := 0, cv_fill := 0, cv_empty := 0 },
        next := { list := [], i_max_size := 0, i_size := 0, cv_fill := 0, cv_empty := 0 },
        ofbuf := { list := [], i_max_size := 0, i_size := 0, cv_fill := 0, cv_empty := 0 } }
    calls := [] }

/-- The system right after a successful `x264_lookahead_init` of the sample
handle. -/
def sample_start (sync : Int) : Sys :=
  { h := (x264_lookahead_init no_faults (sample_handle sync) 0).h
    submitted := [], taken := [], parked := false }

/-- The state the sample system is in after the steps `acts`; the start state when
they cannot all be taken. -/
def sample_after (rs : List Int) (sync : Int) (acts : List Action) : Sys :=
  ((sample_start sync).run (stub_hooks rs true) acts).getD (sample_start sync)

/-- The state the sample system is in after the steps `acts` of a session that
keeps the frames in the lists distinct; the start state when they cannot all be
taken so. -/
def sample_distinct (rs : List Int) (sync : Int) (acts : List Action) : Sys :=
  ((sample_start sync).run_distinct (stub_hooks rs true) acts).getD (sample_start sync)

/-- The sample handle, with the frame `p` as anchor. -/
def anchored_handle (p : Nat) : x264_t :=
  { sample_handle 0 with
    lookahead := { (sample_handle 0).lookahead with last_nonb := some p } }

/-- The invariant behind run atomicity: `ofbuf` is made of complete runs; `next`
and `ofbuf` have the same capacity; without a lookahead thread `ofbuf` is empty
between calls and nothing is parked; a parked decision step has left the head of
`next` with a run that `next` holds. -/
structure RunInv (s : Sys) : Prop where
  runs : CompleteRuns s.h.mem s.h.lookahead.ofbuf.list
  caps : s.h.lookahead.next.i_max_size = s.h.lookahead.ofbuf.i_max_size
  inline_ofbuf : s.h.param.i_sync_lookahead = 0 → s.h.lookahead.ofbuf.list = []
  inline_parked : s.h.param.i_sync_lookahead = 0 → s.parked = false
  parked_head : s.parked = true →
    ∃ head rest, s.h.lookahead.next.list = head :: rest ∧
      0 ≤ (s.h.mem head).i_bframes ∧
      (s.h.mem head).i_bframes + 1 ≤ ((head :: rest).length : Int)

/-- A state between two retrievals of a session without a lookahead thread:
`frames.current` and `ofbuf` are empty, `next` holds `frames`, and `ofbuf` has the
capacity to take them. -/
structure InlineReady (h : x264_t) (frames : List Nat) : Prop where
  mode : h.param.i_sync_lookahead = 0
  cur : h.frames_current = []
  wf_next : h.lookahead.next.wf
  next_list : h.lookahead.next.list = frames
  wf_ofbuf : h.lookahead.ofbuf.wf
  ofbuf_list : h.lookahead.ofbuf.list = []
  room : (frames.length : Int) ≤ h.lookahead.ofbuf.i_max_size

/-- Stub hooks whose decision gives the head of `next` the coding type
`X264_TYPE_I` (2) and the run length `0`. -/
def keyframe_hooks : Hooks :=
  { x264_slicetype_decide := fun h =>
      match h.lookahead.next.list with
      | [] => h
      | head :: _ =>
        { h with mem := Function.update h.mem head { h.mem head with i_type := 2, i_bframes := 0 } }
    x264_slicetype_analyse := fun h _ => h
    IS_X264_TYPE_I := fun t => decide (t = 1 ∨ t = 2) }

/-! ## The mutexes of the three lists -/

/-- The mutexes of the file: `ifbuf.mutex`, `next.mutex` and `ofbuf.mutex`. -/
inductive Mutex where
  | ifbuf : Mutex
  | next : Mutex
  | ofbuf : Mutex
deriving DecidableEq

/-- A call on a mutex: `x264_pthread_mutex_lock`, `x264_pthread_mutex_unlock`, and
`x264_pthread_cond_wait` with that mutex (the wait releases the mutex and takes
it again before it returns). -/
inductive LockOp where
  | lock (m : Mutex) : LockOp
  | unlock (m : Mutex) : LockOp
  | cond_wait (m : Mutex) : LockOp
deriving DecidableEq

/-- The calls on mutexes of `x264_lookahead_slicetype_decide`, lines 73-85, in
program order; `waits` is the number of times the body of the loop of line 74
runs. The hooks, which are not in this file, are taken not to touch the three
mutexes. -/
def x264_lookahead_slicetype_decide_locks (waits : Nat) : List LockOp :=
  LockOp.lock Mutex.ofbuf ::
    (List.replicate waits (LockOp.cond_wait Mutex.ofbuf) ++
      [LockOp.lock Mutex.next, LockOp.unlock Mutex.next, LockOp.unlock Mutex.ofbuf])

/-- The calls on mutexes of one turn of the main loop of `x264_lookahead_thread`,
lines 97-112. With `b_decide` unset the turn takes the branch of lines 103-107
and waits `waits` times for input; with `b_decide` set it takes the branch of
lines 109-112 and runs a decision step that waits `waits` times. -/
def x264_lookahead_thread_turn_locks (b_decide : Bool) (waits : Nat) : List LockOp :=
  [LockOp.lock Mutex.ifbuf, LockOp.lock Mutex.next, LockOp.unlock Mutex.next] ++
    (if b_decide = true then
      LockOp.unlock Mutex.ifbuf :: x264_lookahead_slicetype_decide_locks waits
    else
      List.replicate waits (LockOp.cond_wait Mutex.ifbuf) ++ [LockOp.unlock Mutex.ifbuf])

/-- The calls on mutexes of `x264_lookahead_thread`, lines 95-124: the turns of
the main loop, the drain (lines 114-118), the decision steps of the loop of line
119 (one number of waits each), and the end of the thread (lines 121-124). -/
def x264_lookahead_thread_locks (turns : List (Bool × Nat)) (decisions : List Nat) :
    List LockOp :=
  (turns.map (fun t => x264_lookahead_thread_turn_locks t.1 t.2)).flatten ++
    ([LockOp.lock Mutex.ifbuf, LockOp.lock Mutex.next, LockOp.unlock Mutex.next,
        LockOp.unlock Mutex.ifbuf] ++
      ((decisions.map x264_lookahead_slicetype_decide_locks).flatten ++
        [LockOp.lock Mutex.ofbuf, LockOp.unlock Mutex.ofbuf]))

/-- Modelled from the spec: the blocking push of a queue (`x264_synch_frame_list_push`,
defined in `common/frame.c`, which is not among the sources) is guarded by the
lock of that queue and by no other: it takes the lock, waits on it while the
queue is full, `waits` times, and releases it. -/
def x264_synch_frame_list_push_locks (m : Mutex) (waits : Nat) : List LockOp :=
  LockOp.lock m :: (List.replicate waits (LockOp.cond_wait m) ++ [LockOp.unlock m])

/-- The calls on mutexes of `x264_lookahead_put_frame`, lines 188-194; `threaded`
stands for `h->param.i_sync_lookahead != 0`. -/
def x264_lookahead_put_frame_locks (threaded : Bool) (waits : Nat) : List LockOp :=
  if threaded = true then x264_synch_frame_list_push_locks Mutex.ifbuf waits
  else x264_synch_frame_list_push_locks Mutex.next waits

/-- The calls on mutexes of `x264_lookahead_is_empty`, lines 196-204. -/
def x264_lookahead_is_empty_locks : List LockOp :=
  [LockOp.lock Mutex.ofbuf, LockOp.lock Mutex.next, LockOp.unlock Mutex.next,
    LockOp.unlock Mutex.ofbuf]

/-- The calls on mutexes of `x264_lookahead_get_frames`, lines 219-245: with a
lookahead thread the wait of lines 224-225 runs `waits` times; without one the
call touches no mutex. -/
def x264_lookahead_get_frames_locks (threaded : Bool) (waits : Nat) : List LockOp :=
  if threaded = true then
    LockOp.lock Mutex.ofbuf ::
      (List.replicate waits (LockOp.cond_wait Mutex.ofbuf) ++ [LockOp.unlock Mutex.ofbuf])
  else []

/-- The calls on mutexes of `x264_lookahead_delete`, lines 167-186. -/
def x264_lookahead_delete_locks (threaded : Bool) : List LockOp :=
  if threaded = true then [LockOp.lock Mutex.ifbuf, LockOp.unlock Mutex.ifbuf] else []

/-- A call of the encoder into the file. -/
inductive EncoderCall where
  | put_frame (waits : Nat) : EncoderCall
  | is_empty : EncoderCall
  | get_frames (waits : Nat) : EncoderCall
  | delete : EncoderCall
deriving DecidableEq

/-- The calls on mutexes of one call of the encoder. -/
def EncoderCall.locks (threaded : Bool) : EncoderCall → List LockOp
  | EncoderCall.put_frame waits => x264_lookahead_put_frame_locks threaded waits
  | EncoderCall.is_empty => x264_lookahead_is_empty_locks
  | EncoderCall.get_frames waits => x264_lookahead_get_frames_locks threaded waits
  | EncoderCall.delete => x264_lookahead_delete_locks threaded

/-- The calls on mutexes of the encoder thread over a sequence of calls. -/
def encoder_locks (threaded : Bool) (calls : List EncoderCall) : List LockOp :=
  (calls.map (EncoderCall.locks threaded)).flatten

/-- The mutexes a thread holds after a call, the last one taken first. -/
def held_after (held : List Mutex) : LockOp → List Mutex
  | LockOp.lock m => m :: held
  | LockOp.unlock m => held.erase m
  | LockOp.cond_wait _ => held

/-- The calls of a thread, each with the mutexes the thread holds when it makes
the call. -/
def lock_states : List Mutex → List LockOp → List (List Mutex × LockOp)
  | _, [] => []
  | held, op :: ops => (held, op) :: lock_states (held_after held op) ops

/-- The mutexes a thread holds after a sequence of calls. -/
def final_held (held : List Mutex) (ops : List LockOp) : List Mutex :=
  ops.foldl held_after held

/-- The discipline at one call: a mutex is taken when none is held, or it is
`next.mutex` and the only mutex held is that of `ifbuf` or of `ofbuf`; the mutex
released is the last one taken; a wait is on the only mutex held. -/
def lock_step_ok (held : List Mutex) : LockOp → Bool
  | LockOp.lock m =>
    decide (held = []) ||
      (decide (m = Mutex.next) &&
        (decide (held = [Mutex.ifbuf]) || decide (held = [Mutex.ofbuf])))
  | LockOp.unlock m => decide (held.head? = some m)
  | LockOp.cond_wait m => decide (held = [m])

/-- The lock discipline of the calls `t` of a thread that starts with no mutex:
it ends with no mutex; it never holds `ifbuf.mutex` and `ofbuf.mutex` together;
when it holds two mutexes they are those of `ifbuf` and `next` or of `ofbuf` and
`next`, with that of `next` taken last, and it never holds three; it takes a
mutex only when it holds none, or the mutex is that of `next`; it releases only
a mutex it holds; and it waits only on the one mutex it holds. -/
def LockDiscipline (t : List LockOp) : Prop :=
  final_held [] t = [] ∧
  ∀ held op, (held, op) ∈ lock_states [] t →
    ¬ (Mutex.ifbuf ∈ held ∧ Mutex.ofbuf ∈ held) ∧
    held.length ≤ 2 ∧
    (held.length = 2 →
      held = [Mutex.next, Mutex.ifbuf] ∨ held = [Mutex.next, Mutex.ofbuf]) ∧
    (∀ m, op = LockOp.lock m → m ∉ held ∧
      (held ≠ [] → m = Mutex.next ∧ (held = [Mutex.ifbuf] ∨ held = [Mutex.ofbuf]))) ∧
    (∀ m, op = LockOp.unlock m → m ∈ held) ∧
    (∀ m, op = LockOp.cond_wait m → held = [m])

/-! ## Properties of the frame lists -/


theorem list_store_length (l : List Nat) (f : Nat) : list_store l (l.length : Int) f = l ++ [f] := by
  simp [list_store]

/-- The loop of `x264_lookahead_shift` on well-formed lists with enough frames and enough room. -/
theorem shift_loop_ok (n : Nat) : ∀ (dst src : x264_synch_frame_list_t),
    dst.wf → src.wf → (n : Int) ≤ src.i_size → dst.i_size + n ≤ dst.i_max_size →
    x264_lookahead_shift_loop n dst src =
      some ({ dst with list := dst.list ++ src.list.take n, i_size := dst.i_size + n },
            { src with list := src.list.drop n, i_size := src.i_size - n }) := by
  induction n with
  | zero => intro dst src _ _ _ _; simp [x264_lookahead_shift_loop]
  | succ n ih =>
    intro dst src hd hs h1 h2
    unfold x264_synch_frame_list_t.wf at hd hs
    cases hl : src.list with
    | nil => rw [hl] at hs; simp at hs; omega
    | cons f rest =>
      rw [hl] at hs
      simp only [List.length_cons, Nat.cast_add, Nat.cast_one] at hs
      have hlt : dst.i_size < dst.i_max_size := by push_cast at h2; omega
      have hne : src.i_size ≠ 0 := by omega
      simp only [x264_lookahead_shift_loop, hlt, not_true_eq_false, if_false, hne, hl,
        x264_frame_shift]
      rw [ih]
      · simp only [hd, list_store_length, List.take_succ_cons, List.drop_succ_cons,
          List.append_assoc, List.singleton_append]
        have e1 : (dst.list.length : Int) + 1 + (n : Int) = dst.list.length + ((n + 1 : Nat) : Int) := by
          push_cast; omega
        have e2 : src.i_size - 1 - (n : Int) = src.i_size - ((n + 1 : Nat) : Int) := by
          push_cast; omega
        rw [e1, e2]
      · simp [x264_synch_frame_list_t.wf, hd, list_store_length]
      · simp [x264_synch_frame_list_t.wf, hs]
      · simp only; push_cast at h1; omega
      · simp only; push_cast at h2; omega

theorem shift_loop_some (n : Nat) : ∀ (dst src d s : x264_synch_frame_list_t),
    dst.wf → src.wf → x264_lookahead_shift_loop n dst src = some (d, s) →
    (n : Int) ≤ src.i_size ∧ (n = 0 ∨ dst.i_size + n ≤ dst.i_max_size) := by
  induction n with
  | zero =>
    intro dst src d s _ hs _
    unfold x264_synch_frame_list_t.wf at hs
    constructor
    · simp [hs]
    · left; rfl
  | succ n ih =>
    intro dst src d s hd hs h
    unfold x264_synch_frame_list_t.wf at hd hs
    simp only [x264_lookahead_shift_loop] at h
    split at h
    · exact absurd h (by simp)
    · rename_i hlt
      split at h
      · exact absurd h (by simp)
      · cases hl : src.list with
        | nil => simp [hl, x264_frame_shift] at h
        | cons f rest =>
          simp only [hl, x264_frame_shift] at h
          rw [hl] at hs
          simp only [List.length_cons, Nat.cast_add, Nat.cast_one] at hs
          have := ih _ _ d s (by simp [x264_synch_frame_list_t.wf, hd, list_store_length])
            (by simp [x264_synch_frame_list_t.wf, hs]) h
          simp only at this
          obtain ⟨a, b⟩ := this
          constructor
          · push_cast; omega
          · right
            rcases b with b | b
            · subst b; push_cast; simp only [not_not] at hlt; omega
            · push_cast; omega

theorem shift_ok (dst src : x264_synch_frame_list_t) (count : Int)
    (hd : dst.wf) (hs : src.wf) (h0 : 0 ≤ count) (h1 : count ≤ src.i_size)
    (h2 : dst.i_size + count ≤ dst.i_max_size) :
    x264_lookahead_shift dst src count =
      some ({ list := dst.list ++ src.list.take count.toNat
              i_max_size := dst.i_max_size
              i_size := dst.i_size + count
              cv_fill := dst.cv_fill + (if 0 < count then 1 else 0)
              cv_empty := dst.cv_empty },
            { list := src.list.drop count.toNat
              i_max_size := src.i_max_size
              i_size := src.i_size - count
              cv_fill := src.cv_fill
              cv_empty := src.cv_empty + (if 0 < count then 1 else 0) }) := by
  have hc : ((count.toNat : Nat) : Int) = count := Int.toNat_of_nonneg h0
  have hloop := shift_loop_ok count.toNat dst src hd hs (by omega) (by omega)
  simp only [x264_lookahead_shift, not_lt.mpr h0, if_false, hloop, hc]
  by_cases hz : count = 0
  · subst hz; simp
  · have hp : 0 < count := by omega
    simp [hz, hp]

theorem shift_some (dst src d s : x264_synch_frame_list_t) (count : Int)
    (hd : dst.wf) (hs : src.wf) (h : x264_lookahead_shift dst src count = some (d, s)) :
    0 ≤ count ∧ count ≤ src.i_size ∧ (count = 0 ∨ dst.i_size + count ≤ dst.i_max_size) := by
  unfold x264_lookahead_shift at h
  split at h
  · exact absurd h (by simp)
  · rename_i h0
    have h0 : 0 ≤ count := by omega
    have hc : ((count.toNat : Nat) : Int) = count := Int.toNat_of_nonneg h0
    cases hl : x264_lookahead_shift_loop count.toNat dst src with
    | none => simp [hl] at h
    | some r =>
      obtain ⟨d1, s1⟩ := r
      have := shift_loop_some count.toNat dst src d1 s1 hd hs hl
      refine ⟨h0, by omega, ?_⟩
      rcases this.2 with b | b
      · left; omega
      · right; omega

/-- Every successful `x264_lookahead_shift` on well-formed lists is a move of the
first `count` frames. -/
theorem shift_eq (dst src d s : x264_synch_frame_list_t) (count : Int)
    (hd : dst.wf) (hs : src.wf) (h : x264_lookahead_shift dst src count = some (d, s)) :
    0 ≤ count ∧ count ≤ src.i_size ∧
    d.list = dst.list ++ src.list.take count.toNat ∧ s.list = src.list.drop count.toNat ∧
    d.i_size = dst.i_size + count ∧ s.i_size = src.i_size - count ∧
    d.i_max_size = dst.i_max_size ∧ s.i_max_size = src.i_max_size ∧
    (dst.i_size ≤ dst.i_max_size → d.i_size ≤ d.i_max_size) := by
  obtain ⟨h0, h1, h2⟩ := shift_some dst src d s count hd hs h
  rcases h2 with h2 | h2
  · subst h2
    simp only [x264_lookahead_shift, lt_self_iff_false, if_false, Int.toNat_zero,
      x264_lookahead_shift_loop, ne_eq, not_true_eq_false, Option.some.injEq,
      Prod.mk.injEq] at h
    obtain ⟨rfl, rfl⟩ := h
    simp [h1]
  · have := shift_ok dst src count hd hs h0 h1 h2
    rw [this] at h
    simp only [Option.some.injEq, Prod.mk.injEq] at h
    obtain ⟨rfl, rfl⟩ := h
    simp only [true_and, and_self, h0, h1]
    intro _; exact h2

theorem encoder_shift_loop_ok (n : Nat) : ∀ (current : List Nat) (q : x264_synch_frame_list_t),
    n ≤ q.list.length →
    x264_lookahead_encoder_shift_loop n current q =
      some (current ++ q.list.take n,
        { q with list := q.list.drop n, i_size := q.i_size - n }) := by
  induction n with
  | zero => intro current q _; simp [x264_lookahead_encoder_shift_loop]
  | succ n ih =>
    intro current q h
    cases hl : q.list with
    | nil => rw [hl] at h; simp at h
    | cons f rest =>
      rw [hl] at h
      simp only [List.length_cons, add_le_add_iff_right] at h
      simp only [x264_lookahead_encoder_shift_loop, hl, x264_frame_shift, x264_frame_push]
      rw [ih _ _ (by simpa using h)]
      simp only [List.append_assoc, List.singleton_append, List.take_succ_cons,
        List.drop_succ_cons, Nat.cast_add, Nat.cast_one]
      have e : q.i_size - 1 - (n : Int) = q.i_size - ((n : Int) + 1) := by omega
      rw [e]

theorem encoder_shift_loop_some (n : Nat) : ∀ (current : List Nat)
    (q : x264_synch_frame_list_t) (r : List Nat × x264_synch_frame_list_t),
    x264_lookahead_encoder_shift_loop n current q = some r → n ≤ q.list.length := by
  induction n with
  | zero => intro _ _ _ _; exact Nat.zero_le _
  | succ n ih =>
    intro current q r h
    cases hl : q.list with
    | nil => simp [x264_lookahead_encoder_shift_loop, hl, x264_frame_shift] at h
    | cons f rest =>
      simp only [x264_lookahead_encoder_shift_loop, hl, x264_frame_shift] at h
      have := ih _ _ r h
      simp only at this
      simp only [List.length_cons]; omega

/-- The state after a retrieval of `n` frames. -/
theorem encoder_shift_ok (h : x264_t) (head : Nat) (rest : List Nat)
    (hne : h.lookahead.ofbuf.i_size ≠ 0)
    (hl : h.lookahead.ofbuf.list = head :: rest)
    (h0 : 0 ≤ (h.mem head).i_bframes + 1)
    (h1 : (h.mem head).i_bframes + 1 ≤ ((head :: rest).length : Int)) :
    x264_lookahead_encoder_shift h =
      some { h with
        frames_current :=
          h.frames_current ++ (head :: rest).take ((h.mem head).i_bframes + 1).toNat
        lookahead := { h.lookahead with
          ofbuf := { h.lookahead.ofbuf with
            list := (head :: rest).drop ((h.mem head).i_bframes + 1).toNat
            i_size := h.lookahead.ofbuf.i_size - ((h.mem head).i_bframes + 1)
            cv_empty := h.lookahead.ofbuf.cv_empty + 1 } } } := by
  have hc : ((((h.mem head).i_bframes + 1).toNat : Nat) : Int) = (h.mem head).i_bframes + 1 :=
    Int.toNat_of_nonneg h0
  have hn : ((h.mem head).i_bframes + 1).toNat ≤ h.lookahead.ofbuf.list.length := by
    rw [hl]; omega
  simp only [x264_lookahead_encoder_shift, hne, if_false, hl, not_lt.mpr h0]
  have := encoder_shift_loop_ok _ h.frames_current h.lookahead.ofbuf hn
  rw [hl] at this
  rw [this, hc]

theorem encoder_shift_some (h h1 : x264_t) (hne : h.lookahead.ofbuf.i_size ≠ 0)
    (hs : x264_lookahead_encoder_shift h = some h1) :
    ∃ head rest, h.lookahead.ofbuf.list = head :: rest ∧ 0 ≤ (h.mem head).i_bframes + 1 ∧
      (h.mem head).i_bframes + 1 ≤ ((head :: rest).length : Int) := by
  simp only [x264_lookahead_encoder_shift, hne, if_false] at hs
  cases hl : h.lookahead.ofbuf.list with
  | nil => simp [hl] at hs
  | cons head rest =>
    simp only [hl] at hs
    split at hs
    · exact absurd hs (by simp)
    · rename_i h0
      refine ⟨head, rest, rfl, by omega, ?_⟩
      cases hloop : x264_lookahead_encoder_shift_loop ((h.mem head).i_bframes + 1).toNat
          h.frames_current h.lookahead.ofbuf with
      | none => simp [hloop] at hs
      | some r =>
        have := encoder_shift_loop_some _ _ _ r hloop
        rw [hl] at this
        have hc : ((((h.mem head).i_bframes + 1).toNat : Nat) : Int) =
            (h.mem head).i_bframes + 1 := Int.toNat_of_nonneg (by omega)
        omega

/-! ## The invariant of the pipeline -/

theorem inv_put_frame (h h1 : x264_t) (frame : Nat) (sub tk : List Nat)
    (hinv : Inv h sub tk) (hput : x264_lookahead_put_frame h frame = Result.ok h1) :
    Inv h1 (sub ++ [frame]) tk := by
  obtain ⟨w1, w2, w3, c1, c2, c3, ho, hi⟩ := hinv
  unfold x264_synch_frame_list_t.wf at w1 w2 w3
  unfold x264_lookahead_put_frame x264_synch_frame_list_push at hput
  by_cases hm : h.param.i_sync_lookahead = 0
  · have hi := hi hm
    simp only [hm, ne_eq, not_true_eq_false, if_false] at hput
    by_cases hfull : h.lookahead.next.i_size = h.lookahead.next.i_max_size
    · simp [hfull] at hput
    · simp only [hfull, if_false, Result.ok.injEq] at hput
      subst hput
      refine ⟨w1, ?_, w3, c1, ?_, c3, ?_, fun _ => hi⟩
      · simp [x264_synch_frame_list_t.wf, w2]
      · simp only; omega
      · simp only [hi, List.append_nil] at ho ⊢
        rw [← ho]; simp
  · simp only [hm, ne_eq, not_false_eq_true, if_true] at hput
    by_cases hfull : h.lookahead.ifbuf.i_size = h.lookahead.ifbuf.i_max_size
    · simp [hfull] at hput
    · simp only [hfull, if_false, Result.ok.injEq] at hput
      subst hput
      refine ⟨?_, w2, w3, ?_, c2, c3, ?_, fun hz => absurd hz hm⟩
      · simp [x264_synch_frame_list_t.wf, w1]
      · simp only; omega
      · simp only; rw [← ho]; simp

/-- Moving frames from `ifbuf` to `next` with `x264_lookahead_shift`. -/
theorem inv_shift_ifbuf_next (h : x264_t) (sub tk : List Nat) (count : Int)
    (next ifbuf : x264_synch_frame_list_t) (hinv : Inv h sub tk)
    (hm : h.param.i_sync_lookahead ≠ 0)
    (hs : x264_lookahead_shift h.lookahead.next h.lookahead.ifbuf count = some (next, ifbuf)) :
    Inv { h with lookahead := { h.lookahead with next := next, ifbuf := ifbuf } } sub tk := by
  obtain ⟨w1, w2, w3, c1, c2, c3, ho, hi⟩ := hinv
  obtain ⟨h0, h1, e1, e2, e3, e4, e5, e6, e7⟩ := shift_eq _ _ _ _ count w2 w1 hs
  unfold x264_synch_frame_list_t.wf at w1 w2 w3
  have hc : ((count.toNat : Nat) : Int) = count := Int.toNat_of_nonneg h0
  refine ⟨?_, ?_, w3, ?_, e7 c2, c3, ?_, fun hz => absurd hz hm⟩
  · simp only [x264_synch_frame_list_t.wf, e2, e4, List.length_drop]; omega
  · simp only [x264_synch_frame_list_t.wf, e1, e3, List.length_append, List.length_take]
    omega
  · simp only [e4, e6]; omega
  · simp only [e1, e2, List.append_assoc, List.take_append_drop]; exact ho

/-- Moving frames from `next` to `ofbuf` with `x264_lookahead_shift`. -/
theorem inv_shift_next_ofbuf (h : x264_t) (sub tk : List Nat) (count : Int)
    (ofbuf next : x264_synch_frame_list_t) (hinv : Inv h sub tk)
    (hs : x264_lookahead_shift h.lookahead.ofbuf h.lookahead.next count = some (ofbuf, next)) :
    Inv { h with lookahead := { h.lookahead with ofbuf := ofbuf, next := next } } sub tk := by
  obtain ⟨w1, w2, w3, c1, c2, c3, ho, hi⟩ := hinv
  obtain ⟨h0, h1, e1, e2, e3, e4, e5, e6, e7⟩ := shift_eq _ _ _ _ count w3 w2 hs
  unfold x264_synch_frame_list_t.wf at w1 w2 w3
  have hc : ((count.toNat : Nat) : Int) = count := Int.toNat_of_nonneg h0
  refine ⟨w1, ?_, ?_, c1, ?_, e7 c3, ?_, hi⟩
  · simp only [x264_synch_frame_list_t.wf, e2, e4, List.length_drop]; omega
  · simp only [x264_synch_frame_list_t.wf, e1, e3, List.length_append, List.length_take]
    omega
  · simp only [e4, e6]; omega
  · simp only [e1, e2, List.append_assoc]
    rw [← List.append_assoc (List.take _ _), List.take_append_drop]; exact ho

/-- The invariant looks at the lists, `frames.current` and the mode only. -/
theorem inv_congr (h h1 : x264_t) (sub tk : List Nat) (hinv : Inv h sub tk)
    (hl : h1.lookahead.ifbuf = h.lookahead.ifbuf) (hn : h1.lookahead.next = h.lookahead.next)
    (ho : h1.lookahead.ofbuf = h.lookahead.ofbuf)
    (hc : h1.frames_current = h.frames_current)
    (hp : h1.param.i_sync_lookahead = h.param.i_sync_lookahead) : Inv h1 sub tk := by
  obtain ⟨w1, w2, w3, c1, c2, c3, hord, hi⟩ := hinv
  exact ⟨by rw [hl]; exact w1, by rw [hn]; exact w2, by rw [ho]; exact w3,
    by rw [hl]; exact c1, by rw [hn]; exact c2, by rw [ho]; exact c3,
    by rw [hl, hn, ho, hc]; exact hord, by rw [hl, hp]; exact hi⟩

theorem inv_encoder_shift (h h1 : x264_t) (sub tk : List Nat) (hinv : Inv h sub tk)
    (hs : x264_lookahead_encoder_shift h = some h1) : Inv h1 sub tk := by
  by_cases hne : h.lookahead.ofbuf.i_size = 0
  · simp only [x264_lookahead_encoder_shift, hne, if_true, Option.some.injEq] at hs
    subst hs; exact hinv
  · obtain ⟨head, rest, hl, h0, hle⟩ := encoder_shift_some h h1 hne hs
    rw [encoder_shift_ok h head rest hne hl h0 hle] at hs
    simp only [Option.some.injEq] at hs
    subst hs
    obtain ⟨w1, w2, w3, c1, c2, c3, ho, hi⟩ := hinv
    unfold x264_synch_frame_list_t.wf at w1 w2 w3
    have hc : ((((h.mem head).i_bframes + 1).toNat : Nat) : Int) =
        (h.mem head).i_bframes + 1 := Int.toNat_of_nonneg h0
    refine ⟨w1, w2, ?_, c1, c2, ?_, ?_, hi⟩
    · simp only [x264_synch_frame_list_t.wf, List.length_drop, w3, hl]
      simp only [List.length_cons] at hle ⊢
      omega
    · simp only; omega
    · simp only [List.append_assoc]
      rw [← ho, hl]
      congr 2
      rw [← List.append_assoc, List.take_append_drop]

theorem call_decide_shape (hk : Hooks) (hfo : hk.frames_only) (h : x264_t) :
    (call_slicetype_decide hk h).lookahead = h.lookahead ∧
    (call_slicetype_decide hk h).frames_current = h.frames_current ∧
    (call_slicetype_decide hk h).param = h.param := by
  obtain ⟨a, b, c⟩ := hfo.1 h
  exact ⟨a, b, c⟩

theorem call_analyse_shape (hk : Hooks) (hfo : hk.frames_only) (h : x264_t) (b : Int) :
    (call_slicetype_analyse hk h b).lookahead = h.lookahead ∧
    (call_slicetype_analyse hk h b).frames_current = h.frames_current ∧
    (call_slicetype_analyse hk h b).param = h.param := by
  obtain ⟨a, b, c⟩ := hfo.2 h b
  exact ⟨a, b, c⟩

theorem update_last_nonb_shape (h : x264_t) (p : Nat) :
    (x264_lookahead_update_last_nonb h p).lookahead = { h.lookahead with last_nonb := some p } ∧
    (x264_lookahead_update_last_nonb h p).frames_current = h.frames_current ∧
    (x264_lookahead_update_last_nonb h p).param = h.param ∧
    (x264_lookahead_update_last_nonb h p).calls = h.calls := by
  unfold x264_lookahead_update_last_nonb x264_frame_push_unused
  cases h.lookahead.last_nonb <;> simp

theorem inv_decide_wait (hk : Hooks) (hfo : hk.frames_only) (h h1 : x264_t)
    (sub tk : List Nat) (hinv : Inv h sub tk)
    (hd : x264_lookahead_slicetype_decide_wait hk h = Result.ok h1) : Inv h1 sub tk := by
  unfold x264_lookahead_slicetype_decide_wait at hd
  split at hd
  · exact absurd hd (by simp)
  · split at hd
    · exact absurd hd (by simp)
    · rename_i head tl hl
      split at hd
      · exact absurd hd (by simp)
      · rename_i ofbuf next hs
        have hinv1 := inv_shift_next_ofbuf h sub tk _ ofbuf next hinv hs
        simp only at hd
        split at hd
        · split at hd
          · exact absurd hd (by simp)
          · split at hd
            · simp only [Result.ok.injEq] at hd
              subst hd
              obtain ⟨a, b, c⟩ := call_analyse_shape hk hfo
                { h with lookahead := { h.lookahead with ofbuf := ofbuf, next := next } } 1
              exact inv_congr _ _ sub tk hinv1 (by rw [a]) (by rw [a]) (by rw [a]) b (by rw [c])
            · simp only [Result.ok.injEq] at hd
              subst hd; exact hinv1
        · simp only [Result.ok.injEq] at hd
          subst hd; exact hinv1

theorem inv_decide_prepare (hk : Hooks) (hfo : hk.frames_only) (h : x264_t) (p : Nat)
    (sub tk : List Nat) (hinv : Inv h sub tk) :
    Inv (x264_lookahead_update_last_nonb (call_slicetype_decide hk h) p) sub tk := by
  obtain ⟨a, b, c⟩ := call_decide_shape hk hfo h
  obtain ⟨a1, b1, c1, _⟩ := update_last_nonb_shape (call_slicetype_decide hk h) p
  exact inv_congr _ _ sub tk hinv (by rw [a1, a]) (by rw [a1, a]) (by rw [a1, a])
    (by rw [b1, b]) (by rw [c1, c])

theorem inv_decide (hk : Hooks) (hfo : hk.frames_only) (h h1 : x264_t)
    (sub tk : List Nat) (hinv : Inv h sub tk)
    (hd : x264_lookahead_slicetype_decide hk h = Result.ok h1) : Inv h1 sub tk := by
  unfold x264_lookahead_slicetype_decide at hd
  simp only at hd
  split at hd
  · exact absurd hd (by simp)
  · exact inv_decide_wait hk hfo _ h1 sub tk (inv_decide_prepare hk hfo h _ sub tk hinv) hd

/-- A decision step that parks has run the hook and moved the anchor, no more. -/
theorem decide_blocked (hk : Hooks) (h h1 : x264_t)
    (hd : x264_lookahead_slicetype_decide hk h = Result.blocked h1) :
    ∃ p rest, (call_slicetype_decide hk h).lookahead.next.list = p :: rest ∧
      h1 = x264_lookahead_update_last_nonb (call_slicetype_decide hk h) p ∧
      h1.lookahead.ofbuf.i_size = h1.lookahead.ofbuf.i_max_size := by
  unfold x264_lookahead_slicetype_decide at hd
  simp only at hd
  split at hd
  · exact absurd hd (by simp)
  · rename_i p rest hl
    refine ⟨p, rest, hl, ?_⟩
    unfold x264_lookahead_slicetype_decide_wait at hd
    split at hd
    · rename_i hfull
      simp only [Result.blocked.injEq] at hd
      subst hd
      exact ⟨rfl, hfull⟩
    · split at hd
      · exact absurd hd (by simp)
      · split at hd
        · exact absurd hd (by simp)
        · simp only at hd
          split at hd
          · split at hd
            · exact absurd hd (by simp)
            · split at hd <;> exact absurd hd (by simp)
          · exact absurd hd (by simp)

theorem inv_get_frames (hk : Hooks) (hfo : hk.frames_only) (h h1 : x264_t)
    (sub tk : List Nat) (hinv : Inv h sub tk)
    (hg : x264_lookahead_get_frames hk h = Result.ok h1) : Inv h1 sub tk := by
  unfold x264_lookahead_get_frames at hg
  split at hg
  · split at hg
    · exact absurd hg (by simp)
    · split at hg
      · exact absurd hg (by simp)
      · rename_i h2 hs
        simp only [Result.ok.injEq] at hg
        subst hg
        exact inv_encoder_shift h _ sub tk hinv hs
  · split at hg
    · simp only [Result.ok.injEq] at hg
      subst hg; exact hinv
    · simp only at hg
      split at hg
      · exact absurd hg (by simp)
      · rename_i new_nonb _ _
        have hinv2 := inv_decide_prepare hk hfo h new_nonb sub tk hinv
        split at hg
        · exact absurd hg (by simp)
        · split at hg
          · exact absurd hg (by simp)
          · rename_i ofbuf next hs
            have hinv3 := inv_shift_next_ofbuf _ sub tk _ ofbuf next hinv2 hs
            split at hg
            · split at hg
              · exact absurd hg (by simp)
              · split at hg
                · split at hg
                  · exact absurd hg (by simp)
                  · rename_i h4 hes
                    simp only [Result.ok.injEq] at hg
                    subst hg
                    refine inv_encoder_shift _ _ sub tk ?_ hes
                    obtain ⟨a, b, c⟩ := call_analyse_shape hk hfo
                      { x264_lookahead_update_last_nonb (call_slicetype_decide hk h) new_nonb with
                        lookahead :=
                          { (x264_lookahead_update_last_nonb (call_slicetype_decide hk h)
                              new_nonb).lookahead with ofbuf := ofbuf, next := next } } 1
                    exact inv_congr _ _ sub tk hinv3 (by rw [a]) (by rw [a]) (by rw [a]) b
                      (by rw [c])
                · split at hg
                  · exact absurd hg (by simp)
                  · rename_i h4 hes
                    simp only [Result.ok.injEq] at hg
                    subst hg
                    exact inv_encoder_shift _ _ sub tk hinv3 hes
            · split at hg
              · exact absurd hg (by simp)
              · rename_i h4 hes
                simp only [Result.ok.injEq] at hg
                subst hg
                exact inv_encoder_shift _ _ sub tk hinv3 hes

/-- What a successful `x264_lookahead_init` has built. -/
theorem init_success (f : InitFaults) (h : x264_t) (n : Int)
    (hret : (x264_lookahead_init f h n).ret = 0) :
    0 ≤ h.param.i_sync_lookahead + 3 ∧ 0 ≤ h.frames_i_delay + 3 ∧
    (x264_lookahead_init f h n).h.lookahead.ifbuf =
      { list := [], i_max_size := h.param.i_sync_lookahead + 3, i_size := 0, cv_fill := 0,
        cv_empty := 0 } ∧
    (x264_lookahead_init f h n).h.lookahead.next =
      { list := [], i_max_size := h.frames_i_delay + 3, i_size := 0, cv_fill := 0,
        cv_empty := 0 } ∧
    (x264_lookahead_init f h n).h.lookahead.ofbuf =
      { list := [], i_max_size := h.frames_i_delay + 3, i_size := 0, cv_fill := 0,
        cv_empty := 0 } ∧
    (x264_lookahead_init f h n).h.lookahead.last_nonb = none ∧
    (x264_lookahead_init f h n).h.frames_current = h.frames_current ∧
    (x264_lookahead_init f h n).h.param = h.param ∧
    (x264_lookahead_init f h n).h.mem = h.mem ∧
    (x264_lookahead_init f h n).h.calls = h.calls := by
  unfold x264_lookahead_init x264_synch_frame_list_init at hret ⊢
  by_cases h1 : f.malloc_look = true
  · simp [h1] at hret
  by_cases h2 : f.list_init_ifbuf = true ∨ h.param.i_sync_lookahead + 3 < 0
  · simp [h1, h2] at hret
  by_cases h3 : f.list_init_next = true ∨ h.frames_i_delay + 3 < 0
  · simp [h1, h2, h3] at hret
  by_cases h4 : f.list_init_ofbuf = true ∨ h.frames_i_delay + 3 < 0
  · simp [h1, h2, h3, h4] at hret
  simp only [h1, h2, h3, h4, if_false] at hret ⊢
  have p1 : 0 ≤ h.param.i_sync_lookahead + 3 := by
    by_contra hc; exact h2 (Or.inr (by omega))
  have p2 : 0 ≤ h.frames_i_delay + 3 := by
    by_contra hc; exact h3 (Or.inr (by omega))
  by_cases h5 : h.param.i_sync_lookahead = 0
  · simp [h5, p2]
  by_cases h6 : f.macroblock_cache_allocate = true
  · simp [h5, h6] at hret
  by_cases h7 : f.macroblock_thread_allocate = true
  · simp [h5, h6, h7] at hret
  by_cases h8 : f.pthread_create = true
  · simp [h5, h6, h7, h8] at hret
  simp [h5, h6, h7, h8, p1, p2]

theorem inv_init (f : InitFaults) (h : x264_t) (n : Int) (hcur : h.frames_current = [])
    (hret : (x264_lookahead_init f h n).ret = 0) :
    Inv (x264_lookahead_init f h n).h [] [] := by
  obtain ⟨p1, p2, e1, e2, e3, _, e5, _⟩ := init_success f h n hret
  refine ⟨?_, ?_, ?_, ?_, ?_, ?_, ?_, ?_⟩
  · rw [e1]; rfl
  · rw [e2]; rfl
  · rw [e3]; rfl
  · rw [e1]; exact p1
  · rw [e2]; exact p2
  · rw [e3]; exact p2
  · rw [e1, e2, e3, e5, hcur]; rfl
  · intro _; rw [e1]

theorem inv_step (hk : Hooks) (hfo : hk.frames_only) (s s1 : Sys)
    (hinv : Inv s.h s.submitted s.taken) (hstep : Step hk s s1) :
    Inv s1.h s1.submitted s1.taken := by
  cases hstep with
  | submit frame h1 hput =>
    exact inv_put_frame s.h h1 frame _ _ hinv hput
  | fill h1 hthread hrun hfill =>
    unfold x264_lookahead_thread_fill at hfill
    simp only at hfill
    split at hfill
    · exact absurd hfill (by simp)
    · rename_i next ifbuf hs
      simp only [Option.some.injEq] at hfill
      subst hfill
      exact inv_shift_ifbuf_next s.h _ _ _ next ifbuf hinv hthread hs
  | decide h1 hthread hrun hdec => exact inv_decide hk hfo s.h h1 _ _ hinv hdec
  | decide_park h1 hthread hrun hdec =>
    obtain ⟨p, rest, _, rfl, _⟩ := decide_blocked hk s.h h1 hdec
    exact inv_decide_prepare hk hfo s.h p _ _ hinv
  | decide_wake h1 hthread hparked hdec => exact inv_decide_wait hk hfo s.h h1 _ _ hinv hdec
  | drain h1 hthread hrun hdrain =>
    unfold x264_lookahead_thread_drain at hdrain
    split at hdrain
    · exact absurd hdrain (by simp)
    · rename_i next ifbuf hs
      simp only [Option.some.injEq] at hdrain
      subst hdrain
      exact inv_shift_ifbuf_next s.h _ _ _ next ifbuf hinv hthread hs
  | request_exit hthread =>
    obtain ⟨w1, w2, w3, c1, c2, c3, ho, hi⟩ := hinv
    exact ⟨w1, w2, w3, c1, c2, c3, ho, hi⟩
  | thread_end hthread hrun =>
    obtain ⟨w1, w2, w3, c1, c2, c3, ho, hi⟩ := hinv
    exact ⟨w1, w2, w3, c1, c2, c3, ho, hi⟩
  | retrieve h1 hget => exact inv_get_frames hk hfo s.h h1 _ _ hinv hget
  | consume frame rest htake =>
    obtain ⟨w1, w2, w3, c1, c2, c3, ho, hi⟩ := hinv
    refine ⟨w1, w2, w3, c1, c2, c3, ?_, hi⟩
    cases hc : s.h.frames_current with
    | nil => simp [hc, x264_frame_shift] at htake
    | cons a b =>
      simp only [hc, x264_frame_shift, Option.some.injEq, Prod.mk.injEq] at htake
      obtain ⟨rfl, rfl⟩ := htake
      rw [hc] at ho
      simp only [List.append_assoc, List.singleton_append]
      exact ho

theorem inv_reachable (hk : Hooks) (hfo : hk.frames_only) (s : Sys) (hr : Reachable hk s) :
    Inv s.h s.submitted s.taken := by
  induction hr with
  | init f h n hcur hret => exact inv_init f h n hcur hret
  | step s s1 _ hstep ih => exact inv_step hk hfo s s1 ih hstep


/-! ## Executed sessions are reachable -/

theorem exec_step (hk : Hooks) (s s1 : Sys) (a : Action) (h : s.exec hk a = some s1) :
    Step hk s s1 := by
  cases a with
  | submit frame =>
    simp only [Sys.exec] at h
    split at h
    · rename_i h1 hput
      simp only [Option.some.injEq] at h; subst h
      exact Step.submit s frame h1 hput
    · exact absurd h (by simp)
    · exact absurd h (by simp)
  | fill =>
    simp only [Sys.exec] at h
    split at h
    · rename_i hg
      split at h
      · rename_i h1 hf
        simp only [Option.some.injEq] at h; subst h
        exact Step.fill s h1 hg.1 hg.2 hf
      · exact absurd h (by simp)
    · exact absurd h (by simp)
  | decide =>
    simp only [Sys.exec] at h
    split at h
    · rename_i hg
      split at h
      · rename_i h1 hf
        simp only [Option.some.injEq] at h; subst h
        exact Step.decide s h1 hg.1 hg.2 hf
      · rename_i h1 hf
        simp only [Option.some.injEq] at h; subst h
        exact Step.decide_park s h1 hg.1 hg.2 hf
      · exact absurd h (by simp)
    · exact absurd h (by simp)
  | wake =>
    simp only [Sys.exec] at h
    split at h
    · rename_i hg
      split at h
      · rename_i h1 hf
        simp only [Option.some.injEq] at h; subst h
        exact Step.decide_wake s h1 hg.1 hg.2 hf
      · exact absurd h (by simp)
      · exact absurd h (by simp)
    · exact absurd h (by simp)
  | drain =>
    simp only [Sys.exec] at h
    split at h
    · rename_i hg
      split at h
      · rename_i h1 hf
        simp only [Option.some.injEq] at h; subst h
        exact Step.drain s h1 hg.1 hg.2 hf
      · exact absurd h (by simp)
    · exact absurd h (by simp)
  | request_exit =>
    simp only [Sys.exec] at h
    split at h
    · rename_i hg
      simp only [Option.some.injEq] at h; subst h
      exact Step.request_exit s hg
    · exact absurd h (by simp)
  | thread_end =>
    simp only [Sys.exec] at h
    split at h
    · rename_i hg
      simp only [Option.some.injEq] at h; subst h
      exact Step.thread_end s hg.1 hg.2
    · exact absurd h (by simp)
  | retrieve =>
    simp only [Sys.exec] at h
    split at h
    · rename_i h1 hput
      simp only [Option.some.injEq] at h; subst h
      exact Step.retrieve s h1 hput
    · exact absurd h (by simp)
    · exact absurd h (by simp)
  | consume =>
    simp only [Sys.exec] at h
    split at h
    · rename_i frame rest ht
      simp only [Option.some.injEq] at h; subst h
      exact Step.consume s frame rest ht
    · exact absurd h (by simp)

theorem run_reachable (hk : Hooks) (acts : List Action) : ∀ (s s1 : Sys),
    Reachable hk s → s.run hk acts = some s1 → Reachable hk s1 := by
  induction acts with
  | nil =>
    intro s s1 hr h
    simp only [Sys.run, Option.some.injEq] at h
    subst h; exact hr
  | cons a acts ih =>
    intro s s1 hr h
    simp only [Sys.run] at h
    split at h
    · rename_i s2 he
      exact ih s2 s1 (Reachable.step s s2 hr (exec_step hk s s2 a he)) h
    · exact absurd h (by simp)

theorem sample_start_reachable (hk : Hooks) (sync : Int) (h3 : 0 ≤ sync + 3) :
    Reachable hk (sample_start sync) := by
  refine Reachable.init no_faults (sample_handle sync) 0 rfl ?_
  unfold x264_lookahead_init x264_synch_frame_list_init
  by_cases hz : sync = 0
  · subst hz; rfl
  · have : ¬ sync + 3 < 0 := by omega
    simp [no_faults, sample_handle, hz, this]

theorem sample_after_reachable (rs : List Int) (sync : Int) (acts : List Action)
    (h3 : 0 ≤ sync + 3) : Reachable (stub_hooks rs true) (sample_after rs sync acts) := by
  unfold sample_after
  cases hrun : (sample_start sync).run (stub_hooks rs true) acts with
  | none => exact sample_start_reachable _ sync h3
  | some s1 =>
    exact run_reachable _ acts _ s1 (sample_start_reachable _ sync h3) hrun

theorem stub_frames_only (rs : List Int) (clamp : Bool) : (stub_hooks rs clamp).frames_only := by
  constructor
  · intro h
    simp only [stub_hooks, stub_slicetype_decide]
    cases h.lookahead.next.list <;> simp
  · intro h b
    simp [stub_hooks]

/-! ## Moving frames, order and capacity (C5, C1, C3) -/

/-- C5. `x264_lookahead_shift( dst, src, count )` as `move_front`: on well-formed
lists, with `0 ≤ count`, `count ≤ src.i_size` and `dst.i_size + count ≤
dst.i_max_size`, no assertion fails; afterwards `dst.list` is the old `dst.list`
followed by the first `count` frames of the old `src.list`, `src.list` has lost
these frames, both capacities are as before, and `dst->cv_fill` and
`src->cv_empty` (and no other condition variable) have been signalled if and only
if `0 < count`. -/
theorem x264_lookahead_shift_move_front (dst src : x264_synch_frame_list_t) (count : Int)
    (hd : dst.wf) (hs : src.wf) (h0 : 0 ≤ count) (h1 : count ≤ src.i_size)
    (h2 : dst.i_size + count ≤ dst.i_max_size) :
    ∃ d s, x264_lookahead_shift dst src count = some (d, s) ∧
      d.list = dst.list ++ src.list.take count.toNat ∧
      s.list = src.list.drop count.toNat ∧
      d.i_size = dst.i_size + count ∧ s.i_size = src.i_size - count ∧
      d.i_max_size = dst.i_max_size ∧ s.i_max_size = src.i_max_size ∧
      (d.cv_fill ≠ dst.cv_fill ↔ 0 < count) ∧ (s.cv_empty ≠ src.cv_empty ↔ 0 < count) ∧
      d.cv_empty = dst.cv_empty ∧ s.cv_fill = src.cv_fill := by
  refine ⟨_, _, shift_ok dst src count hd hs h0 h1 h2, rfl, rfl, rfl, rfl, rfl, rfl, ?_, ?_,
    rfl, rfl⟩
  · by_cases hp : 0 < count <;> simp [hp]
  · by_cases hp : 0 < count <;> simp [hp]

/-- Witness of C5: two frames move from a list of three into a list that holds
one frame and has room for two more. -/
theorem x264_lookahead_shift_move_front_witness :
    ∃ d s, x264_lookahead_shift ⟨[9], 3, 1, 0, 0⟩ ⟨[1, 2, 3], 5, 3, 0, 0⟩ 2 = some (d, s) ∧
      d.list = [9] ++ [1, 2, 3].take (2 : Int).toNat ∧
      s.list = [1, 2, 3].drop (2 : Int).toNat ∧
      d.i_size = 1 + 2 ∧ s.i_size = 3 - 2 ∧
      d.i_max_size = 3 ∧ s.i_max_size = 5 ∧
      (d.cv_fill ≠ 0 ↔ (0 : Int) < 2) ∧ (s.cv_empty ≠ 0 ↔ (0 : Int) < 2) ∧
      d.cv_empty = 0 ∧ s.cv_fill = 0 :=
  x264_lookahead_shift_move_front ⟨[9], 3, 1, 0, 0⟩ ⟨[1, 2, 3], 5, 3, 0, 0⟩ 2
    (by decide) (by decide) (by decide) (by decide) (by decide)

/-- C1. Order preservation. When the hooks write into frames only, in every
reachable state the frames delivered so far, followed by those of `ofbuf`, of
`next` and of `ifbuf`, are the frames submitted so far, in submission order;
hence the frames delivered are a prefix of the frames submitted, and they are all
of them once the three lists are empty. -/
theorem order_preservation (hk : Hooks) (hfo : hk.frames_only) (s : Sys)
    (hr : Reachable hk s) :
    s.delivered ++ s.h.lookahead.ofbuf.list ++ s.h.lookahead.next.list ++
        s.h.lookahead.ifbuf.list = s.submitted ∧
      s.delivered <+: s.submitted ∧
      (s.h.lookahead.ofbuf.i_size = 0 → s.h.lookahead.next.i_size = 0 →
        s.h.lookahead.ifbuf.i_size = 0 → s.delivered = s.submitted) := by
  obtain ⟨w1, w2, w3, _, _, _, ho, _⟩ := inv_reachable hk hfo s hr
  unfold x264_synch_frame_list_t.wf at w1 w2 w3
  have e : s.delivered ++ s.h.lookahead.ofbuf.list ++ s.h.lookahead.next.list ++
      s.h.lookahead.ifbuf.list = s.submitted := by
    rw [← ho]; simp [Sys.delivered]
  refine ⟨e, ⟨s.h.lookahead.ofbuf.list ++ (s.h.lookahead.next.list ++
    s.h.lookahead.ifbuf.list), by rw [← e]; simp only [List.append_assoc]⟩, ?_⟩
  intro z1 z2 z3
  have l1 : s.h.lookahead.ofbuf.list = [] := List.length_eq_zero.mp (by omega)
  have l2 : s.h.lookahead.next.list = [] := List.length_eq_zero.mp (by omega)
  have l3 : s.h.lookahead.ifbuf.list = [] := List.length_eq_zero.mp (by omega)
  rw [← e, l1, l2, l3]; simp

/-- Witness of C1: with a lookahead thread, three frames are submitted, moved to
`next`, a run of two is decided and retrieved, and the encoder takes one frame. -/
theorem order_preservation_witness :
    (stub_hooks [1] true).frames_only ∧
    Reachable (stub_hooks [1] true)
      (sample_after [1] 1 [Action.submit 1, Action.submit 2, Action.submit 3, Action.fill,
        Action.decide, Action.retrieve, Action.consume]) ∧
    ((sample_after [1] 1 [Action.submit 1, Action.submit 2, Action.submit 3, Action.fill,
        Action.decide, Action.retrieve, Action.consume]).delivered = [1, 2] ∧
      (sample_after [1] 1 [Action.submit 1, Action.submit 2, Action.submit 3, Action.fill,
        Action.decide, Action.retrieve, Action.consume]).submitted = [1, 2, 3]) ∧
    ((sample_after [1] 1 [Action.submit 1, Action.submit 2, Action.submit 3, Action.fill,
        Action.decide, Action.retrieve, Action.consume]).delivered <+:
      (sample_after [1] 1 [Action.submit 1, Action.submit 2, Action.submit 3, Action.fill,
        Action.decide, Action.retrieve, Action.consume]).submitted) :=
  ⟨stub_frames_only [1] true, sample_after_reachable [1] 1 _ (by decide), ⟨rfl, rfl⟩,
    (order_preservation (stub_hooks [1] true) (stub_frames_only [1] true) _
      (sample_after_reachable [1] 1 _ (by decide))).2.1⟩

/-- C3. Capacity invariant. When the hooks write into frames only, in every
state reachable from the state built by `x264_lookahead_init`, by any interleaving
of the steps of the encoder and of the lookahead thread, each of the three lists
has `i_size ≤ i_max_size`. -/
theorem capacity_invariant (hk : Hooks) (hfo : hk.frames_only) (s : Sys)
    (hr : Reachable hk s) :
    s.h.lookahead.ifbuf.i_size ≤ s.h.lookahead.ifbuf.i_max_size ∧
    s.h.lookahead.next.i_size ≤ s.h.lookahead.next.i_max_size ∧
    s.h.lookahead.ofbuf.i_size ≤ s.h.lookahead.ofbuf.i_max_size := by
  obtain ⟨_, _, _, c1, c2, c3, _, _⟩ := inv_reachable hk hfo s hr
  exact ⟨c1, c2, c3⟩

/-- Witness of C3: the state in which four frames wait in `ifbuf` (which is then
full) and nothing else has happened. -/
theorem capacity_invariant_witness :
    (stub_hooks [] true).frames_only ∧
    Reachable (stub_hooks [] true)
      (sample_after [] 1 [Action.submit 1, Action.submit 2, Action.submit 3,
        Action.submit 4]) ∧
    (sample_after [] 1 [Action.submit 1, Action.submit 2, Action.submit 3,
        Action.submit 4]).h.lookahead.ifbuf.i_size = 4 ∧
    (sample_after [] 1 [Action.submit 1, Action.submit 2, Action.submit 3,
        Action.submit 4]).h.lookahead.ifbuf.i_size ≤
      (sample_after [] 1 [Action.submit 1, Action.submit 2, Action.submit 3,
        Action.submit 4]).h.lookahead.ifbuf.i_max_size :=
  ⟨stub_frames_only [] true, sample_after_reachable [] 1 _ (by decide), rfl,
    (capacity_invariant (stub_hooks [] true) (stub_frames_only [] true) _
      (sample_after_reachable [] 1 _ (by decide))).1⟩

/-! ## The decision step (C6) -/

/-- The anchor update changes reference counts only. -/
theorem update_last_nonb_mem (h : x264_t) (p q : Nat) :
    ((x264_lookahead_update_last_nonb h p).mem q).i_bframes = (h.mem q).i_bframes ∧
    ((x264_lookahead_update_last_nonb h p).mem q).i_type = (h.mem q).i_type := by
  unfold x264_lookahead_update_last_nonb x264_frame_push_unused
  cases h.lookahead.last_nonb with
  | none =>
    simp only [Function.update_apply]
    split <;> simp_all
  | some l =>
    simp only [Function.update_apply]
    split <;> split <;> simp_all

/-- The part of the decision step that follows the wait, when `ofbuf` has room
and the anchor is set. -/
theorem decide_wait_run (hk : Hooks) (h : x264_t) (head p : Nat) (rest : List Nat)
    (ofbuf next : x264_synch_frame_list_t)
    (hnf : h.lookahead.ofbuf.i_size ≠ h.lookahead.ofbuf.i_max_size)
    (hl : h.lookahead.next.list = head :: rest)
    (hs : x264_lookahead_shift h.lookahead.ofbuf h.lookahead.next
      ((h.mem head).i_bframes + 1) = some (ofbuf, next))
    (hlast : h.lookahead.last_nonb = some p) :
    x264_lookahead_slicetype_decide_wait hk h =
      Result.ok
        (if h.lookahead.b_analyse_keyframe = true ∧ hk.IS_X264_TYPE_I (h.mem p).i_type = true
          then call_slicetype_analyse hk
            { h with lookahead := { h.lookahead with ofbuf := ofbuf, next := next } } 1
          else { h with lookahead := { h.lookahead with ofbuf := ofbuf, next := next } }) := by
  unfold x264_lookahead_slicetype_decide_wait
  simp only [hnf, if_false, hl, hs, hlast]
  by_cases ha : h.lookahead.b_analyse_keyframe = true
  · by_cases hi : hk.IS_X264_TYPE_I (h.mem p).i_type = true
    · simp [ha, hi]
    · simp [ha, hi]
  · simp [ha]

/-- C6. Postcondition of the decision step `x264_lookahead_slicetype_decide`.
The hooks write into frames only. In a state whose `next` is not empty, let the
decision hook leave the head of `next` with the run length `r`, with `0 ≤ r`,
`r + 1 ≤ next.i_size` and `ofbuf.i_size + r + 1 ≤ ofbuf.i_max_size`. Then the
step runs to its end; `ofbuf.list` is the old `ofbuf.list` followed by the first
`r + 1` frames of `next`, `next.list` has lost these frames, `ifbuf` is as it
was, and `last_nonb` is the head, whatever its coding type. -/
theorem x264_lookahead_slicetype_decide_post (hk : Hooks) (hfo : hk.frames_only)
    (h : x264_t) (head : Nat) (rest : List Nat) (r : Int)
    (hl : h.lookahead.next.list = head :: rest)
    (wn : h.lookahead.next.wf) (wo : h.lookahead.ofbuf.wf)
    (hr : ((hk.x264_slicetype_decide h).mem head).i_bframes = r)
    (h0 : 0 ≤ r) (h1 : r + 1 ≤ h.lookahead.next.i_size)
    (h2 : h.lookahead.ofbuf.i_size + r + 1 ≤ h.lookahead.ofbuf.i_max_size) :
    ∃ h', x264_lookahead_slicetype_decide hk h = Result.ok h' ∧
      h'.lookahead.ofbuf.list = h.lookahead.ofbuf.list ++ (head :: rest).take (r + 1).toNat ∧
      h'.lookahead.next.list = (head :: rest).drop (r + 1).toNat ∧
      h'.lookahead.ifbuf = h.lookahead.ifbuf ∧
      h'.lookahead.last_nonb = some head := by
  obtain ⟨a, b, c⟩ := call_decide_shape hk hfo h
  obtain ⟨a1, b1, c1, _⟩ := update_last_nonb_shape (call_slicetype_decide hk h) head
  have hm : ((x264_lookahead_update_last_nonb (call_slicetype_decide hk h) head).mem
      head).i_bframes = r := by
    rw [(update_last_nonb_mem _ head head).1]; exact hr
  have hl1 : (call_slicetype_decide hk h).lookahead.next.list = head :: rest := by
    rw [a]; exact hl
  have hsh := shift_ok h.lookahead.ofbuf h.lookahead.next (r + 1) wo wn (by omega) h1
    (by omega)
  unfold x264_lookahead_slicetype_decide
  simp only [hl1]
  rw [decide_wait_run hk _ head head rest _ _ (by rw [a1, a]; simp only; omega)
    (by rw [a1, a]; exact hl) (by rw [a1, a, hm]; exact hsh) (by rw [a1])]
  refine ⟨_, rfl, ?_⟩
  split
  · obtain ⟨a2, _, _⟩ := call_analyse_shape hk hfo
      { x264_lookahead_update_last_nonb (call_slicetype_decide hk h) head with
        lookahead :=
          { (x264_lookahead_update_last_nonb (call_slicetype_decide hk h) head).lookahead with
            ofbuf :=
              { list := h.lookahead.ofbuf.list ++ h.lookahead.next.list.take (r + 1).toNat
                i_max_size := h.lookahead.ofbuf.i_max_size
                i_size := h.lookahead.ofbuf.i_size + (r + 1)
                cv_fill := h.lookahead.ofbuf.cv_fill + (if 0 < r + 1 then 1 else 0)
                cv_empty := h.lookahead.ofbuf.cv_empty }
            next :=
              { list := h.lookahead.next.list.drop (r + 1).toNat
                i_max_size := h.lookahead.next.i_max_size
                i_size := h.lookahead.next.i_size - (r + 1)
                cv_fill := h.lookahead.next.cv_fill
                cv_empty := h.lookahead.next.cv_empty + (if 0 < r + 1 then 1 else 0) } } } 1
    rw [a2]
    simp only [a1, a, hl, and_self]
  · simp only [a1, a, hl, and_self]

/-- Witness of C6: three frames are in `next`, the stub decides a run of two. -/
theorem x264_lookahead_slicetype_decide_post_witness :
    ∃ h', x264_lookahead_slicetype_decide (stub_hooks [1] true)
        (sample_after [1] 1 [Action.submit 1, Action.submit 2, Action.submit 3,
          Action.fill]).h = Result.ok h' ∧
      h'.lookahead.ofbuf.list = [] ++ (1 :: [2, 3]).take ((1 : Int) + 1).toNat ∧
      h'.lookahead.next.list = (1 :: [2, 3]).drop ((1 : Int) + 1).toNat ∧
      h'.lookahead.ifbuf = (sample_after [1] 1 [Action.submit 1, Action.submit 2,
        Action.submit 3, Action.fill]).h.lookahead.ifbuf ∧
      h'.lookahead.last_nonb = some 1 :=
  x264_lookahead_slicetype_decide_post (stub_hooks [1] true) (stub_frames_only [1] true)
    (sample_after [1] 1 [Action.submit 1, Action.submit 2, Action.submit 3, Action.fill]).h
    1 [2, 3] 1 rfl rfl rfl rfl (by decide) (by decide) (by decide)

/-! ## Anchor accounting (C7) -/

/-- Counterexample to C7 as stated: when the new frame is the frame that already
holds the share, its reference count is not increased (nor decreased): the
release and the new share cancel. -/
theorem update_last_nonb_same_frame_counterexample :
    (anchored_handle 5).lookahead.last_nonb = some 5 ∧
    ((anchored_handle 5).mem 5).i_reference_count = 1 ∧
    ((x264_lookahead_update_last_nonb (anchored_handle 5) 5).mem 5).i_reference_count = 1 ∧
    ¬ ((x264_lookahead_update_last_nonb (anchored_handle 5) 5).mem 5).i_reference_count =
      ((anchored_handle 5).mem 5).i_reference_count + 1 := by
  refine ⟨rfl, rfl, rfl, ?_⟩
  decide

/-- C7, amended. Anchor accounting of `x264_lookahead_update_last_nonb`. For
every state and every frame `f`: afterwards `last_nonb` is `f`; the reference
count of every frame `q` is its old count, plus one if `q` is `f`, minus one if
`q` was the previous holder. So when the previous holder is another frame, or
there is none, the count of `f` goes up by exactly one and the count of the
previous holder, if there is one, goes down by exactly one; when `f` itself was
the holder its count is unchanged; the count of every other frame is
unchanged. -/
theorem x264_lookahead_update_last_nonb_accounting (h : x264_t) (f : Nat) :
    (x264_lookahead_update_last_nonb h f).lookahead.last_nonb = some f ∧
    (∀ q, ((x264_lookahead_update_last_nonb h f).mem q).i_reference_count =
      (h.mem q).i_reference_count + (if q = f then 1 else 0) -
        (if h.lookahead.last_nonb = some q then 1 else 0)) ∧
    (h.lookahead.last_nonb ≠ some f →
      ((x264_lookahead_update_last_nonb h f).mem f).i_reference_count =
        (h.mem f).i_reference_count + 1) ∧
    (∀ p, h.lookahead.last_nonb = some p → p ≠ f →
      ((x264_lookahead_update_last_nonb h f).mem p).i_reference_count =
        (h.mem p).i_reference_count - 1) ∧
    (h.lookahead.last_nonb = some f →
      ((x264_lookahead_update_last_nonb h f).mem f).i_reference_count =
        (h.mem f).i_reference_count) ∧
    (∀ q, q ≠ f → h.lookahead.last_nonb ≠ some q →
      ((x264_lookahead_update_last_nonb h f).mem q).i_reference_count =
        (h.mem q).i_reference_count) := by
  have key : ∀ q, ((x264_lookahead_update_last_nonb h f).mem q).i_reference_count =
      (h.mem q).i_reference_count + (if q = f then 1 else 0) -
        (if h.lookahead.last_nonb = some q then 1 else 0) := by
    intro q
    unfold x264_lookahead_update_last_nonb x264_frame_push_unused
    cases hl : h.lookahead.last_nonb with
    | none =>
      by_cases hq : q = f
      · subst hq; simp
      · simp [Function.update_apply, hq]
    | some l =>
      by_cases hq : q = f
      · subst hq
        by_cases hlq : l = q
        · subst hlq; simp
        · simp [Function.update_apply, hlq, Ne.symm hlq]
      · by_cases hlq : l = q
        · subst hlq; simp [Function.update_apply, hq]
        · simp [Function.update_apply, hq, hlq, Ne.symm hlq]
  refine ⟨(update_last_nonb_shape h f).1 ▸ rfl, key, ?_, ?_, ?_, ?_⟩
  · intro hne; rw [key f]; simp [hne]
  · intro p hp hpf; rw [key p]; simp [hp, hpf]
  · intro he; rw [key f]; simp [he]
  · intro q hq hne; rw [key q]; simp [hq, hne]

/-! ## Retrieval (C8, C10) -/

/-- C8. Retrieval with a lookahead thread (`i_sync_lookahead ≠ 0`), on a
well-formed `ofbuf` whose head, when there is one, has a run length `r` with
`0 ≤ r` and `r + 1 ≤ ofbuf.i_size`. The call stays in its wait loop exactly when
`ofbuf` is empty and the thread is active. When it leaves the loop, what it
appends to `frames.current` is empty if and only if `ofbuf` is empty, and then
the thread is not active and the state is unchanged; otherwise it appends the
first `r + 1` frames of `ofbuf`, in order, removes them from `ofbuf`, signals
`ofbuf.cv_empty`, and changes nothing else. -/
theorem x264_lookahead_get_frames_threaded (hk : Hooks) (h : x264_t)
    (hm : h.param.i_sync_lookahead ≠ 0) (wo : h.lookahead.ofbuf.wf)
    (hrun : ∀ head rest, h.lookahead.ofbuf.list = head :: rest →
      0 ≤ (h.mem head).i_bframes ∧ (h.mem head).i_bframes + 1 ≤ h.lookahead.ofbuf.i_size) :
    (x264_lookahead_get_frames hk h = Result.blocked h ↔
      (h.lookahead.ofbuf.i_size = 0 ∧ h.lookahead.b_thread_active = true)) ∧
    (∀ h', x264_lookahead_get_frames hk h = Result.ok h' →
      ∃ run, h'.frames_current = h.frames_current ++ run ∧
        (run = [] ↔ h.lookahead.ofbuf.i_size = 0) ∧
        (h.lookahead.ofbuf.i_size = 0 → h.lookahead.b_thread_active = false ∧ h' = h)) ∧
    (∀ head rest, h.lookahead.ofbuf.list = head :: rest →
      x264_lookahead_get_frames hk h =
        Result.ok { h with
          frames_current :=
            h.frames_current ++ (head :: rest).take ((h.mem head).i_bframes + 1).toNat
          lookahead := { h.lookahead with
            ofbuf := { h.lookahead.ofbuf with
              list := (head :: rest).drop ((h.mem head).i_bframes + 1).toNat
              i_size := h.lookahead.ofbuf.i_size - ((h.mem head).i_bframes + 1)
              cv_empty := h.lookahead.ofbuf.cv_empty + 1 } } }) := by
  have hw := wo
  unfold x264_synch_frame_list_t.wf at hw
  have full : ∀ head rest, h.lookahead.ofbuf.list = head :: rest →
      h.lookahead.ofbuf.i_size ≠ 0 ∧
      x264_lookahead_get_frames hk h =
        Result.ok { h with
          frames_current :=
            h.frames_current ++ (head :: rest).take ((h.mem head).i_bframes + 1).toNat
          lookahead := { h.lookahead with
            ofbuf := { h.lookahead.ofbuf with
              list := (head :: rest).drop ((h.mem head).i_bframes + 1).toNat
              i_size := h.lookahead.ofbuf.i_size - ((h.mem head).i_bframes + 1)
              cv_empty := h.lookahead.ofbuf.cv_empty + 1 } } } := by
    intro head rest hl
    obtain ⟨r0, r1⟩ := hrun head rest hl
    have hne : h.lookahead.ofbuf.i_size ≠ 0 := by
      rw [hw, hl]; simp only [List.length_cons]; push_cast; omega
    refine ⟨hne, ?_⟩
    unfold x264_lookahead_get_frames
    simp only [hm, ne_eq, not_false_eq_true, if_true, hne, false_and, if_false]
    rw [encoder_shift_ok h head rest hne hl (by omega) (by rw [hw, hl] at r1; exact r1)]
  refine ⟨?_, ?_, fun head rest hl => (full head rest hl).2⟩
  · constructor
    · intro hb
      cases hl : h.lookahead.ofbuf.list with
      | nil =>
        have hz : h.lookahead.ofbuf.i_size = 0 := by rw [hw, hl]; rfl
        refine ⟨hz, ?_⟩
        by_contra hact
        unfold x264_lookahead_get_frames at hb
        simp [hm, hz, hact, x264_lookahead_encoder_shift] at hb
      | cons head rest =>
        rw [(full head rest hl).2] at hb
        exact absurd hb (by simp)
    · intro ⟨hz, hact⟩
      unfold x264_lookahead_get_frames
      simp [hm, hz, hact]
  · intro h' hg
    cases hl : h.lookahead.ofbuf.list with
    | nil =>
      have hz : h.lookahead.ofbuf.i_size = 0 := by rw [hw, hl]; rfl
      unfold x264_lookahead_get_frames at hg
      by_cases hact : h.lookahead.b_thread_active = true
      · simp [hm, hz, hact] at hg
      · have hact' : h.lookahead.b_thread_active = false := by simpa using hact
        simp [hm, hz, hact', x264_lookahead_encoder_shift] at hg
        subst hg
        refine ⟨[], by simp, by simp [hz], fun _ => ⟨by simpa using hact, rfl⟩⟩
    | cons head rest =>
      obtain ⟨hne, hf⟩ := full head rest hl
      obtain ⟨r0, r1⟩ := hrun head rest hl
      rw [hf] at hg
      simp only [Result.ok.injEq] at hg
      subst hg
      refine ⟨(head :: rest).take ((h.mem head).i_bframes + 1).toNat, rfl, ?_,
        fun hz => absurd hz hne⟩
      constructor
      · intro he
        have h1 : 1 ≤ ((h.mem head).i_bframes + 1).toNat := by omega
        obtain ⟨k, hk⟩ := Nat.exists_eq_add_of_le h1
        rw [hk, Nat.add_comm, List.take_succ_cons] at he
        exact absurd he (by simp)
      · intro hz; exact absurd hz hne

/-- Witness of C8: the run `[1, 2]` waits in `ofbuf` and is retrieved whole. -/
theorem x264_lookahead_get_frames_threaded_witness :
    ∃ h', x264_lookahead_get_frames (stub_hooks [1] true)
        (sample_after [1] 1 [Action.submit 1, Action.submit 2, Action.submit 3, Action.fill,
          Action.decide]).h = Result.ok h' ∧
      h'.frames_current = [1, 2] ∧ h'.lookahead.ofbuf.list = [] ∧
      h'.lookahead.next.list = [3] :=
  ⟨_, (x264_lookahead_get_frames_threaded (stub_hooks [1] true)
      (sample_after [1] 1 [Action.submit 1, Action.submit 2, Action.submit 3, Action.fill,
        Action.decide]).h (by decide) rfl
      (by
        intro head rest hl
        have hl' : ([1, 2] : List Nat) = head :: rest := hl
        cases hl'
        decide)).2.2 1 [2] rfl, rfl, rfl, rfl⟩

/-- C10. The inline path and the decision step. Without a lookahead thread
(`i_sync_lookahead = 0`): when `frames.current` is not empty or `next` is empty,
`x264_lookahead_get_frames` leaves the whole state as it is, the record of hook
invocations included; when `frames.current` is empty, `next` is not, and `ofbuf`
is not full once the decision hook has run (it has room for the head of the
decided run), the call ends as `x264_lookahead_slicetype_decide` followed by
`x264_lookahead_encoder_shift` does: same outcome, and the same state in every
field (lists, `last_nonb`, frames and their reference counts, `frames.current`,
hook invocations). The hooks are arbitrary. -/
theorem x264_lookahead_get_frames_inline_eq (hk : Hooks) (h : x264_t)
    (hm : h.param.i_sync_lookahead = 0) :
    ((h.frames_current ≠ [] ∨ h.lookahead.next.i_size = 0) →
      x264_lookahead_get_frames hk h = Result.ok h) ∧
    (h.frames_current = [] → h.lookahead.next.i_size ≠ 0 →
      (hk.x264_slicetype_decide h).lookahead.ofbuf.i_size ≠
        (hk.x264_slicetype_decide h).lookahead.ofbuf.i_max_size →
      x264_lookahead_get_frames hk h = decide_then_encoder_shift hk h) := by
  constructor
  · intro hc
    unfold x264_lookahead_get_frames
    simp only [hm, ne_eq, not_true_eq_false, if_false]
    rw [if_pos hc]
  · intro hc hn hroom
    have hcond : ¬ (h.frames_current ≠ [] ∨ h.lookahead.next.i_size = 0) := by
      rintro (a | a)
      · exact a hc
      · exact hn a
    unfold x264_lookahead_get_frames decide_then_encoder_shift x264_lookahead_slicetype_decide
    simp only [hm, ne_eq, not_true_eq_false, if_false]
    rw [if_neg hcond]
    cases hl : (call_slicetype_decide hk h).lookahead.next.list with
    | nil => rfl
    | cons new_nonb rest =>
      obtain ⟨a1, _, _, _⟩ := update_last_nonb_shape (call_slicetype_decide hk h) new_nonb
      have hroom' : (x264_lookahead_update_last_nonb (call_slicetype_decide hk h)
          new_nonb).lookahead.ofbuf.i_size ≠
          (x264_lookahead_update_last_nonb (call_slicetype_decide hk h)
            new_nonb).lookahead.ofbuf.i_max_size := by
        rw [a1]; exact hroom
      unfold x264_lookahead_slicetype_decide_wait
      simp only [hroom', if_false]
      cases hl2 : (x264_lookahead_update_last_nonb (call_slicetype_decide hk h)
          new_nonb).lookahead.next.list with
      | nil => rfl
      | cons head rest2 =>
        simp only
        cases hs : x264_lookahead_shift
            (x264_lookahead_update_last_nonb (call_slicetype_decide hk h)
              new_nonb).lookahead.ofbuf
            (x264_lookahead_update_last_nonb (call_slicetype_decide hk h)
              new_nonb).lookahead.next
            (((x264_lookahead_update_last_nonb (call_slicetype_decide hk h) new_nonb).mem
              head).i_bframes + 1) with
        | none => rfl
        | some pr =>
          obtain ⟨ofbuf, next⟩ := pr
          simp only
          split
          · split
            · rfl
            · split <;> rfl
          · rfl

/-- Witness of C10: without a lookahead thread three frames are in `next`, the
stub decides a run of three, and both ways deliver `[1, 2, 3]`. -/
theorem x264_lookahead_get_frames_inline_eq_witness :
    x264_lookahead_get_frames (stub_hooks [2] true)
        (sample_after [2] 0 [Action.submit 1, Action.submit 2, Action.submit 3]).h =
      decide_then_encoder_shift (stub_hooks [2] true)
        (sample_after [2] 0 [Action.submit 1, Action.submit 2, Action.submit 3]).h ∧
    ∃ h', decide_then_encoder_shift (stub_hooks [2] true)
        (sample_after [2] 0 [Action.submit 1, Action.submit 2, Action.submit 3]).h =
          Result.ok h' ∧
      h'.frames_current = [1, 2, 3] ∧ h'.lookahead.last_nonb = some 1 ∧
      h'.calls = [HookCall.slicetype_decide] :=
  ⟨(x264_lookahead_get_frames_inline_eq (stub_hooks [2] true)
      (sample_after [2] 0 [Action.submit 1, Action.submit 2, Action.submit 3]).h rfl).2 rfl
      (by decide) (by decide),
    _, rfl, rfl, rfl, rfl⟩

/-! ## Drain detection (C9) -/

/-- Counterexample to C9 as stated: with a lookahead thread, right after one frame
has been submitted (it waits in `ifbuf`), `x264_lookahead_is_empty` returns true
although no frame has been retrieved. -/
theorem x264_lookahead_is_empty_threaded_counterexample :
    Reachable (stub_hooks [] true) (sample_after [] 1 [Action.submit 1]) ∧
    (sample_after [] 1 [Action.submit 1]).h.param.i_sync_lookahead = 1 ∧
    (sample_after [] 1 [Action.submit 1]).submitted = [1] ∧
    (sample_after [] 1 [Action.submit 1]).h.lookahead.ifbuf.list = [1] ∧
    (sample_after [] 1 [Action.submit 1]).delivered = [] ∧
    x264_lookahead_is_empty (sample_after [] 1 [Action.submit 1]).h = true ∧
    (sample_after [] 1 [Action.submit 1]).delivered.length ≠
      (sample_after [] 1 [Action.submit 1]).submitted.length :=
  ⟨sample_after_reachable [] 1 _ (by decide), rfl, rfl, rfl, rfl, rfl, by decide⟩

/-- C9, amended. Drain detection. The hooks write into frames only. In every
reachable state in which `x264_lookahead_is_empty` returns true, the frames
submitted are the frames retrieved followed by the frames still in `ifbuf`: the
`N` frames submitted have all been retrieved but those waiting in `ifbuf`. So
exactly `N` frames have been retrieved when `ifbuf` is empty, which is always the
case without a lookahead thread (`i_sync_lookahead = 0`). -/
theorem x264_lookahead_is_empty_drained (hk : Hooks) (hfo : hk.frames_only) (s : Sys)
    (hr : Reachable hk s) (he : x264_lookahead_is_empty s.h = true) :
    s.delivered ++ s.h.lookahead.ifbuf.list = s.submitted ∧
    s.delivered.length + s.h.lookahead.ifbuf.list.length = s.submitted.length ∧
    (s.h.lookahead.ifbuf.i_size = 0 →
      s.delivered = s.submitted ∧ s.delivered.length = s.submitted.length) ∧
    (s.h.param.i_sync_lookahead = 0 →
      s.delivered = s.submitted ∧ s.delivered.length = s.submitted.length) := by
  obtain ⟨w1, w2, w3, _, _, _, ho, hi⟩ := inv_reachable hk hfo s hr
  unfold x264_synch_frame_list_t.wf at w1 w2 w3
  simp only [x264_lookahead_is_empty, Bool.and_eq_true, decide_eq_true_eq] at he
  have l1 : s.h.lookahead.ofbuf.list = [] := List.length_eq_zero.mp (by omega)
  have l2 : s.h.lookahead.next.list = [] := List.length_eq_zero.mp (by omega)
  have e : s.delivered ++ s.h.lookahead.ifbuf.list = s.submitted := by
    rw [← ho, l1, l2]; simp [Sys.delivered]
  have key : s.h.lookahead.ifbuf.list = [] →
      s.delivered = s.submitted ∧ s.delivered.length = s.submitted.length := by
    intro l3
    rw [l3, List.append_nil] at e
    exact ⟨e, by rw [e]⟩
  refine ⟨e, by rw [← e, List.length_append], ?_, fun hm => key (hi hm)⟩
  intro hz
  exact key (List.length_eq_zero.mp (by omega))

/-- Witness of C9, amended: without a lookahead thread, one frame is submitted,
retrieved and taken by the encoder; the lookahead is then empty. -/
theorem x264_lookahead_is_empty_drained_witness :
    x264_lookahead_is_empty
      (sample_after [] 0 [Action.submit 1, Action.retrieve, Action.consume]).h = true ∧
    (sample_after [] 0 [Action.submit 1, Action.retrieve, Action.consume]).delivered = [1] ∧
    (sample_after [] 0 [Action.submit 1, Action.retrieve, Action.consume]).delivered.length +
      (sample_after [] 0 [Action.submit 1, Action.retrieve,
        Action.consume]).h.lookahead.ifbuf.list.length =
      (sample_after [] 0 [Action.submit 1, Action.retrieve, Action.consume]).submitted.length :=
  ⟨rfl, rfl,
    (x264_lookahead_is_empty_drained (stub_hooks [] true) (stub_frames_only [] true)
      (sample_after [] 0 [Action.submit 1, Action.retrieve, Action.consume])
      (sample_after_reachable [] 0 _ (by decide)) rfl).2.1⟩

/-! ## Run atomicity (C2) -/

theorem complete_runs_congr (mem mem1 : Nat → x264_frame_t) (l : List Nat)
    (hc : CompleteRuns mem l)
    (hm : ∀ p ∈ l, (mem1 p).i_bframes = (mem p).i_bframes) : CompleteRuns mem1 l := by
  induction hc with
  | nil => exact CompleteRuns.nil
  | run head tail rest hlen _ ih =>
    refine CompleteRuns.run head tail rest ?_ (ih ?_)
    · rw [hm head (by simp)]; exact hlen
    · intro p hp
      exact hm p (by simp [hp])

theorem complete_runs_append (mem : Nat → x264_frame_t) (l1 l2 : List Nat)
    (h1 : CompleteRuns mem l1) (h2 : CompleteRuns mem l2) : CompleteRuns mem (l1 ++ l2) := by
  induction h1 with
  | nil => simpa using h2
  | run head tail rest hlen _ ih =>
    have := CompleteRuns.run head tail (rest ++ l2) hlen ih
    simpa [List.append_assoc] using this

/-- The first `r + 1` frames of a list whose head has the run length `r`. -/
theorem take_run (head : Nat) (rest : List Nat) (r : Int) (h0 : 0 ≤ r)
    (h1 : r + 1 ≤ ((head :: rest).length : Int)) :
    (head :: rest).take (r + 1).toNat = head :: rest.take r.toNat ∧
    (head :: rest).drop (r + 1).toNat = rest.drop r.toNat ∧
    ((rest.take r.toNat).length : Int) = r := by
  have e : (r + 1).toNat = r.toNat + 1 := by omega
  simp only [List.length_cons, Nat.cast_add, Nat.cast_one] at h1
  rw [e, List.take_succ_cons, List.drop_succ_cons, List.length_take]
  refine ⟨rfl, rfl, ?_⟩
  omega

theorem complete_runs_move (mem : Nat → x264_frame_t) (l : List Nat) (head : Nat)
    (rest : List Nat) (hc : CompleteRuns mem l) (h0 : 0 ≤ (mem head).i_bframes)
    (h1 : (mem head).i_bframes + 1 ≤ ((head :: rest).length : Int)) :
    CompleteRuns mem (l ++ (head :: rest).take ((mem head).i_bframes + 1).toNat) := by
  obtain ⟨e1, _, e3⟩ := take_run head rest _ h0 h1
  rw [e1]
  refine complete_runs_append mem l _ hc ?_
  have := CompleteRuns.run head (rest.take (mem head).i_bframes.toNat) [] e3.symm
    CompleteRuns.nil
  simpa using this

theorem complete_runs_head (mem : Nat → x264_frame_t) (head : Nat) (l : List Nat)
    (hc : CompleteRuns mem (head :: l)) :
    ∃ tail rest, l = tail ++ rest ∧ (mem head).i_bframes = (tail.length : Int) ∧
      CompleteRuns mem rest := by
  cases hc with
  | run _ tail rest hlen hrest => exact ⟨tail, rest, rfl, hlen, hrest⟩

/-- Retrieval from an `ofbuf` made of complete runs takes exactly the first run. -/
theorem encoder_shift_run (h : x264_t) (head : Nat) (l : List Nat)
    (wo : h.lookahead.ofbuf.wf) (hl : h.lookahead.ofbuf.list = head :: l)
    (hc : CompleteRuns h.mem (head :: l)) :
    ∃ tail rest, l = tail ++ rest ∧ (h.mem head).i_bframes = (tail.length : Int) ∧
      CompleteRuns h.mem rest ∧
      x264_lookahead_encoder_shift h =
        some { h with
          frames_current := h.frames_current ++ head :: tail
          lookahead := { h.lookahead with
            ofbuf := { h.lookahead.ofbuf with
              list := rest
              i_size := h.lookahead.ofbuf.i_size - ((h.mem head).i_bframes + 1)
              cv_empty := h.lookahead.ofbuf.cv_empty + 1 } } } := by
  obtain ⟨tail, rest, e, hlen, hrest⟩ := complete_runs_head h.mem head l hc
  refine ⟨tail, rest, e, hlen, hrest, ?_⟩
  unfold x264_synch_frame_list_t.wf at wo
  have hne : h.lookahead.ofbuf.i_size ≠ 0 := by
    rw [wo, hl]; simp only [List.length_cons]; push_cast; omega
  have hfit : (h.mem head).i_bframes + 1 ≤ ((head :: l).length : Int) := by
    rw [e, hlen]; simp only [List.length_cons, List.length_append]; push_cast; omega
  rw [encoder_shift_ok h head l hne hl (by omega) hfit]
  have et : ((h.mem head).i_bframes + 1).toNat = tail.length + 1 := by omega
  rw [et, List.take_succ_cons, List.drop_succ_cons, e, List.take_left, List.drop_left]

/-- Frames that are in the lists once: no frame of `ofbuf` is in `next`. -/
theorem in_flight_disjoint (h : x264_t) (hn : h.in_flight.Nodup) :
    ∀ p ∈ h.lookahead.ofbuf.list, p ∉ h.lookahead.next.list := by
  intro p hc hd
  unfold x264_t.in_flight at hn
  exact (List.nodup_append.mp hn).2.2 hc (by simp [hd])

/-- The hook and the anchor update leave the lists as they are. -/
theorem in_flight_prepare (hk : Hooks) (hfo : hk.frames_only) (h : x264_t) (p : Nat) :
    (x264_lookahead_update_last_nonb (call_slicetype_decide hk h) p).in_flight =
      h.in_flight := by
  unfold x264_t.in_flight
  rw [(update_last_nonb_shape _ p).1, (call_decide_shape hk hfo h).1]

/-- The frames submitted are the frames taken, those of `frames.current` and
those in the lists: distinct frames submitted are in the lists once. -/
theorem in_flight_of_submitted (h : x264_t) (sub tk : List Nat) (hinv : Inv h sub tk)
    (hn : sub.Nodup) : h.in_flight.Nodup := by
  have ho := hinv.order
  rw [← ho] at hn
  exact (List.nodup_append.mp (List.nodup_append.mp hn).2.1).2.1

/-- What a decision step that ran to its end has done after its wait. -/
theorem decide_wait_inv (hk : Hooks) (h h1 : x264_t)
    (hd : x264_lookahead_slicetype_decide_wait hk h = Result.ok h1) :
    ∃ head rest ofbuf next, h.lookahead.next.list = head :: rest ∧
      x264_lookahead_shift h.lookahead.ofbuf h.lookahead.next
        ((h.mem head).i_bframes + 1) = some (ofbuf, next) ∧
      (h1 = { h with lookahead := { h.lookahead with ofbuf := ofbuf, next := next } } ∨
        h1 = call_slicetype_analyse hk
          { h with lookahead := { h.lookahead with ofbuf := ofbuf, next := next } } 1) := by
  unfold x264_lookahead_slicetype_decide_wait at hd
  split at hd
  · exact absurd hd (by simp)
  · split at hd
    · exact absurd hd (by simp)
    · rename_i head tl hl
      split at hd
      · exact absurd hd (by simp)
      · rename_i ofbuf next hs
        refine ⟨head, tl, ofbuf, next, hl, hs, ?_⟩
        simp only at hd
        split at hd
        · split at hd
          · exact absurd hd (by simp)
          · split at hd
            · simp only [Result.ok.injEq] at hd
              right; exact hd.symm
            · simp only [Result.ok.injEq] at hd
              left; exact hd.symm
        · simp only [Result.ok.injEq] at hd
          left; exact hd.symm

theorem decide_inv (hk : Hooks) (h h1 : x264_t)
    (hd : x264_lookahead_slicetype_decide hk h = Result.ok h1) :
    ∃ p rest, (call_slicetype_decide hk h).lookahead.next.list = p :: rest ∧
      x264_lookahead_slicetype_decide_wait hk
        (x264_lookahead_update_last_nonb (call_slicetype_decide hk h) p) = Result.ok h1 := by
  unfold x264_lookahead_slicetype_decide at hd
  simp only at hd
  split at hd
  · exact absurd hd (by simp)
  · rename_i p rest hl
    exact ⟨p, rest, hl, hd⟩

/-- What a retrieval without a lookahead thread has done. -/
theorem get_frames_inline_inv (hk : Hooks) (h h1 : x264_t)
    (hm : h.param.i_sync_lookahead = 0)
    (hg : x264_lookahead_get_frames hk h = Result.ok h1) :
    h1 = h ∨
    (h.frames_current = [] ∧ ∃ p rest head rest2 ofbuf next h4,
      (call_slicetype_decide hk h).lookahead.next.list = p :: rest ∧
      (x264_lookahead_update_last_nonb (call_slicetype_decide hk h) p).lookahead.next.list =
        head :: rest2 ∧
      x264_lookahead_shift
        (x264_lookahead_update_last_nonb (call_slicetype_decide hk h) p).lookahead.ofbuf
        (x264_lookahead_update_last_nonb (call_slicetype_decide hk h) p).lookahead.next
        (((x264_lookahead_update_last_nonb (call_slicetype_decide hk h) p).mem
          head).i_bframes + 1) = some (ofbuf, next) ∧
      (h4 = { x264_lookahead_update_last_nonb (call_slicetype_decide hk h) p with
            lookahead :=
              { (x264_lookahead_update_last_nonb (call_slicetype_decide hk h) p).lookahead with
                ofbuf := ofbuf, next := next } } ∨
        h4 = call_slicetype_analyse hk
          { x264_lookahead_update_last_nonb (call_slicetype_decide hk h) p with
            lookahead :=
              { (x264_lookahead_update_last_nonb (call_slicetype_decide hk h) p).lookahead with
                ofbuf := ofbuf, next := next } } 1) ∧
      x264_lookahead_encoder_shift h4 = some h1) := by
  unfold x264_lookahead_get_frames at hg
  simp only [hm, ne_eq, not_true_eq_false, if_false] at hg
  split at hg
  · simp only [Result.ok.injEq] at hg
    left; exact hg.symm
  · rename_i hcond
    have hcur : h.frames_current = [] := by
      by_contra hc; exact hcond (Or.inl hc)
    right
    refine ⟨hcur, ?_⟩
    split at hg
    · exact absurd hg (by simp)
    · rename_i p rest hl
      split at hg
      · exact absurd hg (by simp)
      · rename_i head rest2 hl2
        split at hg
        · exact absurd hg (by simp)
        · rename_i ofbuf next hs
          split at hg
          · split at hg
            · exact absurd hg (by simp)
            · split at hg
              · split at hg
                · exact absurd hg (by simp)
                · rename_i h4 hes
                  simp only [Result.ok.injEq] at hg
                  subst hg
                  exact ⟨p, rest, head, rest2, ofbuf, next, _, hl, hl2, hs, Or.inr rfl, hes⟩
              · split at hg
                · exact absurd hg (by simp)
                · rename_i h4 hes
                  simp only [Result.ok.injEq] at hg
                  subst hg
                  exact ⟨p, rest, head, rest2, ofbuf, next, _, hl, hl2, hs, Or.inl rfl, hes⟩
          · split at hg
            · exact absurd hg (by simp)
            · rename_i h4 hes
              simp only [Result.ok.injEq] at hg
              subst hg
              exact ⟨p, rest, head, rest2, ofbuf, next, _, hl, hl2, hs, Or.inl rfl, hes⟩

/-- The hook and the anchor update leave `ofbuf` made of complete runs, and the
head of `next` with a run that fits. -/
theorem runs_prepare (hk : Hooks) (hrf : hk.run_fits)
    (hwo : hk.window_only) (h : x264_t) (p : Nat) (rest : List Nat)
    (hn : h.in_flight.Nodup)
    (hc : CompleteRuns h.mem h.lookahead.ofbuf.list)
    (hl : h.lookahead.next.list = p :: rest) :
    CompleteRuns (x264_lookahead_update_last_nonb (call_slicetype_decide hk h) p).mem
      h.lookahead.ofbuf.list ∧
    0 ≤ ((x264_lookahead_update_last_nonb (call_slicetype_decide hk h) p).mem p).i_bframes ∧
    ((x264_lookahead_update_last_nonb (call_slicetype_decide hk h) p).mem p).i_bframes + 1 ≤
      ((p :: rest).length : Int) := by
  have hdis := in_flight_disjoint h hn
  have e : ∀ q, ((x264_lookahead_update_last_nonb (call_slicetype_decide hk h) p).mem
      q).i_bframes = ((hk.x264_slicetype_decide h).mem q).i_bframes := by
    intro q
    rw [(update_last_nonb_mem _ p q).1]
    rfl
  refine ⟨complete_runs_congr _ _ _ hc ?_, ?_, ?_⟩
  · intro q hq
    rw [e q]
    exact hwo.1 h q (hdis q hq)
  · rw [e p]; exact (hrf h p rest hl).1
  · rw [e p]; exact (hrf h p rest hl).2

/-- Moving a run that fits from `next` to `ofbuf`, and analysing afterwards or
not, leaves `ofbuf` made of complete runs. -/
theorem runs_moved (hk : Hooks) (hfo : hk.frames_only) (hwo : hk.window_only)
    (h h4 : x264_t) (sub tk : List Nat) (head : Nat) (rest : List Nat)
    (ofbuf next : x264_synch_frame_list_t)
    (hinv : Inv h sub tk) (hn : h.in_flight.Nodup)
    (hc : CompleteRuns h.mem h.lookahead.ofbuf.list)
    (hl : h.lookahead.next.list = head :: rest)
    (h0 : 0 ≤ (h.mem head).i_bframes)
    (h1 : (h.mem head).i_bframes + 1 ≤ ((head :: rest).length : Int))
    (hs : x264_lookahead_shift h.lookahead.ofbuf h.lookahead.next
      ((h.mem head).i_bframes + 1) = some (ofbuf, next))
    (h4e : h4 = { h with lookahead := { h.lookahead with ofbuf := ofbuf, next := next } } ∨
        h4 = call_slicetype_analyse hk
          { h with lookahead := { h.lookahead with ofbuf := ofbuf, next := next } } 1) :
    h4.lookahead = { h.lookahead with ofbuf := ofbuf, next := next } ∧
    h4.frames_current = h.frames_current ∧ h4.param = h.param ∧
    ofbuf.list = h.lookahead.ofbuf.list ++
      (head :: rest).take ((h.mem head).i_bframes + 1).toNat ∧
    ofbuf.i_max_size = h.lookahead.ofbuf.i_max_size ∧
    next.i_max_size = h.lookahead.next.i_max_size ∧
    (h4.mem head).i_bframes = (h.mem head).i_bframes ∧
    CompleteRuns h4.mem ofbuf.list ∧
    Inv h4 sub tk := by
  obtain ⟨_, _, e1, e2, _, _, e5, e6, _⟩ :=
    shift_eq _ _ _ _ _ hinv.wf_ofbuf hinv.wf_next hs
  rw [hl] at e1 e2
  have hinv3 := inv_shift_next_ofbuf h sub tk _ ofbuf next hinv hs
  have hdis : ∀ q ∈ ofbuf.list, q ∉ next.list := by
    intro q hq hq2
    unfold x264_t.in_flight at hn
    rw [← List.append_assoc, hl] at hn
    have hn2 := (List.nodup_append.mp hn).1
    rw [← List.take_append_drop ((h.mem head).i_bframes + 1).toNat (head :: rest),
      ← List.append_assoc, ← e1, ← e2] at hn2
    exact (List.nodup_append.mp hn2).2.2 hq hq2
  have hc3 : CompleteRuns h.mem ofbuf.list := by
    rw [e1]; exact complete_runs_move h.mem _ head rest hc h0 h1
  have hhead : head ∈ ofbuf.list := by
    rw [e1, (take_run head rest _ h0 h1).1]; simp
  rcases h4e with rfl | rfl
  · exact ⟨rfl, rfl, rfl, e1, e5, e6, rfl, hc3, hinv3⟩
  · obtain ⟨a, b, c⟩ := call_analyse_shape hk hfo
      { h with lookahead := { h.lookahead with ofbuf := ofbuf, next := next } } 1
    have hm : ∀ q ∈ ofbuf.list, ((call_slicetype_analyse hk
        { h with lookahead := { h.lookahead with ofbuf := ofbuf, next := next } } 1).mem
          q).i_bframes = (h.mem q).i_bframes := by
      intro q hq
      exact hwo.2 { h with lookahead := { h.lookahead with ofbuf := ofbuf, next := next } } 1 q
        (hdis q hq)
    refine ⟨a, b, c, e1, e5, e6, hm head hhead, complete_runs_congr _ _ _ hc3 hm, ?_⟩
    exact inv_congr _ _ sub tk hinv3 (by rw [a]) (by rw [a]) (by rw [a]) b (by rw [c])

theorem put_frame_inv (h h1 : x264_t) (frame : Nat)
    (hput : x264_lookahead_put_frame h frame = Result.ok h1) :
    h1.mem = h.mem ∧ h1.param = h.param ∧ h1.lookahead.ofbuf = h.lookahead.ofbuf ∧
    h1.lookahead.next.i_max_size = h.lookahead.next.i_max_size ∧
    (h.param.i_sync_lookahead ≠ 0 → h1.lookahead.next = h.lookahead.next) := by
  unfold x264_lookahead_put_frame x264_synch_frame_list_push at hput
  by_cases hm : h.param.i_sync_lookahead = 0
  · simp only [hm, ne_eq, not_true_eq_false, if_false] at hput
    by_cases hfull : h.lookahead.next.i_size = h.lookahead.next.i_max_size
    · simp [hfull] at hput
    · simp only [hfull, if_false, Result.ok.injEq] at hput
      subst hput
      exact ⟨rfl, rfl, rfl, rfl, fun hne => absurd hm hne⟩
  · simp only [hm, ne_eq, not_false_eq_true, if_true] at hput
    by_cases hfull : h.lookahead.ifbuf.i_size = h.lookahead.ifbuf.i_max_size
    · simp [hfull] at hput
    · simp only [hfull, if_false, Result.ok.injEq] at hput
      subst hput
      exact ⟨rfl, rfl, rfl, rfl, fun _ => rfl⟩

/-- The run invariant after a move from `ifbuf` to `next` by the running thread. -/
theorem runinv_shift_ifbuf_next (s : Sys) (count : Int)
    (next ifbuf : x264_synch_frame_list_t) (hinv : Inv s.h s.submitted s.taken)
    (hrun : RunInv s) (hthread : s.h.param.i_sync_lookahead ≠ 0) (hp : s.parked = false)
    (hs : x264_lookahead_shift s.h.lookahead.next s.h.lookahead.ifbuf count =
      some (next, ifbuf)) :
    RunInv { s with
      h := { s.h with lookahead := { s.h.lookahead with next := next, ifbuf := ifbuf } } } := by
  obtain ⟨_, _, _, _, _, _, e5, _, _⟩ :=
    shift_eq _ _ _ _ count hinv.wf_next hinv.wf_ifbuf hs
  refine ⟨hrun.runs, ?_, fun hz => absurd hz hthread, fun hz => absurd hz hthread, ?_⟩
  · simp only; rw [e5]; exact hrun.caps
  · intro hpk; simp only at hpk; rw [hp] at hpk; exact absurd hpk (by simp)

/-- The run invariant after the hook and the anchor update of a decision step of
the thread. -/
theorem runinv_prepare (hk : Hooks) (hfo : hk.frames_only) (hrf : hk.run_fits)
    (hwo : hk.window_only) (s : Sys) (p : Nat) (rest : List Nat)
    (hn : s.h.in_flight.Nodup) (hrun : RunInv s)
    (hthread : s.h.param.i_sync_lookahead ≠ 0)
    (hl : (call_slicetype_decide hk s.h).lookahead.next.list = p :: rest) :
    RunInv { s with
      h := x264_lookahead_update_last_nonb (call_slicetype_decide hk s.h) p,
      parked := true } := by
  obtain ⟨a, b, c⟩ := call_decide_shape hk hfo s.h
  obtain ⟨a1, b1, c1, _⟩ := update_last_nonb_shape (call_slicetype_decide hk s.h) p
  rw [a] at hl
  obtain ⟨r1, r2, r3⟩ := runs_prepare hk hrf hwo s.h p rest hn hrun.runs hl
  refine ⟨?_, ?_, ?_, ?_, ?_⟩
  · simp only [a1, a]; exact r1
  · simp only [a1, a]; exact hrun.caps
  · intro hz; simp only [c1, c] at hz; exact absurd hz hthread
  · intro hz; simp only [c1, c] at hz; exact absurd hz hthread
  · intro _
    refine ⟨p, rest, ?_, r2, r3⟩
    simp only [a1, a]; exact hl

/-- The run invariant after the part of a decision step that follows the wait. -/
theorem runinv_decide_wait (hk : Hooks) (hfo : hk.frames_only) (hwo : hk.window_only)
    (s : Sys) (h1 : x264_t) (hinv : Inv s.h s.submitted s.taken) (hn : s.h.in_flight.Nodup)
    (hrun : RunInv s) (hthread : s.h.param.i_sync_lookahead ≠ 0) (hp : s.parked = true)
    (hd : x264_lookahead_slicetype_decide_wait hk s.h = Result.ok h1) :
    RunInv { s with h := h1, parked := false } := by
  obtain ⟨head, rest, hl, h0, hfit⟩ := hrun.parked_head hp
  obtain ⟨head1, rest1, ofbuf, next, hl1, hs, h4e⟩ := decide_wait_inv hk s.h h1 hd
  rw [hl] at hl1
  simp only [List.cons.injEq] at hl1
  obtain ⟨rfl, rfl⟩ := hl1
  obtain ⟨a, _, c, e1, e5, e6, _, hc, _⟩ := runs_moved hk hfo hwo s.h h1 _ _ head rest ofbuf
    next hinv hn hrun.runs hl h0 hfit hs h4e
  refine ⟨?_, ?_, ?_, ?_, ?_⟩
  · simp only [a]; exact hc
  · simp only [a]; rw [e5, e6]; exact hrun.caps
  · intro hz; simp only [c] at hz; exact absurd hz hthread
  · intro _; rfl
  · intro hpk; exact absurd hpk (by simp)

/-- The run invariant after a retrieval with a lookahead thread. -/
theorem runinv_encoder_shift (s : Sys) (h1 : x264_t) (hinv : Inv s.h s.submitted s.taken)
    (hrun : RunInv s) (hthread : s.h.param.i_sync_lookahead ≠ 0)
    (hs : x264_lookahead_encoder_shift s.h = some h1) :
    RunInv { s with h := h1 } := by
  cases hl : s.h.lookahead.ofbuf.list with
  | nil =>
    have hz : s.h.lookahead.ofbuf.i_size = 0 := by
      have := hinv.wf_ofbuf
      unfold x264_synch_frame_list_t.wf at this
      rw [this, hl]; rfl
    simp only [x264_lookahead_encoder_shift, hz, if_true, Option.some.injEq] at hs
    subst hs
    exact hrun
  | cons head l =>
    have hc := hrun.runs
    rw [hl] at hc
    obtain ⟨tail, rest, _, _, hrest, he⟩ := encoder_shift_run s.h head l hinv.wf_ofbuf hl hc
    rw [he] at hs
    simp only [Option.some.injEq] at hs
    subst hs
    exact ⟨hrest, hrun.caps, fun hz => absurd hz hthread, fun hz => absurd hz hthread,
      hrun.parked_head⟩

/-- The run invariant after a retrieval without a lookahead thread. -/
theorem runinv_get_frames_inline (hk : Hooks) (hfo : hk.frames_only) (hrf : hk.run_fits)
    (hwo : hk.window_only) (s : Sys) (h1 : x264_t) (hinv : Inv s.h s.submitted s.taken)
    (hn : s.h.in_flight.Nodup) (hrun : RunInv s) (hm : s.h.param.i_sync_lookahead = 0)
    (hg : x264_lookahead_get_frames hk s.h = Result.ok h1) :
    RunInv { s with h := h1 } := by
  rcases get_frames_inline_inv hk s.h h1 hm hg with rfl | ⟨_, p, rest, head, rest2, ofbuf,
    next, h4, hl, hl2, hs, h4e, hes⟩
  · exact hrun
  · obtain ⟨a, b, c⟩ := call_decide_shape hk hfo s.h
    obtain ⟨a1, b1, c1, _⟩ := update_last_nonb_shape (call_slicetype_decide hk s.h) p
    rw [a] at hl
    have hl2' : s.h.lookahead.next.list = head :: rest2 := by
      rw [a1, a] at hl2; exact hl2
    rw [hl] at hl2'
    simp only [List.cons.injEq] at hl2'
    obtain ⟨rfl, rfl⟩ := hl2'
    obtain ⟨r1, r2, r3⟩ := runs_prepare hk hrf hwo s.h p rest hn hrun.runs hl
    have hinv2 := inv_decide_prepare hk hfo s.h p _ _ hinv
    have hof : (x264_lookahead_update_last_nonb (call_slicetype_decide hk s.h)
        p).lookahead.ofbuf.list = [] := by
      rw [a1, a]; exact hrun.inline_ofbuf hm
    obtain ⟨a4, b4, c4, e1, e5, e6, em, hc4, hinv4⟩ := runs_moved hk hfo hwo
      (x264_lookahead_update_last_nonb (call_slicetype_decide hk s.h) p) h4 _ _ p rest
      ofbuf next hinv2 (by rw [in_flight_prepare hk hfo]; exact hn)
      (by rw [hof]; exact CompleteRuns.nil) (by rw [a1, a]; exact hl)
      r2 r3 hs h4e
    obtain ⟨t1, t2, t3⟩ := take_run p rest _ r2 r3
    rw [hof, List.nil_append, t1] at e1
    have hl4 : h4.lookahead.ofbuf.list = p :: rest.take
        ((x264_lookahead_update_last_nonb (call_slicetype_decide hk s.h) p).mem
          p).i_bframes.toNat := by
      rw [a4]; exact e1
    have hc4' : CompleteRuns h4.mem (p :: rest.take
        ((x264_lookahead_update_last_nonb (call_slicetype_decide hk s.h) p).mem
          p).i_bframes.toNat) := by
      rw [← e1]; exact hc4
    obtain ⟨tail, rest4, el, hlen, _, he⟩ :=
      encoder_shift_run h4 p _ hinv4.wf_ofbuf hl4 hc4'
    rw [he] at hes
    simp only [Option.some.injEq] at hes
    subst hes
    have hr4 : rest4 = [] := by
      have hlen2 := congrArg List.length el
      rw [List.length_append] at hlen2
      have : (tail.length : Int) = ((rest.take
          ((x264_lookahead_update_last_nonb (call_slicetype_decide hk s.h) p).mem
            p).i_bframes.toNat).length : Int) := by
        rw [← hlen, em, t3]
      exact List.length_eq_zero.mp (by omega)
    refine ⟨?_, ?_, ?_, ?_, ?_⟩
    · simp only [hr4]; exact CompleteRuns.nil
    · simp only [a4]; rw [e5, e6, a1, a]; exact hrun.caps
    · intro _; simp only [hr4]
    · intro _; exact hrun.inline_parked hm
    · intro hpk
      simp only at hpk
      rw [hrun.inline_parked hm] at hpk
      exact absurd hpk (by simp)

theorem step_submitted (hk : Hooks) (s s1 : Sys) (hstep : Step hk s s1)
    (hn : s1.submitted.Nodup) : s.submitted.Nodup := by
  cases hstep with
  | submit frame h1 hput => exact (List.nodup_append.mp hn).1
  | fill h1 _ _ _ => exact hn
  | decide h1 _ _ _ => exact hn
  | decide_park h1 _ _ _ => exact hn
  | decide_wake h1 _ _ _ => exact hn
  | drain h1 _ _ _ => exact hn
  | request_exit _ => exact hn
  | thread_end _ _ => exact hn
  | retrieve h1 _ => exact hn
  | consume frame rest _ => exact hn

theorem runinv_step (hk : Hooks) (hfo : hk.frames_only) (hrf : hk.run_fits)
    (hwo : hk.window_only) (s s1 : Sys) (hinv : Inv s.h s.submitted s.taken)
    (hrun : RunInv s) (hn : s.h.in_flight.Nodup) (hstep : Step hk s s1) : RunInv s1 := by
  cases hstep with
  | submit frame h1 hput =>
    obtain ⟨e1, e2, e3, e4, e5⟩ := put_frame_inv s.h h1 frame hput
    refine ⟨?_, ?_, ?_, ?_, ?_⟩
    · simp only [e1, e3]; exact hrun.runs
    · simp only [e3, e4]; exact hrun.caps
    · intro hz; simp only [e2, e3] at hz ⊢; exact hrun.inline_ofbuf hz
    · intro hz; simp only [e2] at hz; exact hrun.inline_parked hz
    · intro hpk
      simp only at hpk
      have hth : s.h.param.i_sync_lookahead ≠ 0 := by
        intro hz; rw [hrun.inline_parked hz] at hpk; exact absurd hpk (by simp)
      simp only [e1, e5 hth]
      exact hrun.parked_head hpk
  | fill h1 hthread hp hfill =>
    unfold x264_lookahead_thread_fill at hfill
    simp only at hfill
    split at hfill
    · exact absurd hfill (by simp)
    · rename_i next ifbuf hs
      simp only [Option.some.injEq] at hfill
      subst hfill
      exact runinv_shift_ifbuf_next s _ next ifbuf hinv hrun hthread hp hs
  | decide h1 hthread hp hdec =>
    obtain ⟨p, rest, hl, hw⟩ := decide_inv hk s.h h1 hdec
    have hrun2 := runinv_prepare hk hfo hrf hwo s p rest hn hrun hthread hl
    have hinv2 := inv_decide_prepare hk hfo s.h p _ _ hinv
    have hth2 : (x264_lookahead_update_last_nonb (call_slicetype_decide hk s.h)
        p).param.i_sync_lookahead ≠ 0 := by
      rw [(update_last_nonb_shape _ p).2.2.1, (call_decide_shape hk hfo s.h).2.2]
      exact hthread
    have := runinv_decide_wait hk hfo hwo
      { s with h := x264_lookahead_update_last_nonb (call_slicetype_decide hk s.h) p,
               parked := true } h1 hinv2
      (by
        show (x264_lookahead_update_last_nonb (call_slicetype_decide hk s.h)
          p).in_flight.Nodup
        rw [in_flight_prepare hk hfo]; exact hn) hrun2 hth2 rfl hw
    have hp' : s.parked = false := hp
    refine ⟨this.runs, this.caps, this.inline_ofbuf, ?_, ?_⟩
    · intro _; exact hp'
    · intro hpk; simp only at hpk; rw [hp'] at hpk; exact absurd hpk (by simp)
  | decide_park h1 hthread hp hdec =>
    obtain ⟨p, rest, hl, rfl, _⟩ := decide_blocked hk s.h h1 hdec
    exact runinv_prepare hk hfo hrf hwo s p rest hn hrun hthread hl
  | decide_wake h1 hthread hparked hdec =>
    exact runinv_decide_wait hk hfo hwo s h1 hinv hn hrun hthread hparked hdec
  | drain h1 hthread hp hdrain =>
    unfold x264_lookahead_thread_drain at hdrain
    split at hdrain
    · exact absurd hdrain (by simp)
    · rename_i next ifbuf hs
      simp only [Option.some.injEq] at hdrain
      subst hdrain
      exact runinv_shift_ifbuf_next s _ next ifbuf hinv hrun hthread hp hs
  | request_exit hthread =>
    exact ⟨hrun.runs, hrun.caps, hrun.inline_ofbuf, hrun.inline_parked, hrun.parked_head⟩
  | thread_end hthread hp =>
    exact ⟨hrun.runs, hrun.caps, hrun.inline_ofbuf, hrun.inline_parked, hrun.parked_head⟩
  | retrieve h1 hget =>
    by_cases hm : s.h.param.i_sync_lookahead = 0
    · exact runinv_get_frames_inline hk hfo hrf hwo s h1 hinv hn hrun hm hget
    · unfold x264_lookahead_get_frames at hget
      simp only [hm, ne_eq, not_false_eq_true, if_true] at hget
      split at hget
      · exact absurd hget (by simp)
      · split at hget
        · exact absurd hget (by simp)
        · rename_i h2 hs
          simp only [Result.ok.injEq] at hget
          subst hget
          exact runinv_encoder_shift s _ hinv hrun hm hs
  | consume frame rest htake =>
    exact ⟨hrun.runs, hrun.caps, hrun.inline_ofbuf, hrun.inline_parked, hrun.parked_head⟩

/-- A session in which no frame is in the lists twice is a session. -/
theorem reachable_of_distinct (hk : Hooks) (s : Sys) (hr : ReachableDistinct hk s) :
    Reachable hk s := by
  induction hr with
  | init f h n hcur hret => exact Reachable.init f h n hcur hret
  | step s s1 _ hstep _ ih => exact Reachable.step s s1 ih hstep

/-- In such a session the frames in the lists are distinct. -/
theorem distinct_in_flight (hk : Hooks) (s : Sys) (hr : ReachableDistinct hk s) :
    s.h.in_flight.Nodup := by
  induction hr with
  | init f h n hcur hret =>
    obtain ⟨_, _, e1, e2, e3, _⟩ := init_success f h n hret
    unfold x264_t.in_flight
    simp only
    rw [e1, e2, e3]
    exact List.nodup_nil
  | step s s1 _ _ hd _ => exact hd

/-- A session whose submitted frames are distinct has no frame in the lists
twice. -/
theorem distinct_of_submitted (hk : Hooks) (hfo : hk.frames_only) (s : Sys)
    (hr : Reachable hk s) : s.submitted.Nodup → ReachableDistinct hk s := by
  induction hr with
  | init f h n hcur hret => intro _; exact ReachableDistinct.init f h n hcur hret
  | step s s1 hs hstep ih =>
    intro hn
    refine ReachableDistinct.step s s1 (ih (step_submitted hk s s1 hstep hn)) hstep ?_
    exact in_flight_of_submitted s1.h s1.submitted s1.taken
      (inv_reachable hk hfo s1 (Reachable.step s s1 hs hstep)) hn

/-- An executed session that keeps the frames in the lists distinct is such a
session. -/
theorem run_distinct_reachable (hk : Hooks) (acts : List Action) : ∀ (s s1 : Sys),
    ReachableDistinct hk s → s.run_distinct hk acts = some s1 → ReachableDistinct hk s1 := by
  induction acts with
  | nil =>
    intro s s1 hr h
    simp only [Sys.run_distinct, Option.some.injEq] at h
    subst h; exact hr
  | cons a acts ih =>
    intro s s1 hr h
    simp only [Sys.run_distinct] at h
    split at h
    · rename_i s2 he
      split at h
      · rename_i hd
        exact ih s2 s1 (ReachableDistinct.step s s2 hr (exec_step hk s s2 a he) hd) h
      · exact absurd h (by simp)
    · exact absurd h (by simp)

theorem sample_distinct_reachable (rs : List Int) (sync : Int) (acts : List Action)
    (h3 : 0 ≤ sync + 3) :
    ReachableDistinct (stub_hooks rs true) (sample_distinct rs sync acts) := by
  have h0 : ReachableDistinct (stub_hooks rs true) (sample_start sync) :=
    distinct_of_submitted _ (stub_frames_only rs true) _
      (sample_start_reachable _ sync h3) List.nodup_nil
  unfold sample_distinct
  cases hrun : (sample_start sync).run_distinct (stub_hooks rs true) acts with
  | none => exact h0
  | some s1 => exact run_distinct_reachable _ acts _ s1 h0 hrun

theorem runinv_reachable (hk : Hooks) (hfo : hk.frames_only) (hrf : hk.run_fits)
    (hwo : hk.window_only) (s : Sys) (hr : ReachableDistinct hk s) : RunInv s := by
  induction hr with
  | init f h n hcur hret =>
    obtain ⟨_, _, _, e2, e3, _, _, _, _, _⟩ := init_success f h n hret
    refine ⟨?_, ?_, ?_, ?_, ?_⟩
    · simp only [e3]; exact CompleteRuns.nil
    · simp only [e2, e3]
    · intro _; simp only [e3]
    · intro _; rfl
    · intro hpk; exact absurd hpk (by simp)
  | step s s1 hs hstep _ ih =>
    exact runinv_step hk hfo hrf hwo s s1
      (inv_reachable hk hfo s (reachable_of_distinct hk s hs)) ih
      (distinct_in_flight hk s hs) hstep

/-- The inline path, once the hook has run and the run has been moved to `ofbuf`. -/
theorem get_frames_inline_steps (hk : Hooks) (h : x264_t) (p : Nat) (rest : List Nat)
    (ofbuf next : x264_synch_frame_list_t)
    (hm : h.param.i_sync_lookahead = 0) (hcur : h.frames_current = [])
    (hne : h.lookahead.next.i_size ≠ 0)
    (hl : (call_slicetype_decide hk h).lookahead.next.list = p :: rest)
    (hs : x264_lookahead_shift
      (x264_lookahead_update_last_nonb (call_slicetype_decide hk h) p).lookahead.ofbuf
      (x264_lookahead_update_last_nonb (call_slicetype_decide hk h) p).lookahead.next
      (((x264_lookahead_update_last_nonb (call_slicetype_decide hk h) p).mem p).i_bframes + 1) =
        some (ofbuf, next)) :
    ∀ h4, x264_lookahead_encoder_shift
        (if (x264_lookahead_update_last_nonb (call_slicetype_decide hk h)
              p).lookahead.b_analyse_keyframe = true ∧
            hk.IS_X264_TYPE_I ((x264_lookahead_update_last_nonb (call_slicetype_decide hk h)
              p).mem p).i_type = true
          then call_slicetype_analyse hk
            { x264_lookahead_update_last_nonb (call_slicetype_decide hk h) p with
              lookahead :=
                { (x264_lookahead_update_last_nonb (call_slicetype_decide hk h) p).lookahead with
                  ofbuf := ofbuf, next := next } } 1
          else
            { x264_lookahead_update_last_nonb (call_slicetype_decide hk h) p with
              lookahead :=
                { (x264_lookahead_update_last_nonb (call_slicetype_decide hk h) p).lookahead with
                  ofbuf := ofbuf, next := next } }) = some h4 →
      x264_lookahead_get_frames hk h = Result.ok h4 := by
  intro h4 hes
  have hcond : ¬ (h.frames_current ≠ [] ∨ h.lookahead.next.i_size = 0) := by
    rintro (a | a)
    · exact a hcur
    · exact hne a
  obtain ⟨a1, _, _, _⟩ := update_last_nonb_shape (call_slicetype_decide hk h) p
  have hl2 : (x264_lookahead_update_last_nonb (call_slicetype_decide hk h)
      p).lookahead.next.list = p :: rest := by
    rw [a1]; exact hl
  have hlast : (x264_lookahead_update_last_nonb (call_slicetype_decide hk h)
      p).lookahead.last_nonb = some p := by
    rw [a1]
  unfold x264_lookahead_get_frames
  simp only [hm, ne_eq, not_true_eq_false, if_false]
  rw [if_neg hcond]
  simp only [hl, hl2, hs]
  by_cases ha : (x264_lookahead_update_last_nonb (call_slicetype_decide hk h)
      p).lookahead.b_analyse_keyframe = true
  · by_cases hi : hk.IS_X264_TYPE_I ((x264_lookahead_update_last_nonb
        (call_slicetype_decide hk h) p).mem p).i_type = true
    · rw [if_pos ⟨ha, hi⟩] at hes
      rw [if_pos ha]
      simp only [hlast] at hes ⊢
      rw [if_pos hi, hes]
    · rw [if_neg (fun hc => hi hc.2)] at hes
      rw [if_pos ha]
      simp only [hlast] at hes ⊢
      rw [if_neg hi, hes]
  · rw [if_neg (fun hc => ha hc.1)] at hes
    rw [if_neg ha, hes]

/-- Without a lookahead thread, a retrieval that decides delivers exactly the
decided run. -/
theorem get_frames_inline_run (hk : Hooks) (hfo : hk.frames_only) (hrf : hk.run_fits)
    (hwo : hk.window_only) (s : Sys) (p : Nat) (rest : List Nat)
    (hinv : Inv s.h s.submitted s.taken) (hn : s.h.in_flight.Nodup) (hrun : RunInv s)
    (hm : s.h.param.i_sync_lookahead = 0) (hcur : s.h.frames_current = [])
    (hl : s.h.lookahead.next.list = p :: rest) :
    ∃ h1 tail, x264_lookahead_get_frames hk s.h = Result.ok h1 ∧
      h1.frames_current = p :: tail ∧ (h1.mem p).i_bframes = (tail.length : Int) ∧
      tail = rest.take ((hk.x264_slicetype_decide s.h).mem p).i_bframes.toNat ∧
      h1.lookahead.next.list = rest.drop ((hk.x264_slicetype_decide s.h).mem p).i_bframes.toNat ∧
      h1.lookahead.ofbuf.list = [] := by
  obtain ⟨a, b, c⟩ := call_decide_shape hk hfo s.h
  obtain ⟨a1, b1, c1, _⟩ := update_last_nonb_shape (call_slicetype_decide hk s.h) p
  have hwn := hinv.wf_next
  have hwo' := hinv.wf_ofbuf
  unfold x264_synch_frame_list_t.wf at hwn hwo'
  have hne : s.h.lookahead.next.i_size ≠ 0 := by
    rw [hwn, hl]; simp only [List.length_cons]; push_cast; omega
  have hlc : (call_slicetype_decide hk s.h).lookahead.next.list = p :: rest := by
    rw [a]; exact hl
  obtain ⟨r1, r2, r3⟩ := runs_prepare hk hrf hwo s.h p rest hn hrun.runs hl
  have hinv2 := inv_decide_prepare hk hfo s.h p _ _ hinv
  have hol : s.h.lookahead.ofbuf.list = [] := hrun.inline_ofbuf hm
  have hoz : s.h.lookahead.ofbuf.i_size = 0 := by rw [hwo', hol]; rfl
  have hcap := hrun.caps
  have hcn := hinv.cap_next
  obtain ⟨ofbuf, next, hsh⟩ : ∃ ofbuf next, x264_lookahead_shift
      (x264_lookahead_update_last_nonb (call_slicetype_decide hk s.h) p).lookahead.ofbuf
      (x264_lookahead_update_last_nonb (call_slicetype_decide hk s.h) p).lookahead.next
      (((x264_lookahead_update_last_nonb (call_slicetype_decide hk s.h) p).mem p).i_bframes + 1)
        = some (ofbuf, next) :=
    ⟨_, _, shift_ok _ _ _ hinv2.wf_ofbuf hinv2.wf_next (by omega)
      (by rw [a1, a]; simp only; rw [hwn, hl]; exact r3)
      (by
        rw [a1, a]; simp only
        rw [hl] at hwn
        omega)⟩
  obtain ⟨h4, h4e, hq⟩ : ∃ h4,
      (h4 = { x264_lookahead_update_last_nonb (call_slicetype_decide hk s.h) p with
            lookahead :=
              { (x264_lookahead_update_last_nonb (call_slicetype_decide hk s.h)
                  p).lookahead with ofbuf := ofbuf, next := next } } ∨
        h4 = call_slicetype_analyse hk
          { x264_lookahead_update_last_nonb (call_slicetype_decide hk s.h) p with
            lookahead :=
              { (x264_lookahead_update_last_nonb (call_slicetype_decide hk s.h)
                  p).lookahead with ofbuf := ofbuf, next := next } } 1) ∧
      (if (x264_lookahead_update_last_nonb (call_slicetype_decide hk s.h)
              p).lookahead.b_analyse_keyframe = true ∧
            hk.IS_X264_TYPE_I ((x264_lookahead_update_last_nonb (call_slicetype_decide hk s.h)
              p).mem p).i_type = true
          then call_slicetype_analyse hk
            { x264_lookahead_update_last_nonb (call_slicetype_decide hk s.h) p with
              lookahead :=
                { (x264_lookahead_update_last_nonb (call_slicetype_decide hk s.h)
                    p).lookahead with ofbuf := ofbuf, next := next } } 1
          else
            { x264_lookahead_update_last_nonb (call_slicetype_decide hk s.h) p with
              lookahead :=
                { (x264_lookahead_update_last_nonb (call_slicetype_decide hk s.h)
                    p).lookahead with ofbuf := ofbuf, next := next } }) = h4 := by
    split
    · exact ⟨_, Or.inr rfl, rfl⟩
    · exact ⟨_, Or.inl rfl, rfl⟩
  obtain ⟨a4, b4, c4, e1, _, _, em, hc4, hinv4⟩ := runs_moved hk hfo hwo
    (x264_lookahead_update_last_nonb (call_slicetype_decide hk s.h) p) h4 _ _ p rest
    ofbuf next hinv2 (by rw [in_flight_prepare hk hfo]; exact hn)
    (by rw [a1, a]; simp only; rw [hol]; exact CompleteRuns.nil)
    (by rw [a1, a]; exact hl) r2 r3 hsh h4e
  obtain ⟨t1, t2, t3⟩ := take_run p rest _ r2 r3
  simp only [a1, a, hol, hl, List.nil_append] at e1
  rw [t1] at e1
  have hl4 : h4.lookahead.ofbuf.list = p :: rest.take
      ((x264_lookahead_update_last_nonb (call_slicetype_decide hk s.h) p).mem
        p).i_bframes.toNat := by
    rw [a4]; exact e1
  have hc4' : CompleteRuns h4.mem (p :: rest.take
      ((x264_lookahead_update_last_nonb (call_slicetype_decide hk s.h) p).mem
        p).i_bframes.toNat) := by
    rw [← e1]; exact hc4
  obtain ⟨tail, rest4, el, hlen, _, he⟩ := encoder_shift_run h4 p _ hinv4.wf_ofbuf hl4 hc4'
  have hr4 : rest4 = [] := by
    have hlen2 := congrArg List.length el
    rw [List.length_append] at hlen2
    have : (tail.length : Int) = ((rest.take
        ((x264_lookahead_update_last_nonb (call_slicetype_decide hk s.h) p).mem
          p).i_bframes.toNat).length : Int) := by
      rw [← hlen, em, t3]
    exact List.length_eq_zero.mp (by omega)
  rw [hr4, List.append_nil] at el
  have hget := get_frames_inline_steps hk s.h p rest ofbuf next hm hcur hne hlc hsh _
    (by rw [hq]; exact he)
  have hmem : ((x264_lookahead_update_last_nonb (call_slicetype_decide hk s.h) p).mem
      p).i_bframes = ((hk.x264_slicetype_decide s.h).mem p).i_bframes := by
    rw [(update_last_nonb_mem _ p p).1]; rfl
  refine ⟨_, tail, hget, ?_, hlen, ?_, ?_, ?_⟩
  · simp only [b4, b1, b, hcur, List.nil_append]
  · rw [← el, hmem]
  · simp only [a4]
    obtain ⟨_, _, _, e2, _⟩ := shift_eq _ _ _ _ _ hinv2.wf_ofbuf hinv2.wf_next hsh
    rw [hmem] at t2
    simp only [e2, a1, a, hl, hmem, t2]
  · simp only [hr4]

theorem stub_run_fits (rs : List Int) : (stub_hooks rs true).run_fits := by
  intro h head rest hl
  simp only [stub_hooks, stub_slicetype_decide, hl, Function.update_same, if_true,
    List.length_cons]
  constructor
  · exact le_max_left _ _
  · push_cast
    have : max 0 (min (rs.getD (decide_count h.calls) 0) (rest.length : Int)) ≤
        (rest.length : Int) := by
      apply max_le
      · exact Int.natCast_nonneg _
      · exact min_le_right _ _
    omega

theorem stub_window_only (rs : List Int) (clamp : Bool) :
    (stub_hooks rs clamp).window_only := by
  constructor
  · intro h p hp
    simp only [stub_hooks, stub_slicetype_decide]
    cases hl : h.lookahead.next.list with
    | nil => rfl
    | cons head rest =>
      have hne : p ≠ head := by
        intro he; rw [hl] at hp; exact hp (by simp [he])
      simp only [Function.update_noteq hne]
  · intro h b p _
    rfl

/-- C2. Run atomicity. The hooks write into frames only; every decision leaves
the head of `next` with a run length `r` such that `0 ≤ r` and `r + 1` frames are
in `next`; the hooks change the run length of no frame that has left `next`; no
frame is in the lists of the lookahead twice (a frame may be submitted again
once it has been retrieved). Then in every reachable state `ofbuf` is made of
complete runs (a head with `i_bframes = r`, then exactly `r` frames).
`x264_lookahead_encoder_shift` does not fail there: on a non-empty `ofbuf` it
removes the head and the `r` frames that follow, that is
`ofbuf.list[0]->i_bframes + 1` frames, which `ofbuf` holds, and leaves complete
runs. `x264_lookahead_get_frames` never aborts, and what it delivers is nothing
or one complete run. -/
theorem run_atomicity (hk : Hooks) (hfo : hk.frames_only) (hrf : hk.run_fits)
    (hwo : hk.window_only) (s : Sys) (hr : ReachableDistinct hk s) :
    CompleteRuns s.h.mem s.h.lookahead.ofbuf.list ∧
    (∃ h1, x264_lookahead_encoder_shift s.h = some h1 ∧
      (s.h.lookahead.ofbuf.list = [] → h1 = s.h) ∧
      ∀ head l, s.h.lookahead.ofbuf.list = head :: l →
        ∃ tail rest, l = tail ++ rest ∧ (s.h.mem head).i_bframes = (tail.length : Int) ∧
          h1.frames_current = s.h.frames_current ++ head :: tail ∧
          h1.lookahead.ofbuf.list = rest ∧
          h1.lookahead.ofbuf.i_size =
            s.h.lookahead.ofbuf.i_size - ((s.h.mem head).i_bframes + 1) ∧
          CompleteRuns h1.mem rest) ∧
    x264_lookahead_get_frames hk s.h ≠ Result.abort ∧
    (∀ h1, x264_lookahead_get_frames hk s.h = Result.ok h1 →
      ∃ run, h1.frames_current = s.h.frames_current ++ run ∧
        (run = [] ∨ IsRun h1.mem run)) := by
  have hinv := inv_reachable hk hfo s (reachable_of_distinct hk s hr)
  have hrun := runinv_reachable hk hfo hrf hwo s hr
  have hn := distinct_in_flight hk s hr
  have hwf := hinv.wf_ofbuf
  unfold x264_synch_frame_list_t.wf at hwf
  have hes : ∃ h1, x264_lookahead_encoder_shift s.h = some h1 ∧
      (s.h.lookahead.ofbuf.list = [] → h1 = s.h) ∧
      (∃ run, h1.frames_current = s.h.frames_current ++ run ∧
        (run = [] ∨ IsRun h1.mem run)) ∧
      ∀ head l, s.h.lookahead.ofbuf.list = head :: l →
        ∃ tail rest, l = tail ++ rest ∧ (s.h.mem head).i_bframes = (tail.length : Int) ∧
          h1.frames_current = s.h.frames_current ++ head :: tail ∧
          h1.lookahead.ofbuf.list = rest ∧
          h1.lookahead.ofbuf.i_size =
            s.h.lookahead.ofbuf.i_size - ((s.h.mem head).i_bframes + 1) ∧
          CompleteRuns h1.mem rest := by
    cases hl : s.h.lookahead.ofbuf.list with
    | nil =>
      have hz : s.h.lookahead.ofbuf.i_size = 0 := by rw [hwf, hl]; rfl
      refine ⟨s.h, by simp [x264_lookahead_encoder_shift, hz], fun _ => rfl,
        ⟨[], by simp, Or.inl rfl⟩, ?_⟩
      intro head l hc; exact absurd hc (by simp)
    | cons head l =>
      have hc := hrun.runs
      rw [hl] at hc
      obtain ⟨tail, rest, e, hlen, hrest, he⟩ :=
        encoder_shift_run s.h head l hinv.wf_ofbuf hl hc
      refine ⟨_, he, fun hc => absurd hc (by simp),
        ⟨head :: tail, rfl, Or.inr ⟨head, tail, rfl, hlen⟩⟩, ?_⟩
      intro head1 l1 hc1
      simp only [List.cons.injEq] at hc1
      obtain ⟨rfl, rfl⟩ := hc1
      exact ⟨tail, rest, e, hlen, rfl, rfl, rfl, hrest⟩
  obtain ⟨h1, he1, he2, he3, he4⟩ := hes
  have hget : x264_lookahead_get_frames hk s.h ≠ Result.abort ∧
      (∀ h2, x264_lookahead_get_frames hk s.h = Result.ok h2 →
        ∃ run, h2.frames_current = s.h.frames_current ++ run ∧
          (run = [] ∨ IsRun h2.mem run)) := by
    by_cases hm : s.h.param.i_sync_lookahead = 0
    · by_cases hcond : s.h.frames_current ≠ [] ∨ s.h.lookahead.next.i_size = 0
      · have hg : x264_lookahead_get_frames hk s.h = Result.ok s.h := by
          unfold x264_lookahead_get_frames
          simp only [hm, ne_eq, not_true_eq_false, if_false]
          rw [if_pos hcond]
        rw [hg]
        refine ⟨by simp, ?_⟩
        intro h2 h2e
        simp only [Result.ok.injEq] at h2e
        subst h2e
        exact ⟨[], by simp, Or.inl rfl⟩
      · have hcur : s.h.frames_current = [] := by
          by_contra hc; exact hcond (Or.inl hc)
        have hne : s.h.lookahead.next.i_size ≠ 0 := fun hc => hcond (Or.inr hc)
        have hwn := hinv.wf_next
        unfold x264_synch_frame_list_t.wf at hwn
        cases hl : s.h.lookahead.next.list with
        | nil => rw [hwn, hl] at hne; exact absurd rfl hne
        | cons p rest =>
          obtain ⟨h3, tail, hg, hf, hlen, _, _, _⟩ :=
            get_frames_inline_run hk hfo hrf hwo s p rest hinv hn hrun hm hcur hl
          rw [hg]
          refine ⟨by simp, ?_⟩
          intro h2 h2e
          simp only [Result.ok.injEq] at h2e
          subst h2e
          exact ⟨p :: tail, by rw [hf, hcur]; rfl, Or.inr ⟨p, tail, rfl, hlen⟩⟩
    · by_cases hb : s.h.lookahead.ofbuf.i_size = 0 ∧ s.h.lookahead.b_thread_active = true
      · have hg : x264_lookahead_get_frames hk s.h = Result.blocked s.h := by
          unfold x264_lookahead_get_frames
          simp only [hm, ne_eq, not_false_eq_true, if_true]
          rw [if_pos hb]
        rw [hg]
        exact ⟨by simp, fun h2 h2e => absurd h2e (by simp)⟩
      · have hg : x264_lookahead_get_frames hk s.h = Result.ok h1 := by
          unfold x264_lookahead_get_frames
          simp only [hm, ne_eq, not_false_eq_true, if_true]
          rw [if_neg hb, he1]
        rw [hg]
        refine ⟨by simp, ?_⟩
        intro h2 h2e
        simp only [Result.ok.injEq] at h2e
        subst h2e
        exact he3
  exact ⟨hrun.runs, ⟨h1, he1, he2, he4⟩, hget.1, hget.2⟩

/-- Witness of C2: with a lookahead thread, the frames `1` and `2` are submitted,
decided as the run `[1, 2]`, retrieved and taken by the encoder, and then
submitted again; the stub decides the run `[1, 2]` once more and `ofbuf` holds
it whole. -/
theorem run_atomicity_witness :
    (sample_distinct [1, 1] 1 [Action.submit 1, Action.submit 2, Action.fill,
      Action.decide, Action.retrieve, Action.consume, Action.consume, Action.submit 1,
      Action.submit 2, Action.fill, Action.decide]).submitted = [1, 2, 1, 2] ∧
    (sample_distinct [1, 1] 1 [Action.submit 1, Action.submit 2, Action.fill,
      Action.decide, Action.retrieve, Action.consume, Action.consume, Action.submit 1,
      Action.submit 2, Action.fill, Action.decide]).taken = [1, 2] ∧
    (sample_distinct [1, 1] 1 [Action.submit 1, Action.submit 2, Action.fill,
      Action.decide, Action.retrieve, Action.consume, Action.consume, Action.submit 1,
      Action.submit 2, Action.fill, Action.decide]).h.lookahead.ofbuf.list = [1, 2] ∧
    CompleteRuns (sample_distinct [1, 1] 1 [Action.submit 1, Action.submit 2, Action.fill,
      Action.decide, Action.retrieve, Action.consume, Action.consume, Action.submit 1,
      Action.submit 2, Action.fill, Action.decide]).h.mem (sample_distinct [1, 1] 1 [Action.submit 1, Action.submit 2, Action.fill,
      Action.decide, Action.retrieve, Action.consume, Action.consume, Action.submit 1,
      Action.submit 2, Action.fill, Action.decide]).h.lookahead.ofbuf.list ∧
    x264_lookahead_get_frames (stub_hooks [1, 1] true) (sample_distinct [1, 1] 1 [Action.submit 1, Action.submit 2, Action.fill,
      Action.decide, Action.retrieve, Action.consume, Action.consume, Action.submit 1,
      Action.submit 2, Action.fill, Action.decide]).h ≠ Result.abort :=
  ⟨rfl, rfl, rfl,
    (run_atomicity (stub_hooks [1, 1] true) (stub_frames_only [1, 1] true)
      (stub_run_fits [1, 1]) (stub_window_only [1, 1] true) _
      (sample_distinct_reachable [1, 1] 1 _ (by decide))).1,
    (run_atomicity (stub_hooks [1, 1] true) (stub_frames_only [1, 1] true)
      (stub_run_fits [1, 1]) (stub_window_only [1, 1] true) _
      (sample_distinct_reachable [1, 1] 1 _ (by decide))).2.2.1⟩

/-! ## Chunking without a lookahead thread (C4) -/

theorem decide_count_append_decide (calls : List HookCall) :
    decide_count (calls ++ [HookCall.slicetype_decide]) = decide_count calls + 1 := by
  simp [decide_count, List.count_append]

theorem decide_count_append_analyse (calls : List HookCall) (b : Int) :
    decide_count (calls ++ [HookCall.slicetype_analyse b]) = decide_count calls := by
  simp [decide_count, List.count_append]

/-- One retrieval of a session without a lookahead thread: the call delivers the
first `r + 1` frames of `next`, where `r` is the run length the decision hook
gives the head. -/
theorem get_frames_inline_chunk (hk : Hooks) (hfo : hk.frames_only)
    (hkeep : ∀ h b p, ((hk.x264_slicetype_analyse h b).mem p).i_bframes = (h.mem p).i_bframes)
    (h : x264_t) (p : Nat) (rest : List Nat) (r : Int)
    (hready : InlineReady h (p :: rest))
    (hr : ((hk.x264_slicetype_decide h).mem p).i_bframes = r) (h0 : 0 ≤ r)
    (h1 : r + 1 ≤ ((p :: rest).length : Int)) :
    ∃ h5, x264_lookahead_get_frames hk h = Result.ok h5 ∧
      h5.frames_current = (p :: rest).take (r + 1).toNat ∧
      InlineReady { h5 with frames_current := [] } ((p :: rest).drop (r + 1).toNat) ∧
      decide_count h5.calls = decide_count h.calls + 1 := by
  obtain ⟨hm, hcur, hwn, hnl, hwo, hol, hroom⟩ := hready
  obtain ⟨a, b, c⟩ := call_decide_shape hk hfo h
  obtain ⟨a1, b1, c1, d1⟩ := update_last_nonb_shape (call_slicetype_decide hk h) p
  have hwn' := hwn
  have hwo' := hwo
  unfold x264_synch_frame_list_t.wf at hwn' hwo'
  rw [hnl] at hwn'
  rw [hol] at hwo'
  simp only [List.length_nil, Nat.cast_zero] at hwo'
  have hne : h.lookahead.next.i_size ≠ 0 := by
    rw [hwn']; simp only [List.length_cons]; push_cast; omega
  have hlc : (call_slicetype_decide hk h).lookahead.next.list = p :: rest := by
    rw [a]; exact hnl
  have hmem : ((x264_lookahead_update_last_nonb (call_slicetype_decide hk h) p).mem
      p).i_bframes = r := by
    rw [(update_last_nonb_mem _ p p).1]; exact hr
  have hsh := shift_ok h.lookahead.ofbuf h.lookahead.next (r + 1) hwo hwn (by omega)
    (by rw [hwn']; exact h1) (by rw [hwo']; omega)
  obtain ⟨t1, t2, t3⟩ := take_run p rest r h0 h1
  rw [hnl, hol, List.nil_append, t1, t2, hwo', hwn'] at hsh
  obtain ⟨ofbuf, next, hsh2, eo, en⟩ : ∃ ofbuf next, x264_lookahead_shift
      (x264_lookahead_update_last_nonb (call_slicetype_decide hk h) p).lookahead.ofbuf
      (x264_lookahead_update_last_nonb (call_slicetype_decide hk h) p).lookahead.next
      (((x264_lookahead_update_last_nonb (call_slicetype_decide hk h) p).mem p).i_bframes + 1)
        = some (ofbuf, next) ∧
      ofbuf = { list := p :: rest.take r.toNat
                i_max_size := h.lookahead.ofbuf.i_max_size
                i_size := 0 + (r + 1)
                cv_fill := h.lookahead.ofbuf.cv_fill + (if 0 < r + 1 then 1 else 0)
                cv_empty := h.lookahead.ofbuf.cv_empty } ∧
      next = { list := rest.drop r.toNat
               i_max_size := h.lookahead.next.i_max_size
               i_size := ((p :: rest).length : Int) - (r + 1)
               cv_fill := h.lookahead.next.cv_fill
               cv_empty := h.lookahead.next.cv_empty + (if 0 < r + 1 then 1 else 0) } := by
    refine ⟨_, _, ?_, rfl, rfl⟩
    rw [a1, a, hmem]; exact hsh
  obtain ⟨h4, h4e, hq⟩ : ∃ h4,
      (h4.lookahead = { (x264_lookahead_update_last_nonb (call_slicetype_decide hk h)
          p).lookahead with
            ofbuf := ofbuf, next := next } ∧
        h4.frames_current = [] ∧ h4.param = h.param ∧ (h4.mem p).i_bframes = r ∧
        decide_count h4.calls = decide_count h.calls + 1) ∧
      (if (x264_lookahead_update_last_nonb (call_slicetype_decide hk h)
              p).lookahead.b_analyse_keyframe = true ∧
            hk.IS_X264_TYPE_I ((x264_lookahead_update_last_nonb (call_slicetype_decide hk h)
              p).mem p).i_type = true
          then call_slicetype_analyse hk
            { x264_lookahead_update_last_nonb (call_slicetype_decide hk h) p with
              lookahead :=
                { (x264_lookahead_update_last_nonb (call_slicetype_decide hk h)
                    p).lookahead with ofbuf := ofbuf, next := next } } 1
          else
            { x264_lookahead_update_last_nonb (call_slicetype_decide hk h) p with
              lookahead :=
                { (x264_lookahead_update_last_nonb (call_slicetype_decide hk h)
                    p).lookahead with ofbuf := ofbuf, next := next } }) = h4 := by
    have hcalls : decide_count (x264_lookahead_update_last_nonb (call_slicetype_decide hk h)
        p).calls = decide_count h.calls + 1 := by
      rw [d1]; exact decide_count_append_decide h.calls
    split
    · refine ⟨_, ?_, rfl⟩
      refine ⟨?_, ?_, ?_, ?_, ?_⟩
      · exact (call_analyse_shape hk hfo _ 1).1
      · rw [(call_analyse_shape hk hfo _ 1).2.1]; simp only [b1, b, hcur]
      · rw [(call_analyse_shape hk hfo _ 1).2.2]; simp only [c1, c]
      · exact (hkeep _ 1 p).trans hmem
      · exact (decide_count_append_analyse _ 1).trans hcalls
    · refine ⟨_, ?_, rfl⟩
      exact ⟨rfl, by simp only [b1, b, hcur], by simp only [c1, c], hmem, hcalls⟩
  obtain ⟨e4, ecur, eparam, emem, ecalls⟩ := h4e
  subst eo en
  have hl4 : h4.lookahead.ofbuf.list = p :: rest.take r.toNat := by rw [e4]
  have hes := encoder_shift_ok h4 p (rest.take r.toNat)
    (by rw [e4]; simp only; omega) hl4 (by rw [emem]; omega)
    (by rw [emem]; simp only [List.length_cons]; push_cast; omega)
  have hget := get_frames_inline_steps hk h p rest _ _ hm hcur hne hlc hsh2 _
    (by rw [hq]; exact hes)
  have et : (h4.mem p).i_bframes + 1 = ((rest.take r.toNat).length : Int) + 1 := by
    rw [emem, t3]
  refine ⟨_, hget, ?_, ?_, ecalls⟩
  · simp only [ecur, List.nil_append, emem, t1]
    have : (r + 1).toNat = (rest.take r.toNat).length + 1 := by omega
    rw [this, List.take_succ_cons, List.take_length]
  · have hdrop : (p :: rest.take r.toNat).drop ((h4.mem p).i_bframes + 1).toNat = [] := by
      have : ((h4.mem p).i_bframes + 1).toNat = (rest.take r.toNat).length + 1 := by omega
      rw [this, List.drop_succ_cons, List.drop_length]
    refine ⟨?_, rfl, ?_, ?_, ?_, ?_, ?_⟩
    · simp only [eparam]; exact hm
    · simp only [e4, x264_synch_frame_list_t.wf, t2, List.length_drop]
      simp only [List.length_cons] at h1 ⊢
      push_cast at h1 ⊢
      omega
    · simp only [e4, t2]
    · simp only [e4, x264_synch_frame_list_t.wf]
      rw [hdrop, emem]
      simp
    · simp only [e4, hdrop]
    · simp only [e4, t2, List.length_drop]
      simp only [List.length_cons] at hroom
      push_cast at hroom
      omega

theorem put_frames_inline (frames : List Nat) : ∀ (h : x264_t),
    h.param.i_sync_lookahead = 0 → h.lookahead.next.wf →
    h.lookahead.next.i_size + (frames.length : Int) ≤ h.lookahead.next.i_max_size →
    ∃ h1, put_frames h frames = Result.ok h1 ∧
      h1.lookahead.next.list = h.lookahead.next.list ++ frames ∧ h1.lookahead.next.wf ∧
      h1.lookahead.ofbuf = h.lookahead.ofbuf ∧ h1.frames_current = h.frames_current ∧
      h1.param = h.param ∧ h1.calls = h.calls := by
  induction frames with
  | nil =>
    intro h _ hw _
    exact ⟨h, rfl, by simp, hw, rfl, rfl, rfl, rfl⟩
  | cons frame frames ih =>
    intro h hm hw hroom
    simp only [List.length_cons] at hroom
    push_cast at hroom
    have hw' := hw
    unfold x264_synch_frame_list_t.wf at hw'
    have hnf : h.lookahead.next.i_size ≠ h.lookahead.next.i_max_size := by omega
    have hput : x264_lookahead_put_frame h frame = Result.ok
        { h with lookahead := { h.lookahead with
            next := { h.lookahead.next with
              list := h.lookahead.next.list ++ [frame]
              i_size := h.lookahead.next.i_size + 1
              cv_fill := h.lookahead.next.cv_fill + 1 } } } := by
      simp [x264_lookahead_put_frame, x264_synch_frame_list_push, hm, hnf]
    obtain ⟨h1, e1, e2, e3, e4, e5, e6, e7⟩ := ih
      { h with lookahead := { h.lookahead with
          next := { h.lookahead.next with
            list := h.lookahead.next.list ++ [frame]
            i_size := h.lookahead.next.i_size + 1
            cv_fill := h.lookahead.next.cv_fill + 1 } } }
      hm (by simp [x264_synch_frame_list_t.wf, hw']) (by simp only; omega)
    refine ⟨h1, ?_, ?_, e3, e4, e5, e6, e7⟩
    · simp only [put_frames, hput]; exact e1
    · rw [e2]; simp

theorem sum_runs_nonneg (rs : List Int) (hpos : ∀ r ∈ rs, 0 ≤ r) :
    0 ≤ (rs.map (fun r => r + 1)).sum := by
  induction rs with
  | nil => simp
  | cons r rs ih =>
    simp only [List.map_cons, List.sum_cons]
    have := hpos r (by simp)
    have := ih (fun q hq => hpos q (by simp [hq]))
    omega

theorem split_runs_join (rs : List Int) : ∀ (frames : List Nat),
    (∀ r ∈ rs, 0 ≤ r) → (frames.length : Int) = (rs.map (fun r => r + 1)).sum →
    (split_runs rs frames).flatten = frames := by
  induction rs with
  | nil =>
    intro frames _ hlen
    simp only [List.map_nil, List.sum_nil] at hlen
    have : frames = [] := List.length_eq_zero.mp (by omega)
    simp [split_runs, this]
  | cons r rs ih =>
    intro frames hpos hlen
    simp only [List.map_cons, List.sum_cons] at hlen
    have hr := hpos r (by simp)
    have hs := sum_runs_nonneg rs (fun q hq => hpos q (by simp [hq]))
    simp only [split_runs, List.flatten_cons]
    have hd : ((frames.drop (r + 1).toNat).length : Int) =
        (rs.map (fun r => r + 1)).sum := by
      rw [List.length_drop]; omega
    rw [ih (frames.drop (r + 1).toNat) (fun q hq => hpos q (by simp [hq])) hd]
    exact List.take_append_drop _ _

/-- The retrievals of a session without a lookahead thread deliver the runs one
after the other. -/
theorem get_runs_inline (hk : Hooks) (hfo : hk.frames_only) (all : List Int)
    (has : hk.assigns all) (rs : List Int) : ∀ (frames : List Nat) (h : x264_t),
    InlineReady h frames →
    (∀ j r, rs.get? j = some r → all.get? (decide_count h.calls + j) = some r) →
    (∀ r ∈ rs, 0 ≤ r) → (frames.length : Int) = (rs.map (fun r => r + 1)).sum →
    ∃ h2, get_runs hk rs.length h = Result.ok (split_runs rs frames, h2) := by
  induction rs with
  | nil =>
    intro frames h _ _ _ _
    exact ⟨h, rfl⟩
  | cons r rs ih =>
    intro frames h hready hidx hpos hlen
    simp only [List.map_cons, List.sum_cons] at hlen
    have hr := hpos r (by simp)
    have hs := sum_runs_nonneg rs (fun q hq => hpos q (by simp [hq]))
    cases frames with
    | nil => simp only [List.length_nil, Nat.cast_zero] at hlen; omega
    | cons p rest =>
      have hassign : ((hk.x264_slicetype_decide h).mem p).i_bframes = r :=
        has.1 h p rest r hready.next_list (by simpa using hidx 0 r rfl)
      obtain ⟨h5, hg, hcur5, hready5, hcount⟩ := get_frames_inline_chunk hk hfo has.2 h p rest r
        hready hassign hr (by omega)
      obtain ⟨h2, hrec⟩ := ih _ { h5 with frames_current := [] } hready5
        (by
          intro j q hq
          have := hidx (j + 1) q (by simpa using hq)
          simp only [hcount]
          rw [Nat.add_assoc, Nat.add_comm 1 j]
          exact this)
        (fun q hq => hpos q (by simp [hq]))
        (by
          rw [List.length_drop]
          simp only [List.length_cons] at hlen ⊢
          push_cast at hlen
          omega)
      refine ⟨h2, ?_⟩
      simp only [List.length_cons, get_runs, hg, hrec, split_runs, hcur5]

theorem stub_assigns (rs : List Int) : (stub_hooks rs false).assigns rs := by
  constructor
  · intro h head rest r hl hr
    simp only [stub_hooks, stub_slicetype_decide, hl, Function.update_same]
    simp only [Bool.false_eq_true, if_false]
    rw [List.getD_eq_getElem?_getD]
    rw [List.get?_eq_getElem?] at hr
    rw [hr]; rfl
  · intro h b p
    rfl

/-- C4. End-to-end chunking without a lookahead thread (`i_sync_lookahead = 0`).
Let `rs` be run lengths, all `0 ≤ r`, and `frames` a sequence of
`sum (r + 1)` frames that fits the capacity `frames.i_delay + 3` of `next`. Let
the decision hook give the head of `next` the run length `rs[i]` at decision `i`,
and the hooks write into frames only, the analysis changing no run length. After
a successful `x264_lookahead_init`, submitting the frames succeeds, and when the
encoder empties `frames.current` between calls, the calls number `0, 1, ...` of
`x264_lookahead_get_frames` deliver the consecutive pieces of `frames` of
`rs[0] + 1, rs[1] + 1, ...` frames, which together are `frames`. -/
theorem inline_chunking (hk : Hooks) (f : InitFaults) (h : x264_t) (n : Int)
    (rs : List Int) (frames : List Nat)
    (hfo : hk.frames_only) (has : hk.assigns rs)
    (hm : h.param.i_sync_lookahead = 0) (hcur : h.frames_current = [])
    (hcalls : h.calls = []) (hret : (x264_lookahead_init f h n).ret = 0)
    (hpos : ∀ r ∈ rs, 0 ≤ r)
    (hlen : (frames.length : Int) = (rs.map (fun r => r + 1)).sum)
    (hfit : (frames.length : Int) ≤ h.frames_i_delay + 3) :
    ∃ h1 h2, put_frames (x264_lookahead_init f h n).h frames = Result.ok h1 ∧
      get_runs hk rs.length h1 = Result.ok (split_runs rs frames, h2) ∧
      (split_runs rs frames).flatten = frames := by
  obtain ⟨_, _, _, e2, e3, _, e5, e6, _, e8⟩ := init_success f h n hret
  obtain ⟨h1, p1, p2, p3, p4, p5, p6, p7⟩ := put_frames_inline frames
    (x264_lookahead_init f h n).h (by rw [e6]; exact hm) (by rw [e2]; rfl)
    (by rw [e2]; simp only; omega)
  have hready : InlineReady h1 frames := by
    refine ⟨by rw [p6, e6]; exact hm, by rw [p5, e5]; exact hcur, p3, ?_, ?_, ?_, ?_⟩
    · rw [p2, e2]; rfl
    · rw [p4, e3]; rfl
    · rw [p4, e3]
    · rw [p4, e3]; exact hfit
  have hc : decide_count h1.calls = 0 := by
    rw [p7, e8, hcalls]; rfl
  obtain ⟨h2, hruns⟩ := get_runs_inline hk hfo rs has rs frames h1 hready
    (by intro j r hj; rw [hc, Nat.zero_add]; exact hj) hpos hlen
  exact ⟨h1, h2, p1, hruns, split_runs_join rs frames hpos hlen⟩

/-- Witness of C4: the run lengths `[0, 2, 0]` on the frames `[1, 2, 3, 4, 5]`
deliver `[1]`, then `[2, 3, 4]`, then `[5]`. -/
theorem inline_chunking_witness :
    ∃ h1 h2,
      put_frames (x264_lookahead_init no_faults (sample_handle 0) 0).h [1, 2, 3, 4, 5] =
        Result.ok h1 ∧
      get_runs (stub_hooks [0, 2, 0] false) 3 h1 =
        Result.ok ([[1], [2, 3, 4], [5]], h2) :=
  match inline_chunking (stub_hooks [0, 2, 0] false) no_faults (sample_handle 0) 0
      [0, 2, 0] [1, 2, 3, 4, 5] (stub_frames_only [0, 2, 0] false) (stub_assigns [0, 2, 0])
      rfl rfl rfl rfl (by decide) (by decide) (by decide) with
  | ⟨h1, h2, hput, hget, _⟩ => ⟨h1, h2, hput, hget⟩

/-! ## The fill of the lookahead thread (C14) -/

theorem X264_MIN_eq (a b : Int) : X264_MIN a b = min a b := by
  unfold X264_MIN
  split
  · rw [min_eq_left (by omega)]
  · rw [min_eq_right (by omega)]

/-- C14. The filling step of the lookahead thread, lines 97-101. In every state
with well-formed `ifbuf` and `next` and `next.i_size ≤ next.i_max_size`, let
`n = min (next.i_max_size - next.i_size) ifbuf.i_size`. The fill trips no
assertion of `x264_lookahead_shift`; it moves exactly the first `n` frames of
`ifbuf`, in order, to the tail of `next` and changes nothing else but the two
condition counters; `next.i_size ≤ next.i_max_size` still holds; and the fill is
maximal: afterwards `ifbuf` is empty or `next` is full. -/
theorem x264_lookahead_thread_fill_maximal (h : x264_t)
    (wn : h.lookahead.next.wf) (wi : h.lookahead.ifbuf.wf)
    (hcap : h.lookahead.next.i_size ≤ h.lookahead.next.i_max_size) :
    ∃ h', x264_lookahead_thread_fill h = some h' ∧
      0 ≤ min (h.lookahead.next.i_max_size - h.lookahead.next.i_size)
        h.lookahead.ifbuf.i_size ∧
      h'.lookahead.next.list = h.lookahead.next.list ++ h.lookahead.ifbuf.list.take
        (min (h.lookahead.next.i_max_size - h.lookahead.next.i_size)
          h.lookahead.ifbuf.i_size).toNat ∧
      h'.lookahead.ifbuf.list = h.lookahead.ifbuf.list.drop
        (min (h.lookahead.next.i_max_size - h.lookahead.next.i_size)
          h.lookahead.ifbuf.i_size).toNat ∧
      h'.lookahead.next.i_size = h.lookahead.next.i_size +
        min (h.lookahead.next.i_max_size - h.lookahead.next.i_size)
          h.lookahead.ifbuf.i_size ∧
      h'.lookahead.ifbuf.i_size = h.lookahead.ifbuf.i_size -
        min (h.lookahead.next.i_max_size - h.lookahead.next.i_size)
          h.lookahead.ifbuf.i_size ∧
      h'.lookahead.next.i_max_size = h.lookahead.next.i_max_size ∧
      h'.lookahead.ifbuf.i_max_size = h.lookahead.ifbuf.i_max_size ∧
      h'.lookahead.next.i_size ≤ h'.lookahead.next.i_max_size ∧
      (h'.lookahead.ifbuf.i_size = 0 ∨
        h'.lookahead.next.i_size = h'.lookahead.next.i_max_size) ∧
      h'.lookahead.ofbuf = h.lookahead.ofbuf ∧
      h'.lookahead.last_nonb = h.lookahead.last_nonb ∧
      h'.frames_current = h.frames_current ∧ h'.mem = h.mem ∧ h'.calls = h.calls := by
  have hi : 0 ≤ h.lookahead.ifbuf.i_size := by
    unfold x264_synch_frame_list_t.wf at wi; omega
  have hn0 : 0 ≤ min (h.lookahead.next.i_max_size - h.lookahead.next.i_size)
      h.lookahead.ifbuf.i_size := le_min (by omega) hi
  obtain ⟨d, s, hs⟩ : ∃ d s, x264_lookahead_shift h.lookahead.next h.lookahead.ifbuf
      (min (h.lookahead.next.i_max_size - h.lookahead.next.i_size) h.lookahead.ifbuf.i_size) =
        some (d, s) :=
    ⟨_, _, shift_ok h.lookahead.next h.lookahead.ifbuf _ wn wi hn0 (min_le_right _ _)
      (by have := min_le_left (h.lookahead.next.i_max_size - h.lookahead.next.i_size)
            h.lookahead.ifbuf.i_size
          omega)⟩
  obtain ⟨_, _, e1, e2, e3, e4, e5, e6, _⟩ := shift_eq _ _ _ _ _ wn wi hs
  have hf : x264_lookahead_thread_fill h =
      some { h with lookahead := { h.lookahead with next := d, ifbuf := s } } := by
    simp only [x264_lookahead_thread_fill, X264_MIN_eq, hs]
  refine ⟨_, hf, hn0, e1, e2, e3, e4, e5, e6, ?_, ?_, rfl, rfl, rfl, rfl, rfl⟩
  · simp only [e3, e5]
    have := min_le_left (h.lookahead.next.i_max_size - h.lookahead.next.i_size)
      h.lookahead.ifbuf.i_size
    omega
  · simp only [e3, e4, e5]
    rcases min_choice (h.lookahead.next.i_max_size - h.lookahead.next.i_size)
      h.lookahead.ifbuf.i_size with e | e
    · right; rw [e]; omega
    · left; rw [e]; omega

/-- Witness of C14: `next` (capacity 5) holds four frames and `ifbuf` holds four:
the fill moves one frame and `next` is full. -/
theorem x264_lookahead_thread_fill_maximal_witness :
    ∃ h', x264_lookahead_thread_fill
        (sample_after [] 1 [Action.submit 1, Action.submit 2, Action.submit 3,
          Action.submit 4, Action.fill, Action.submit 5, Action.submit 6, Action.submit 7,
          Action.submit 8]).h = some h' ∧
      h'.lookahead.next.list = [1, 2, 3, 4, 5] ∧ h'.lookahead.ifbuf.list = [6, 7, 8] ∧
      h'.lookahead.next.i_size = h'.lookahead.next.i_max_size :=
  match x264_lookahead_thread_fill_maximal
      (sample_after [] 1 [Action.submit 1, Action.submit 2, Action.submit 3,
        Action.submit 4, Action.fill, Action.submit 5, Action.submit 6, Action.submit 7,
        Action.submit 8]).h rfl rfl (by decide) with
  | ⟨h', hf, _, hn, hi, hs, _, hm, _, _, _, _⟩ =>
    ⟨h', hf, hn, hi, by rw [hs, hm]; decide⟩

/-! ## The drain (C11) -/

/-- A move that needs more room than the destination has fails an assertion. -/
theorem shift_no_room (dst src : x264_synch_frame_list_t) (count : Int)
    (hd : dst.wf) (hs : src.wf) (h0 : count ≠ 0)
    (h1 : dst.i_max_size < dst.i_size + count) :
    x264_lookahead_shift dst src count = none := by
  cases hsh : x264_lookahead_shift dst src count with
  | none => rfl
  | some r =>
    obtain ⟨d, s⟩ := r
    obtain ⟨_, _, c⟩ := shift_some dst src d s count hd hs hsh
    rcases c with c | c
    · exact absurd c h0
    · omega

/-- Counterexample to C11 as stated: `next` is full (five frames, capacity five),
three frames wait in `ifbuf`, the exit has been requested; the drain does not
complete, the assertion `dst->i_size < dst->i_max_size` fails. -/
theorem x264_lookahead_thread_drain_counterexample :
    Reachable (stub_hooks [] true)
      (sample_after [] 1 [Action.submit 1, Action.submit 2, Action.submit 3, Action.submit 4,
        Action.fill, Action.submit 5, Action.submit 6, Action.submit 7, Action.submit 8,
        Action.fill, Action.request_exit]) ∧
    (sample_after [] 1 [Action.submit 1, Action.submit 2, Action.submit 3, Action.submit 4,
        Action.fill, Action.submit 5, Action.submit 6, Action.submit 7, Action.submit 8,
        Action.fill, Action.request_exit]).h.lookahead.b_exit_thread = true ∧
    (sample_after [] 1 [Action.submit 1, Action.submit 2, Action.submit 3, Action.submit 4,
        Action.fill, Action.submit 5, Action.submit 6, Action.submit 7, Action.submit 8,
        Action.fill, Action.request_exit]).h.lookahead.next.list = [1, 2, 3, 4, 5] ∧
    (sample_after [] 1 [Action.submit 1, Action.submit 2, Action.submit 3, Action.submit 4,
        Action.fill, Action.submit 5, Action.submit 6, Action.submit 7, Action.submit 8,
        Action.fill, Action.request_exit]).h.lookahead.next.i_max_size = 5 ∧
    (sample_after [] 1 [Action.submit 1, Action.submit 2, Action.submit 3, Action.submit 4,
        Action.fill, Action.submit 5, Action.submit 6, Action.submit 7, Action.submit 8,
        Action.fill, Action.request_exit]).h.lookahead.ifbuf.list = [6, 7, 8] ∧
    x264_lookahead_thread_drain
      (sample_after [] 1 [Action.submit 1, Action.submit 2, Action.submit 3, Action.submit 4,
        Action.fill, Action.submit 5, Action.submit 6, Action.submit 7, Action.submit 8,
        Action.fill, Action.request_exit]).h = none :=
  ⟨sample_after_reachable [] 1 _ (by decide), rfl, rfl, rfl, rfl, rfl⟩

/-- C11, amended. Draining on exit, lines 114-118. In every state with
well-formed `ifbuf` and `next` and `next.i_size ≤ next.i_max_size`: when the
frames of `ifbuf` fit into `next` (`next.i_size + ifbuf.i_size ≤ next.i_max_size`)
the drain completes with `ifbuf` empty and `next.list` the old `next.list`
followed by the old `ifbuf.list`, and changes nothing else but the two condition
counters; when they do not fit, the drain does not complete: the count is not
cut down as in the fill, and the assertion `dst->i_size < dst->i_max_size` of
`x264_lookahead_shift` fails. -/
theorem x264_lookahead_thread_drain_fits (h : x264_t)
    (wn : h.lookahead.next.wf) (wi : h.lookahead.ifbuf.wf)
    (hcap : h.lookahead.next.i_size ≤ h.lookahead.next.i_max_size) :
    (h.lookahead.next.i_size + h.lookahead.ifbuf.i_size ≤ h.lookahead.next.i_max_size →
      ∃ h', x264_lookahead_thread_drain h = some h' ∧
        h'.lookahead.ifbuf.list = [] ∧ h'.lookahead.ifbuf.i_size = 0 ∧
        h'.lookahead.next.list = h.lookahead.next.list ++ h.lookahead.ifbuf.list ∧
        h'.lookahead.next.i_size = h.lookahead.next.i_size + h.lookahead.ifbuf.i_size ∧
        h'.lookahead.next.i_max_size = h.lookahead.next.i_max_size ∧
        h'.lookahead.ifbuf.i_max_size = h.lookahead.ifbuf.i_max_size ∧
        h'.lookahead.ofbuf = h.lookahead.ofbuf ∧
        h'.lookahead.last_nonb = h.lookahead.last_nonb ∧
        h'.frames_current = h.frames_current ∧ h'.mem = h.mem ∧ h'.calls = h.calls) ∧
    (h.lookahead.next.i_max_size < h.lookahead.next.i_size + h.lookahead.ifbuf.i_size →
      x264_lookahead_thread_drain h = none) := by
  have wi' := wi
  unfold x264_synch_frame_list_t.wf at wi'
  constructor
  · intro hfit
    obtain ⟨d, s, hs⟩ : ∃ d s, x264_lookahead_shift h.lookahead.next h.lookahead.ifbuf
        h.lookahead.ifbuf.i_size = some (d, s) :=
      ⟨_, _, shift_ok h.lookahead.next h.lookahead.ifbuf _ wn wi (by omega) (le_refl _) hfit⟩
    obtain ⟨_, _, e1, e2, e3, e4, e5, e6, _⟩ := shift_eq _ _ _ _ _ wn wi hs
    have hf : x264_lookahead_thread_drain h =
        some { h with lookahead := { h.lookahead with next := d, ifbuf := s } } := by
      simp only [x264_lookahead_thread_drain, hs]
    have ht : h.lookahead.ifbuf.i_size.toNat = h.lookahead.ifbuf.list.length := by omega
    refine ⟨_, hf, ?_, ?_, ?_, e3, e5, e6, rfl, rfl, rfl, rfl, rfl⟩
    · simp only [e2, ht, List.drop_length]
    · simp only [e4]; omega
    · simp only [e1, ht, List.take_length]
  · intro hno
    have hs := shift_no_room h.lookahead.next h.lookahead.ifbuf h.lookahead.ifbuf.i_size
      wn wi (by omega) hno
    simp only [x264_lookahead_thread_drain, hs]

/-- Witness of C11, amended: four frames are in `next` (capacity five) and one in
`ifbuf`; the drain moves it. -/
theorem x264_lookahead_thread_drain_fits_witness :
    ∃ h', x264_lookahead_thread_drain
        (sample_after [] 1 [Action.submit 1, Action.submit 2, Action.submit 3,
          Action.submit 4, Action.fill, Action.submit 5, Action.request_exit]).h = some h' ∧
      h'.lookahead.ifbuf.list = [] ∧ h'.lookahead.next.list = [1, 2, 3, 4] ++ [5] :=
  match (x264_lookahead_thread_drain_fits
      (sample_after [] 1 [Action.submit 1, Action.submit 2, Action.submit 3,
        Action.submit 4, Action.fill, Action.submit 5, Action.request_exit]).h
      rfl rfl (by decide)).1 (by decide) with
  | ⟨h', hf, hi, _, hn, _⟩ => ⟨h', hf, hi, hn⟩

/-! ## The wait of the decision step (C13) -/

/-- Counterexample to C13 as stated: `ofbuf` holds four frames and has the
capacity five, so the wait of the decision step is over; `next` holds `[5, 6]`
and the hook leaves the head with the run length `1`. The move of the two
frames fails the assertion `dst->i_size < dst->i_max_size` at the second frame,
and the decision step aborts. -/
theorem x264_lookahead_slicetype_decide_wait_counterexample :
    Reachable (stub_hooks [1, 1, 1] true)
      (sample_after [1, 1, 1] 1 [Action.submit 1, Action.submit 2, Action.submit 3,
        Action.submit 4, Action.fill, Action.decide, Action.decide, Action.submit 5,
        Action.submit 6, Action.fill]) ∧
    ((sample_after [1, 1, 1] 1 [Action.submit 1, Action.submit 2, Action.submit 3,
        Action.submit 4, Action.fill, Action.decide, Action.decide, Action.submit 5,
        Action.submit 6, Action.fill]).h.lookahead.ofbuf.i_size = 4 ∧
      (sample_after [1, 1, 1] 1 [Action.submit 1, Action.submit 2, Action.submit 3,
        Action.submit 4, Action.fill, Action.decide, Action.decide, Action.submit 5,
        Action.submit 6, Action.fill]).h.lookahead.ofbuf.i_max_size = 5) ∧
    (sample_after [1, 1, 1] 1 [Action.submit 1, Action.submit 2, Action.submit 3,
        Action.submit 4, Action.fill, Action.decide, Action.decide, Action.submit 5,
        Action.submit 6, Action.fill]).h.lookahead.next.list = [5, 6] ∧
    (((stub_hooks [1, 1, 1] true).x264_slicetype_decide
      (sample_after [1, 1, 1] 1 [Action.submit 1, Action.submit 2, Action.submit 3,
        Action.submit 4, Action.fill, Action.decide, Action.decide, Action.submit 5,
        Action.submit 6, Action.fill]).h).mem 5).i_bframes = 1 ∧
    x264_lookahead_shift
      (sample_after [1, 1, 1] 1 [Action.submit 1, Action.submit 2, Action.submit 3,
        Action.submit 4, Action.fill, Action.decide, Action.decide, Action.submit 5,
        Action.submit 6, Action.fill]).h.lookahead.ofbuf
      (sample_after [1, 1, 1] 1 [Action.submit 1, Action.submit 2, Action.submit 3,
        Action.submit 4, Action.fill, Action.decide, Action.decide, Action.submit 5,
        Action.submit 6, Action.fill]).h.lookahead.next (1 + 1) = none ∧
    (match x264_lookahead_slicetype_decide (stub_hooks [1, 1, 1] true)
        (sample_after [1, 1, 1] 1 [Action.submit 1, Action.submit 2, Action.submit 3,
          Action.submit 4, Action.fill, Action.decide, Action.decide, Action.submit 5,
          Action.submit 6, Action.fill]).h with
      | Result.abort => True
      | Result.ok _ => False
      | Result.blocked _ => False) :=
  ⟨sample_after_reachable [1, 1, 1] 1 _ (by decide), ⟨rfl, rfl⟩, rfl, rfl, by decide,
    trivial⟩

/-- C13, amended. What the wait of the decision step is enough for. Let `ofbuf`
and `next` be well formed, the wait be over (`ofbuf.i_size < ofbuf.i_max_size`),
and the head of `next` have a run length `r` with `0 ≤ r` and
`r + 1 ≤ next.i_size`. The move of the `r + 1` frames into `ofbuf` trips no
assertion and keeps `ofbuf.i_size ≤ ofbuf.i_max_size` if and only if `ofbuf`
has room for the whole run, `ofbuf.i_size + r + 1 ≤ ofbuf.i_max_size`; otherwise
the assertion `dst->i_size < dst->i_max_size` fails. The free slot the wait
gives is enough for the runs with `r = 0`. -/
theorem x264_lookahead_slicetype_decide_wait_room (hk : Hooks) (h : x264_t) (head : Nat)
    (rest : List Nat) (r : Int)
    (wo : h.lookahead.ofbuf.wf) (wn : h.lookahead.next.wf)
    (hl : h.lookahead.next.list = head :: rest) (hr : (h.mem head).i_bframes = r)
    (h0 : 0 ≤ r) (h1 : r + 1 ≤ h.lookahead.next.i_size)
    (hwait : h.lookahead.ofbuf.i_size < h.lookahead.ofbuf.i_max_size) :
    (h.lookahead.ofbuf.i_size + r + 1 ≤ h.lookahead.ofbuf.i_max_size →
      ∃ ofbuf next, x264_lookahead_shift h.lookahead.ofbuf h.lookahead.next
          ((h.mem head).i_bframes + 1) = some (ofbuf, next) ∧
        ofbuf.i_size = h.lookahead.ofbuf.i_size + r + 1 ∧
        ofbuf.i_max_size = h.lookahead.ofbuf.i_max_size ∧
        ofbuf.i_size ≤ ofbuf.i_max_size ∧
        ofbuf.list = h.lookahead.ofbuf.list ++ (head :: rest).take (r + 1).toNat ∧
        next.list = (head :: rest).drop (r + 1).toNat) ∧
    (h.lookahead.ofbuf.i_max_size < h.lookahead.ofbuf.i_size + r + 1 →
      x264_lookahead_shift h.lookahead.ofbuf h.lookahead.next
          ((h.mem head).i_bframes + 1) = none ∧
        x264_lookahead_slicetype_decide_wait hk h = Result.abort) ∧
    (r = 0 → h.lookahead.ofbuf.i_size + r + 1 ≤ h.lookahead.ofbuf.i_max_size) := by
  refine ⟨?_, ?_, fun hz => by omega⟩
  · intro hroom
    obtain ⟨d, s, hs⟩ : ∃ d s, x264_lookahead_shift h.lookahead.ofbuf h.lookahead.next
        ((h.mem head).i_bframes + 1) = some (d, s) :=
      ⟨_, _, shift_ok _ _ _ wo wn (by omega) (by omega) (by omega)⟩
    obtain ⟨_, _, e1, e2, e3, _, e5, _, _⟩ := shift_eq _ _ _ _ _ wo wn hs
    refine ⟨d, s, hs, by rw [e3, hr]; omega, e5, by rw [e3, e5, hr]; omega, ?_, ?_⟩
    · rw [e1, hl, hr]
    · rw [e2, hl, hr]
  · intro hno
    have hs := shift_no_room h.lookahead.ofbuf h.lookahead.next ((h.mem head).i_bframes + 1)
      wo wn (by omega) (by omega)
    refine ⟨hs, ?_⟩
    unfold x264_lookahead_slicetype_decide_wait
    simp only [ne_of_lt hwait, if_false, hl, hs]

/-- Witness of C13, amended: `ofbuf` is empty (capacity five), `next` holds
`[1, 2, 3]` and the hook has left the head with the run length `1`; the two
frames are moved. -/
theorem x264_lookahead_slicetype_decide_wait_room_witness :
    ∃ ofbuf next, x264_lookahead_shift
        ((stub_hooks [1] true).x264_slicetype_decide
          (sample_after [1] 1 [Action.submit 1, Action.submit 2, Action.submit 3,
            Action.fill]).h).lookahead.ofbuf
        ((stub_hooks [1] true).x264_slicetype_decide
          (sample_after [1] 1 [Action.submit 1, Action.submit 2, Action.submit 3,
            Action.fill]).h).lookahead.next
        ((((stub_hooks [1] true).x264_slicetype_decide
          (sample_after [1] 1 [Action.submit 1, Action.submit 2, Action.submit 3,
            Action.fill]).h).mem 1).i_bframes + 1) = some (ofbuf, next) ∧
      ofbuf.i_size = 2 ∧ ofbuf.list = [1, 2] ∧ next.list = [3] :=
  match (x264_lookahead_slicetype_decide_wait_room (stub_hooks [1] true)
      ((stub_hooks [1] true).x264_slicetype_decide
        (sample_after [1] 1 [Action.submit 1, Action.submit 2, Action.submit 3,
          Action.fill]).h) 1 [2, 3] 1 rfl rfl rfl rfl (by decide) (by decide)
      (by decide)).1 (by decide) with
  | ⟨ofbuf, next, hs, hsz, _, _, ho, hn⟩ => ⟨ofbuf, next, hs, hsz, ho, hn⟩

/-! ## The analysis hook (C17) -/

theorem encoder_shift_calls (h h1 : x264_t) (hs : x264_lookahead_encoder_shift h = some h1) :
    h1.calls = h.calls := by
  unfold x264_lookahead_encoder_shift at hs
  split at hs
  · simp only [Option.some.injEq] at hs; rw [← hs]
  · split at hs
    · exact absurd hs (by simp)
    · simp only at hs
      split at hs
      · exact absurd hs (by simp)
      · split at hs
        · exact absurd hs (by simp)
        · simp only [Option.some.injEq] at hs; rw [← hs]

/-- The hook invocations of the part of the decision step that follows the wait. -/
theorem decide_wait_calls (hk : Hooks) (h h1 : x264_t) (p : Nat)
    (hlast : h.lookahead.last_nonb = some p)
    (hd : x264_lookahead_slicetype_decide_wait hk h = Result.ok h1) :
    h1.calls = h.calls ++
      (if h.lookahead.b_analyse_keyframe = true ∧ hk.IS_X264_TYPE_I (h.mem p).i_type = true
        then [HookCall.slicetype_analyse 1] else []) := by
  unfold x264_lookahead_slicetype_decide_wait at hd
  split at hd
  · exact absurd hd (by simp)
  · split at hd
    · exact absurd hd (by simp)
    · split at hd
      · exact absurd hd (by simp)
      · simp only [hlast] at hd
        by_cases ha : h.lookahead.b_analyse_keyframe = true
        · by_cases hi : hk.IS_X264_TYPE_I (h.mem p).i_type = true
          · simp only [ha, hi, if_true, Result.ok.injEq] at hd
            rw [← hd, if_pos ⟨ha, hi⟩]; rfl
          · simp [ha, hi] at hd
            rw [← hd, if_neg (fun hc => hi hc.2)]; simp
        · simp [ha] at hd
          rw [← hd, if_neg (fun hc => ha hc.1)]; simp

/-- The hook invocations of a retrieval without a lookahead thread that decides. -/
theorem get_frames_inline_calls (hk : Hooks) (h h1 : x264_t)
    (hm : h.param.i_sync_lookahead = 0)
    (hg : x264_lookahead_get_frames hk h = Result.ok h1) :
    h1 = h ∨
    ∃ head rest, (hk.x264_slicetype_decide h).lookahead.next.list = head :: rest ∧
      h1.calls = h.calls ++ HookCall.slicetype_decide ::
        (if (hk.x264_slicetype_decide h).lookahead.b_analyse_keyframe = true ∧
            hk.IS_X264_TYPE_I ((hk.x264_slicetype_decide h).mem head).i_type = true
          then [HookCall.slicetype_analyse 1] else []) := by
  unfold x264_lookahead_get_frames at hg
  simp only [hm, ne_eq, not_true_eq_false, if_false] at hg
  split at hg
  · simp only [Result.ok.injEq] at hg
    left; exact hg.symm
  · right
    split at hg
    · exact absurd hg (by simp)
    · rename_i p rest hl
      obtain ⟨a1, _, _, d1⟩ := update_last_nonb_shape (call_slicetype_decide hk h) p
      have hty : ((x264_lookahead_update_last_nonb (call_slicetype_decide hk h) p).mem
          p).i_type = ((hk.x264_slicetype_decide h).mem p).i_type :=
        (update_last_nonb_mem _ p p).2
      have hflag : (x264_lookahead_update_last_nonb (call_slicetype_decide hk h)
          p).lookahead.b_analyse_keyframe =
          (hk.x264_slicetype_decide h).lookahead.b_analyse_keyframe := by
        rw [a1]; rfl
      have hlast : (x264_lookahead_update_last_nonb (call_slicetype_decide hk h)
          p).lookahead.last_nonb = some p := by rw [a1]
      have hcalls : (x264_lookahead_update_last_nonb (call_slicetype_decide hk h)
          p).calls = h.calls ++ [HookCall.slicetype_decide] := by rw [d1]; rfl
      refine ⟨p, rest, hl, ?_⟩
      split at hg
      · exact absurd hg (by simp)
      · split at hg
        · exact absurd hg (by simp)
        · simp only [hlast] at hg
          rw [hflag, hty] at hg
          by_cases ha : (hk.x264_slicetype_decide h).lookahead.b_analyse_keyframe = true
          · by_cases hi : hk.IS_X264_TYPE_I
                ((hk.x264_slicetype_decide h).mem p).i_type = true
            · simp only [ha, hi, if_true] at hg
              split at hg
              · exact absurd hg (by simp)
              · rename_i h4 hes
                simp only [Result.ok.injEq] at hg
                rw [← hg, encoder_shift_calls _ _ hes, if_pos ⟨ha, hi⟩]
                simp [call_slicetype_analyse, hcalls]
            · simp only [ha, hi, if_true] at hg
              split at hg
              · split at hg
                · exact absurd hg (by simp)
                · rename_i hc _ _ _; exact absurd hc (by simp)
              · split at hg
                · exact absurd hg (by simp)
                · rename_i h4 hes
                  simp only [Result.ok.injEq] at hg
                  rw [← hg, encoder_shift_calls _ _ hes, if_neg (fun hc => hi hc.2)]
                  simp [hcalls]
          · simp only [ha] at hg
            split at hg
            · rename_i hc; exact absurd hc (by simp)
            · split at hg
              · exact absurd hg (by simp)
              · rename_i h4 hes
                simp only [Result.ok.injEq] at hg
                rw [← hg, encoder_shift_calls _ _ hes, if_neg (fun hc => ha hc.1)]
                simp [hcalls]

/-- C17. When the analysis hook is invoked. In a decision step of the thread
that runs to its end, and in a retrieval without a lookahead thread that
decides, the hooks invoked are the decision hook, once, and then
`x264_slicetype_analyse( h, 1 )`, exactly once if `b_analyse_keyframe` is set and
`IS_X264_TYPE_I` holds of the coding type of the decided head (the new
`last_nonb`), and not at all otherwise; a decision step that parks has invoked
the decision hook only, and a retrieval with a lookahead thread invokes no
hook. `x264_lookahead_init`, when it succeeds, sets `b_analyse_keyframe` to
`(b_mb_tree || (i_vbv_buffer_size && i_lookahead)) && !b_stat_read`. The flag
and the head are read after the decision hook has run. -/
theorem x264_slicetype_analyse_condition (hk : Hooks) (h : x264_t) :
    (∀ h', x264_lookahead_slicetype_decide hk h = Result.ok h' →
      ∃ head rest, (hk.x264_slicetype_decide h).lookahead.next.list = head :: rest ∧
        h'.calls = h.calls ++ HookCall.slicetype_decide ::
          (if (hk.x264_slicetype_decide h).lookahead.b_analyse_keyframe = true ∧
              hk.IS_X264_TYPE_I ((hk.x264_slicetype_decide h).mem head).i_type = true
            then [HookCall.slicetype_analyse 1] else [])) ∧
    (∀ h', x264_lookahead_slicetype_decide hk h = Result.blocked h' →
      h'.calls = h.calls ++ [HookCall.slicetype_decide]) ∧
    (∀ h', h.param.i_sync_lookahead = 0 →
      x264_lookahead_get_frames hk h = Result.ok h' →
      h' = h ∨
      ∃ head rest, (hk.x264_slicetype_decide h).lookahead.next.list = head :: rest ∧
        h'.calls = h.calls ++ HookCall.slicetype_decide ::
          (if (hk.x264_slicetype_decide h).lookahead.b_analyse_keyframe = true ∧
              hk.IS_X264_TYPE_I ((hk.x264_slicetype_decide h).mem head).i_type = true
            then [HookCall.slicetype_analyse 1] else [])) ∧
    (∀ h', h.param.i_sync_lookahead ≠ 0 →
      x264_lookahead_get_frames hk h = Result.ok h' → h'.calls = h.calls) ∧
    (∀ f n, (x264_lookahead_init f h n).ret = 0 →
      (x264_lookahead_init f h n).h.lookahead.b_analyse_keyframe =
        decide ((h.param.b_mb_tree ≠ 0 ∨
            (h.param.i_vbv_buffer_size ≠ 0 ∧ h.param.i_lookahead ≠ 0)) ∧
          h.param.b_stat_read = 0)) := by
  refine ⟨?_, ?_, fun h' hm hg => get_frames_inline_calls hk h h' hm hg, ?_, ?_⟩
  · intro h' hd
    obtain ⟨p, rest, hl, hw⟩ := decide_inv hk h h' hd
    obtain ⟨a1, _, _, d1⟩ := update_last_nonb_shape (call_slicetype_decide hk h) p
    have hc := decide_wait_calls hk _ h' p (by rw [a1]) hw
    rw [(update_last_nonb_mem _ p p).2, d1, a1] at hc
    refine ⟨p, rest, hl, ?_⟩
    rw [hc]
    simp only [call_slicetype_decide, List.append_assoc, List.singleton_append]
  · intro h' hd
    obtain ⟨p, rest, _, rfl, _⟩ := decide_blocked hk h h' hd
    rw [(update_last_nonb_shape _ p).2.2.2]
    rfl
  · intro h' hm hg
    unfold x264_lookahead_get_frames at hg
    simp only [hm, ne_eq, not_false_eq_true, if_true] at hg
    split at hg
    · exact absurd hg (by simp)
    · split at hg
      · exact absurd hg (by simp)
      · rename_i h2 hes
        simp only [Result.ok.injEq] at hg
        rw [← hg]
        exact encoder_shift_calls _ _ hes
  · intro f n hret
    unfold x264_lookahead_init x264_synch_frame_list_init at hret ⊢
    by_cases h1 : f.malloc_look = true
    · simp [h1] at hret
    by_cases h2 : f.list_init_ifbuf = true ∨ h.param.i_sync_lookahead + 3 < 0
    · simp [h1, h2] at hret
    by_cases h3 : f.list_init_next = true ∨ h.frames_i_delay + 3 < 0
    · simp [h1, h2, h3] at hret
    by_cases h4 : f.list_init_ofbuf = true ∨ h.frames_i_delay + 3 < 0
    · simp [h1, h2, h3, h4] at hret
    simp only [h1, h2, h3, h4, if_false] at hret ⊢
    by_cases h5 : h.param.i_sync_lookahead = 0
    · simp [h5]
    by_cases h6 : f.macroblock_cache_allocate = true
    · simp [h5, h6] at hret
    by_cases h7 : f.macroblock_thread_allocate = true
    · simp [h5, h6, h7] at hret
    by_cases h8 : f.pthread_create = true
    · simp [h5, h6, h7, h8] at hret
    simp [h5, h6, h7, h8]

/-- Witness of C17: the sample handle has `b_mb_tree` set and `b_stat_read`
clear, so `b_analyse_keyframe` is set; a decision that makes the head an I-frame
is followed by one analysis, a decision that makes it a P-frame by none. -/
theorem x264_slicetype_analyse_condition_witness :
    (sample_after [] 1 [Action.submit 1, Action.fill]).h.lookahead.b_analyse_keyframe =
      true ∧
    (∃ h', x264_lookahead_slicetype_decide keyframe_hooks
        (sample_after [] 1 [Action.submit 1, Action.fill]).h = Result.ok h' ∧
      h'.calls = [HookCall.slicetype_decide, HookCall.slicetype_analyse 1]) ∧
    (∃ h', x264_lookahead_slicetype_decide (stub_hooks [] true)
        (sample_after [] 1 [Action.submit 1, Action.fill]).h = Result.ok h' ∧
      h'.calls = [HookCall.slicetype_decide]) ∧
    (∀ h', x264_lookahead_slicetype_decide keyframe_hooks
        (sample_after [] 1 [Action.submit 1, Action.fill]).h = Result.blocked h' →
      h'.calls = (sample_after [] 1 [Action.submit 1, Action.fill]).h.calls ++
        [HookCall.slicetype_decide]) :=
  ⟨rfl, ⟨_, rfl, rfl⟩, ⟨_, rfl, rfl⟩,
    (x264_slicetype_analyse_condition keyframe_hooks
      (sample_after [] 1 [Action.submit 1, Action.fill]).h).2.1⟩

/-! ## The call sites of the decision step (C15) -/

/-- A decision step on a non-empty `next` finds a frame at `next.list[0]`, both
when it moves the anchor and when it looks the run length up. -/
theorem decide_reads_head (hk : Hooks) (hfo : hk.frames_only) (h : x264_t)
    (wn : h.lookahead.next.wf) (hne : h.lookahead.next.i_size ≠ 0) :
    ∃ head rest, h.lookahead.next.list = head :: rest ∧
      (call_slicetype_decide hk h).lookahead.next.list = head :: rest ∧
      (x264_lookahead_update_last_nonb (call_slicetype_decide hk h)
        head).lookahead.next.list = head :: rest ∧
      x264_lookahead_slicetype_decide hk h =
        x264_lookahead_slicetype_decide_wait hk
          (x264_lookahead_update_last_nonb (call_slicetype_decide hk h) head) := by
  unfold x264_synch_frame_list_t.wf at wn
  cases hl : h.lookahead.next.list with
  | nil => rw [hl] at wn; exact absurd wn hne
  | cons head rest =>
    obtain ⟨a, _, _⟩ := call_decide_shape hk hfo h
    have hlc : (call_slicetype_decide hk h).lookahead.next.list = head :: rest := by
      rw [a]; exact hl
    refine ⟨head, rest, rfl, hlc, ?_, ?_⟩
    · rw [(update_last_nonb_shape _ head).1]; exact hlc
    · unfold x264_lookahead_slicetype_decide
      simp only [hlc]

/-- C15. The decision step is called on a non-empty `next` only. The hooks write
into frames only, `ifbuf` and `next` are well formed. One turn of the main loop
of the thread runs the decision step only when, after the fill,
`next.i_size > i_slicetype_length`, and otherwise waits for input or goes on
without deciding; with `0 ≤ i_slicetype_length` `next` is then not empty. The
loop that follows the drain ends the thread without a decision when
`next.i_size` is zero and runs the decision step when it is not. The retrieval
without a lookahead thread returns without a decision when `next.i_size` is
zero. And wherever the decision step is run on a well-formed `next` with
`next.i_size ≠ 0`, `next.list[0]` is a frame, at the anchor update (lines 71 and
236) and at the run length lookup (lines 78 and 237). -/
theorem x264_lookahead_slicetype_decide_call_sites (hk : Hooks) (hfo : hk.frames_only)
    (h : x264_t) (wn : h.lookahead.next.wf) (wi : h.lookahead.ifbuf.wf) :
    (∀ h1, x264_lookahead_thread_fill h = some h1 →
      (h1.lookahead.next.i_size ≤ h1.lookahead.i_slicetype_length →
        (x264_lookahead_thread_iter hk h = Result.ok h1 ∨
          x264_lookahead_thread_iter hk h = Result.blocked h1)) ∧
      (h1.lookahead.i_slicetype_length < h1.lookahead.next.i_size →
        x264_lookahead_thread_iter hk h = x264_lookahead_slicetype_decide hk h1 ∧
        (0 ≤ h1.lookahead.i_slicetype_length →
          ∃ head rest, h1.lookahead.next.list = head :: rest ∧
            (call_slicetype_decide hk h1).lookahead.next.list = head :: rest ∧
            (x264_lookahead_update_last_nonb (call_slicetype_decide hk h1)
              head).lookahead.next.list = head :: rest))) ∧
    (∀ fuel,
      (h.lookahead.next.i_size = 0 →
        x264_lookahead_thread_finish hk (fuel + 1) h =
          some (Result.ok (x264_lookahead_thread_end h))) ∧
      (h.lookahead.next.i_size ≠ 0 →
        x264_lookahead_thread_finish hk (fuel + 1) h =
          match x264_lookahead_slicetype_decide hk h with
          | Result.ok h1 => x264_lookahead_thread_finish hk fuel h1
          | Result.blocked h1 => some (Result.blocked h1)
          | Result.abort => some Result.abort)) ∧
    (h.param.i_sync_lookahead = 0 → h.lookahead.next.i_size = 0 →
      x264_lookahead_get_frames hk h = Result.ok h) ∧
    (h.lookahead.next.i_size ≠ 0 →
      ∃ head rest, h.lookahead.next.list = head :: rest ∧
        (call_slicetype_decide hk h).lookahead.next.list = head :: rest ∧
        (x264_lookahead_update_last_nonb (call_slicetype_decide hk h)
          head).lookahead.next.list = head :: rest ∧
        x264_lookahead_slicetype_decide hk h =
          x264_lookahead_slicetype_decide_wait hk
            (x264_lookahead_update_last_nonb (call_slicetype_decide hk h) head)) := by
  refine ⟨?_, ?_, ?_, fun hne => decide_reads_head hk hfo h wn hne⟩
  · intro h1 hf
    have hf' := hf
    unfold x264_lookahead_thread_fill at hf'
    simp only at hf'
    split at hf'
    · exact absurd hf' (by simp)
    · rename_i next ifbuf hs
      simp only [Option.some.injEq] at hf'
      obtain ⟨_, _, e1, _, e3, _, _, _, _⟩ := shift_eq _ _ _ _ _ wn wi hs
      have wn1 : h1.lookahead.next.wf := by
        rw [← hf']
        unfold x264_synch_frame_list_t.wf at wn wi ⊢
        simp only [e1, e3, List.length_append, List.length_take]
        have := shift_some _ _ _ _ _ wn wi hs
        omega
      constructor
      · intro hle
        unfold x264_lookahead_thread_iter
        simp only [hf, hle, if_true]
        split
        · right; rfl
        · left; rfl
      · intro hlt
        have hnle : ¬ h1.lookahead.next.i_size ≤ h1.lookahead.i_slicetype_length := by omega
        refine ⟨?_, ?_⟩
        · unfold x264_lookahead_thread_iter
          simp only [hf, hnle, if_false]
        · intro h0
          obtain ⟨head, rest, a, b, c, _⟩ := decide_reads_head hk hfo h1 wn1 (by omega)
          exact ⟨head, rest, a, b, c⟩
  · intro fuel
    constructor
    · intro hz
      simp only [x264_lookahead_thread_finish, hz, ne_eq, not_true_eq_false, if_false]
    · intro hne
      rw [x264_lookahead_thread_finish, if_pos hne]
  · intro hm hz
    unfold x264_lookahead_get_frames
    simp only [hm, ne_eq, not_true_eq_false, if_false, hz, or_true, if_true]

theorem x264_lookahead_slicetype_decide_call_sites_witness :
    (sample_after [] 1 [Action.submit 1, Action.submit 2, Action.submit 3,
      Action.fill]).h.lookahead.next.i_size ≠ 0 ∧
    ∃ head rest,
      (sample_after [] 1 [Action.submit 1, Action.submit 2, Action.submit 3,
        Action.fill]).h.lookahead.next.list = head :: rest ∧
      x264_lookahead_slicetype_decide (stub_hooks [] true)
          (sample_after [] 1 [Action.submit 1, Action.submit 2, Action.submit 3,
            Action.fill]).h =
        x264_lookahead_slicetype_decide_wait (stub_hooks [] true)
          (x264_lookahead_update_last_nonb
            (call_slicetype_decide (stub_hooks [] true)
              (sample_after [] 1 [Action.submit 1, Action.submit 2, Action.submit 3,
                Action.fill]).h) head) :=
  ⟨by decide,
    match (x264_lookahead_slicetype_decide_call_sites (stub_hooks [] true)
      (stub_frames_only [] true)
      (sample_after [] 1 [Action.submit 1, Action.submit 2, Action.submit 3,
        Action.fill]).h rfl rfl).2.2.2 (by decide) with
    | ⟨head, rest, a, _, _, d⟩ => ⟨head, rest, a, d⟩⟩

/-! ## The wait of the decision step on a full `ofbuf` -/

/-- The wait of the decision step: it parks, with nothing changed, exactly when
`ofbuf` is full. -/
theorem decide_wait_blocked_iff (hk : Hooks) (h : x264_t) :
    (h.lookahead.ofbuf.i_size = h.lookahead.ofbuf.i_max_size →
      x264_lookahead_slicetype_decide_wait hk h = Result.blocked h) ∧
    (h.lookahead.ofbuf.i_size ≠ h.lookahead.ofbuf.i_max_size →
      ∀ h1, x264_lookahead_slicetype_decide_wait hk h ≠ Result.blocked h1) := by
  constructor
  · intro hf
    unfold x264_lookahead_slicetype_decide_wait
    simp only [hf, if_true]
  · intro hf h1 hd
    unfold x264_lookahead_slicetype_decide_wait at hd
    simp only [hf, if_false] at hd
    split at hd
    · exact absurd hd (by simp)
    · split at hd
      · exact absurd hd (by simp)
      · split at hd
        · split at hd
          · exact absurd hd (by simp)
          · split at hd <;> exact absurd hd (by simp)
        · exact absurd hd (by simp)

/-! ## Pass-through without a lookahead thread (C20) -/

/-- A retrieval changes `frames.current` and `ofbuf` only. -/
theorem encoder_shift_frame (h h1 : x264_t) (hs : x264_lookahead_encoder_shift h = some h1) :
    h1.param = h.param ∧ h1.mem = h.mem ∧ h1.lookahead.next = h.lookahead.next ∧
    h1.lookahead.ifbuf = h.lookahead.ifbuf := by
  unfold x264_lookahead_encoder_shift at hs
  split at hs
  · simp only [Option.some.injEq] at hs; subst hs; exact ⟨rfl, rfl, rfl, rfl⟩
  · split at hs
    · exact absurd hs (by simp)
    · simp only at hs
      split at hs
      · exact absurd hs (by simp)
      · split at hs
        · exact absurd hs (by simp)
        · simp only [Option.some.injEq] at hs; subst hs; exact ⟨rfl, rfl, rfl, rfl⟩

/-- The end of a decision step leaves the parameters as they were. -/
theorem decide_wait_param (hk : Hooks) (hfo : hk.frames_only) (h h1 : x264_t)
    (hd : x264_lookahead_slicetype_decide_wait hk h = Result.ok h1) : h1.param = h.param := by
  obtain ⟨head, rest, ofbuf, next, _, _, e | e⟩ := decide_wait_inv hk h h1 hd
  · rw [e]
  · rw [e, (call_analyse_shape hk hfo _ 1).2.2]

/-- What a retrieval without a lookahead thread leaves in `ofbuf`: nothing, when
it found `ofbuf` empty. -/
theorem get_frames_inline_empties (hk : Hooks) (hfo : hk.frames_only)
    (hkeep : ∀ h b p, ((hk.x264_slicetype_analyse h b).mem p).i_bframes = (h.mem p).i_bframes)
    (h h1 : x264_t) (hm : h.param.i_sync_lookahead = 0)
    (wn : h.lookahead.next.wf) (wo : h.lookahead.ofbuf.wf)
    (hol : h.lookahead.ofbuf.list = [])
    (hg : x264_lookahead_get_frames hk h = Result.ok h1) :
    (h1.lookahead.ofbuf.list = [] ∧ h1.lookahead.ofbuf.i_size = 0) ∧ h1.param = h.param ∧
    h1.lookahead.ifbuf = h.lookahead.ifbuf := by
  have hoz : h.lookahead.ofbuf.i_size = 0 := by
    unfold x264_synch_frame_list_t.wf at wo
    rw [wo, hol]; rfl
  rcases get_frames_inline_inv hk h h1 hm hg with e | ⟨_, p, rest, head, rest2, ofbuf, next, h4,
    hl, hl2, hs, h4e, hes⟩
  · subst e; exact ⟨⟨hol, hoz⟩, rfl, rfl⟩
  · obtain ⟨a, b, c⟩ := call_decide_shape hk hfo h
    obtain ⟨a1, b1, c1, _⟩ := update_last_nonb_shape (call_slicetype_decide hk h) p
    have hhead : head = p := by
      rw [a1] at hl2
      simp only at hl2
      rw [hl] at hl2
      exact (List.cons.inj hl2).1.symm
    subst hhead
    have w2n : (x264_lookahead_update_last_nonb (call_slicetype_decide hk h)
        head).lookahead.next.wf := by
      rw [a1]; unfold x264_synch_frame_list_t.wf; simp only; rw [a]; exact wn
    have w2o : (x264_lookahead_update_last_nonb (call_slicetype_decide hk h)
        head).lookahead.ofbuf.wf := by
      rw [a1]; unfold x264_synch_frame_list_t.wf; simp only; rw [a]; exact wo
    obtain ⟨s0, s1, s2, _, s4, _, _, _, _⟩ := shift_eq _ _ _ _ _ w2o w2n hs
    have e2o : (x264_lookahead_update_last_nonb (call_slicetype_decide hk h)
        head).lookahead.ofbuf = h.lookahead.ofbuf := by rw [a1]; simp only; rw [a]
    have e2n : (x264_lookahead_update_last_nonb (call_slicetype_decide hk h)
        head).lookahead.next.i_size = h.lookahead.next.i_size := by rw [a1]; simp only; rw [a]
    rw [e2o, hol, List.nil_append, hl2] at s2
    rw [e2o, hoz, zero_add] at s4
    rw [e2n] at s1
    have hlen : h.lookahead.next.i_size = ((head :: rest2).length : Int) := by
      unfold x264_synch_frame_list_t.wf at wn
      rw [wn, ← a]
      rw [a1] at hl2
      simp only at hl2
      rw [hl2]
    have h4p : h4.param = h.param ∧ h4.lookahead.ofbuf = ofbuf ∧
        h4.lookahead.ifbuf = h.lookahead.ifbuf ∧
        (h4.mem head).i_bframes = ((x264_lookahead_update_last_nonb
          (call_slicetype_decide hk h) head).mem head).i_bframes := by
      rcases h4e with e | e
      · rw [e]
        refine ⟨?_, rfl, ?_, rfl⟩
        · simp only; rw [c1, c]
        · simp only; rw [a1]; simp only; rw [a]
      · obtain ⟨x, _, z⟩ := call_analyse_shape hk hfo
          { x264_lookahead_update_last_nonb (call_slicetype_decide hk h) head with
            lookahead :=
              { (x264_lookahead_update_last_nonb (call_slicetype_decide hk h) head).lookahead with
                ofbuf := ofbuf, next := next } } 1
        rw [e]
        refine ⟨?_, ?_, ?_, ?_⟩
        · rw [z]; simp only; rw [c1, c]
        · rw [x]
        · rw [x]; simp only; rw [a1]; simp only; rw [a]
        · exact hkeep _ 1 head
    obtain ⟨p1, p2, p3, p4⟩ := h4p
    obtain ⟨q1, _, _, q4⟩ := encoder_shift_frame h4 h1 hes
    refine ⟨?_, by rw [q1, p1], by rw [q4, p3]⟩
    by_cases hz : h4.lookahead.ofbuf.i_size = 0
    · simp only [x264_lookahead_encoder_shift, hz, if_true, Option.some.injEq] at hes
      subst hes
      refine ⟨?_, hz⟩
      rw [p2, s2]
      rw [p2, s4] at hz
      rw [hz]; rfl
    · have hz' := hz
      rw [p2, s4] at hz
      have hpos : 0 < ((x264_lookahead_update_last_nonb (call_slicetype_decide hk h)
          head).mem head).i_bframes + 1 := by omega
      obtain ⟨k, hk1⟩ : ∃ k : Nat, (((x264_lookahead_update_last_nonb
          (call_slicetype_decide hk h) head).mem head).i_bframes + 1).toNat = k + 1 := by
        refine ⟨(((x264_lookahead_update_last_nonb (call_slicetype_decide hk h)
          head).mem head).i_bframes + 1).toNat - 1, ?_⟩
        omega
      have hl4 : h4.lookahead.ofbuf.list = head :: rest2.take k := by
        rw [p2, s2, hk1]; rfl
      have hk2 : k ≤ rest2.length := by
        rw [hlen] at s1
        simp only [List.length_cons] at s1
        push_cast at s1
        omega
      have hlk : (head :: rest2.take k).length = k + 1 := by
        simp only [List.length_cons, List.length_take, min_eq_left hk2]
      have := encoder_shift_ok h4 head (rest2.take k) hz' hl4
        (by rw [p4]; omega) (by rw [p4, hlk]; push_cast; omega)
      rw [this, Option.some.injEq] at hes
      subst hes
      simp only
      refine ⟨?_, ?_⟩
      · rw [p4, hk1]
        simp only [List.drop_succ_cons]
        exact List.drop_eq_nil_of_le (by simp)
      · rw [p4, p2, s4]
        omega

/-- No step changes the parameters. -/
theorem step_param (hk : Hooks) (hfo : hk.frames_only) (s s1 : Sys) (hstep : Step hk s s1) :
    s1.h.param = s.h.param := by
  cases hstep with
  | submit frame h1 hput => exact (put_frame_inv s.h h1 frame hput).2.1
  | fill h1 hthread hp hfill =>
    unfold x264_lookahead_thread_fill at hfill
    simp only at hfill
    split at hfill
    · exact absurd hfill (by simp)
    · simp only [Option.some.injEq] at hfill
      subst hfill; rfl
  | decide h1 hthread hp hdec =>
    obtain ⟨p, rest, hl, hw⟩ := decide_inv hk s.h h1 hdec
    have := decide_wait_param hk hfo _ h1 hw
    simp only
    rw [this, (update_last_nonb_shape _ p).2.2.1, (call_decide_shape hk hfo s.h).2.2]
  | decide_park h1 hthread hp hdec =>
    obtain ⟨p, rest, hl, rfl, _⟩ := decide_blocked hk s.h h1 hdec
    simp only
    rw [(update_last_nonb_shape _ p).2.2.1, (call_decide_shape hk hfo s.h).2.2]
  | decide_wake h1 hthread hparked hdec => exact decide_wait_param hk hfo _ h1 hdec
  | drain h1 hthread hp hdrain =>
    unfold x264_lookahead_thread_drain at hdrain
    split at hdrain
    · exact absurd hdrain (by simp)
    · simp only [Option.some.injEq] at hdrain
      subst hdrain; rfl
  | request_exit hthread => rfl
  | thread_end hthread hp => rfl
  | retrieve h1 hget =>
    simp only
    by_cases hm : s.h.param.i_sync_lookahead = 0
    · rcases get_frames_inline_inv hk s.h h1 hm hget with e | ⟨_, p, rest, head, rest2, ofbuf,
        next, h4, hl, hl2, hs, h4e, hes⟩
      · rw [e]
      · rw [(encoder_shift_frame h4 h1 hes).1]
        rcases h4e with e | e
        · rw [e]
          simp only
          rw [(update_last_nonb_shape _ p).2.2.1, (call_decide_shape hk hfo s.h).2.2]
        · rw [e, (call_analyse_shape hk hfo _ 1).2.2]
          simp only
          rw [(update_last_nonb_shape _ p).2.2.1, (call_decide_shape hk hfo s.h).2.2]
    · unfold x264_lookahead_get_frames at hget
      simp only [hm, ne_eq, not_false_eq_true, if_true] at hget
      split at hget
      · exact absurd hget (by simp)
      · cases hes : x264_lookahead_encoder_shift s.h with
        | none => simp [hes] at hget
        | some g =>
          simp only [hes, Result.ok.injEq] at hget
          subst hget
          exact (encoder_shift_frame s.h g hes).1
  | consume frame rest htake => rfl

/-- Without a lookahead thread `ofbuf` is empty between calls. -/
theorem inline_ofbuf_reachable (hk : Hooks) (hfo : hk.frames_only)
    (hkeep : ∀ h b p, ((hk.x264_slicetype_analyse h b).mem p).i_bframes = (h.mem p).i_bframes)
    (s : Sys) (hr : Reachable hk s) :
    s.h.param.i_sync_lookahead = 0 → s.h.lookahead.ofbuf.list = [] := by
  induction hr with
  | init f h n hcur hret =>
    intro _
    obtain ⟨_, _, _, _, e3, _⟩ := init_success f h n hret
    simp only
    rw [e3]
  | step s s1 hs hstep ih =>
    intro hm
    have hp := step_param hk hfo s s1 hstep
    rw [hp] at hm
    have hinv := inv_reachable hk hfo s hs
    have hol := ih hm
    cases hstep with
    | submit frame h1 hput =>
      simp only
      rw [(put_frame_inv s.h h1 frame hput).2.2.1]; exact hol
    | fill h1 hthread hp hfill => exact absurd hm hthread
    | decide h1 hthread hp hdec => exact absurd hm hthread
    | decide_park h1 hthread hp hdec => exact absurd hm hthread
    | decide_wake h1 hthread hparked hdec => exact absurd hm hthread
    | drain h1 hthread hp hdrain => exact absurd hm hthread
    | request_exit hthread => exact absurd hm hthread
    | thread_end hthread hp => exact absurd hm hthread
    | retrieve h1 hget =>
      exact (get_frames_inline_empties hk hfo hkeep s.h h1 hm hinv.wf_next hinv.wf_ofbuf hol
        hget).1.1
    | consume frame rest htake => exact hol

/-- Without a lookahead thread, between calls: `ofbuf` and `ifbuf` are empty and
`x264_lookahead_is_empty` tells whether `next` is. -/
theorem inline_state (hk : Hooks) (hfo : hk.frames_only)
    (hkeep : ∀ h b p, ((hk.x264_slicetype_analyse h b).mem p).i_bframes = (h.mem p).i_bframes)
    (s : Sys) (hr : Reachable hk s) (hm : s.h.param.i_sync_lookahead = 0) :
    (s.h.lookahead.ofbuf.list = [] ∧ s.h.lookahead.ofbuf.i_size = 0) ∧
    (s.h.lookahead.ifbuf.list = [] ∧ s.h.lookahead.ifbuf.i_size = 0) ∧
    (x264_lookahead_is_empty s.h = true ↔ s.h.lookahead.next.list = []) := by
  have hinv := inv_reachable hk hfo s hr
  have hol := inline_ofbuf_reachable hk hfo hkeep s hr hm
  have hil := hinv.inline_ifbuf hm
  have wo := hinv.wf_ofbuf
  have wi := hinv.wf_ifbuf
  have wn := hinv.wf_next
  unfold x264_synch_frame_list_t.wf at wo wi wn
  have hoz : s.h.lookahead.ofbuf.i_size = 0 := by rw [wo, hol]; rfl
  have hiz : s.h.lookahead.ifbuf.i_size = 0 := by rw [wi, hil]; rfl
  refine ⟨⟨hol, hoz⟩, ⟨hil, hiz⟩, ?_⟩
  unfold x264_lookahead_is_empty
  simp only [hoz, decide_True, Bool.and_true, decide_eq_true_eq]
  rw [wn]
  constructor
  · intro hz
    exact List.length_eq_zero.mp (by exact_mod_cast hz)
  · intro hl
    rw [hl]; rfl

/-- C20. Pass-through without a lookahead thread. The hooks write into frames
only and the analysis leaves the run lengths as they are. In every state reached
from a successful `x264_lookahead_init` with `i_sync_lookahead = 0`, that is
before the first call and after every completed `x264_lookahead_put_frame` and
`x264_lookahead_get_frames` (and whenever the encoder takes a frame from
`frames.current`), `ofbuf` and `ifbuf` are empty, with `i_size = 0`, and
`x264_lookahead_is_empty` returns true exactly when `next` is empty; and the
same holds of the state each completed `x264_lookahead_put_frame` and
`x264_lookahead_get_frames` call leaves. -/
theorem x264_lookahead_inline_pass_through (hk : Hooks) (hfo : hk.frames_only)
    (hkeep : ∀ h b p, ((hk.x264_slicetype_analyse h b).mem p).i_bframes = (h.mem p).i_bframes)
    (s : Sys) (hr : Reachable hk s) (hm : s.h.param.i_sync_lookahead = 0) :
    ((s.h.lookahead.ofbuf.list = [] ∧ s.h.lookahead.ofbuf.i_size = 0) ∧
      (s.h.lookahead.ifbuf.list = [] ∧ s.h.lookahead.ifbuf.i_size = 0) ∧
      (x264_lookahead_is_empty s.h = true ↔ s.h.lookahead.next.list = [])) ∧
    (∀ frame h1, x264_lookahead_put_frame s.h frame = Result.ok h1 →
      (h1.lookahead.ofbuf.list = [] ∧ h1.lookahead.ofbuf.i_size = 0) ∧
      (h1.lookahead.ifbuf.list = [] ∧ h1.lookahead.ifbuf.i_size = 0) ∧
      (x264_lookahead_is_empty h1 = true ↔ h1.lookahead.next.list = [])) ∧
    (∀ h1, x264_lookahead_get_frames hk s.h = Result.ok h1 →
      (h1.lookahead.ofbuf.list = [] ∧ h1.lookahead.ofbuf.i_size = 0) ∧
      (h1.lookahead.ifbuf.list = [] ∧ h1.lookahead.ifbuf.i_size = 0) ∧
      (x264_lookahead_is_empty h1 = true ↔ h1.lookahead.next.list = [])) := by
  refine ⟨inline_state hk hfo hkeep s hr hm, ?_, ?_⟩
  · intro frame h1 hput
    have hstep : Step hk s _ := Step.submit s frame h1 hput
    have hp := step_param hk hfo _ _ hstep
    exact inline_state hk hfo hkeep _ (Reachable.step _ _ hr hstep) (by rw [hp]; exact hm)
  · intro h1 hget
    have hstep : Step hk s _ := Step.retrieve s h1 hget
    have hp := step_param hk hfo _ _ hstep
    exact inline_state hk hfo hkeep _ (Reachable.step _ _ hr hstep) (by rw [hp]; exact hm)

theorem x264_lookahead_inline_pass_through_witness :
    (sample_after [1] 0 [Action.submit 1, Action.submit 2, Action.submit 3,
      Action.retrieve]).h.param.i_sync_lookahead = 0 ∧
    (sample_after [1] 0 [Action.submit 1, Action.submit 2, Action.submit 3,
      Action.retrieve]).h.frames_current = [1, 2] ∧
    (sample_after [1] 0 [Action.submit 1, Action.submit 2, Action.submit 3,
      Action.retrieve]).h.lookahead.next.list = [3] ∧
    (sample_after [1] 0 [Action.submit 1, Action.submit 2, Action.submit 3,
      Action.retrieve]).h.lookahead.ofbuf.list = [] ∧
    (sample_after [1] 0 [Action.submit 1, Action.submit 2, Action.submit 3,
      Action.retrieve]).h.lookahead.ifbuf.list = [] :=
  match x264_lookahead_inline_pass_through (stub_hooks [1] true) (stub_frames_only [1] true)
      (fun _ _ _ => rfl)
      (sample_after [1] 0 [Action.submit 1, Action.submit 2, Action.submit 3, Action.retrieve])
      (sample_after_reachable [1] 0 _ (by decide)) rfl with
  | ⟨⟨⟨ho, _⟩, ⟨hi, _⟩, _⟩, _, _⟩ => ⟨rfl, rfl, rfl, ho, hi⟩

/-! ## The loop that follows the drain (C16) -/

/-- C19. What `x264_lookahead_init` leaves behind. On the sample handle with a
lookahead thread, when the construction of `next` fails the call returns `-1`
and the queue `ifbuf`, built before the failure, is not released. In general the
call returns `0` or `-1`; it returns `0` exactly when no step it attempts fails,
and then `b_thread_active` is set if and only if `i_sync_lookahead` is not zero;
when it returns `-1` the label `fail` has released `look` and nothing else, so
that nothing is left behind only if the failure came before `ifbuf` was built:
the failure of the second or third queue, of the allocation of the macroblock
cache or of the thread buffers, and of the thread creation all leave behind what
was built before. -/
theorem x264_lookahead_init_fail_leak (f : InitFaults) (h : x264_t) (n : Int) :
    (x264_lookahead_init { no_faults with list_init_next := true } (sample_handle 1) 0).ret
      = -1 ∧
    (x264_lookahead_init { no_faults with list_init_next := true } (sample_handle 1) 0).live
      = [Resource.ifbuf] ∧
    ((x264_lookahead_init f h n).ret = 0 ∨ (x264_lookahead_init f h n).ret = -1) ∧
    ((x264_lookahead_init f h n).ret = 0 ↔
      (f.malloc_look = false ∧
        (x264_synch_frame_list_init f.list_init_ifbuf
          (h.param.i_sync_lookahead + 3)).isSome = true ∧
        (x264_synch_frame_list_init f.list_init_next (h.frames_i_delay + 3)).isSome = true ∧
        (x264_synch_frame_list_init f.list_init_ofbuf (h.frames_i_delay + 3)).isSome = true ∧
        (h.param.i_sync_lookahead ≠ 0 →
          f.macroblock_cache_allocate = false ∧ f.macroblock_thread_allocate = false ∧
          f.pthread_create = false))) ∧
    ((x264_lookahead_init f h n).ret = 0 →
      ((x264_lookahead_init f h n).h.lookahead.b_thread_active = true ↔
        h.param.i_sync_lookahead ≠ 0)) ∧
    ((x264_lookahead_init f h n).ret = -1 →
      Resource.look ∉ (x264_lookahead_init f h n).live ∧
      ((x264_lookahead_init f h n).live = [] ↔
        (f.malloc_look = true ∨
          x264_synch_frame_list_init f.list_init_ifbuf
            (h.param.i_sync_lookahead + 3) = none))) := by
  refine ⟨rfl, rfl, ?_⟩
  unfold x264_lookahead_init x264_synch_frame_list_init
  by_cases h1 : f.malloc_look = true
  · simp [h1]
  by_cases h2 : f.list_init_ifbuf = true ∨ h.param.i_sync_lookahead + 3 < 0
  · simp [h1, h2]
  by_cases h3 : f.list_init_next = true ∨ h.frames_i_delay + 3 < 0
  · simp [h1, h2, h3]
  by_cases h4 : f.list_init_ofbuf = true ∨ h.frames_i_delay + 3 < 0
  · simp [h1, h2, h3, h4]
  have a2 : ¬ f.list_init_ifbuf = true := fun hc => h2 (Or.inl hc)
  have b2 : ¬ h.param.i_sync_lookahead + 3 < 0 := fun hc => h2 (Or.inr hc)
  have a3 : ¬ f.list_init_next = true := fun hc => h3 (Or.inl hc)
  have b3 : ¬ h.frames_i_delay + 3 < 0 := fun hc => h3 (Or.inr hc)
  have a4 : ¬ f.list_init_ofbuf = true := fun hc => h4 (Or.inl hc)
  simp only [h1, a2, b2, a3, b3, a4, or_self, if_false]
  by_cases h5 : h.param.i_sync_lookahead = 0
  · simp [h1, h5]
  by_cases h6 : f.macroblock_cache_allocate = true
  · simp [h1, h5, h6]
  by_cases h7 : f.macroblock_thread_allocate = true
  · simp [h1, h5, h6, h7]
  by_cases h8 : f.pthread_create = true
  · simp [h1, h5, h6, h7, h8]
  simp [h1, h5, h6, h7, h8]


/-! ## Lock discipline (C12) -/

theorem lock_states_append (a : List LockOp) : ∀ (held : List Mutex) (b : List LockOp),
    lock_states held (a ++ b) = lock_states held a ++ lock_states (final_held held a) b := by
  induction a with
  | nil => intro held b; rfl
  | cons op ops ih =>
    intro held b
    show (held, op) :: lock_states (held_after held op) (ops ++ b) =
      (held, op) :: (lock_states (held_after held op) ops ++
        lock_states (final_held (held_after held op) ops) b)
    rw [ih]

theorem final_held_append (held : List Mutex) (a b : List LockOp) :
    final_held held (a ++ b) = final_held (final_held held a) b := by
  simp only [final_held, List.foldl_append]

/-- Two sequences of calls that start and end with no mutex and keep the
discipline at each call make one such sequence. -/
theorem segment_append (a b : List LockOp)
    (ha : final_held [] a = [] ∧ ∀ p ∈ lock_states [] a, lock_step_ok p.1 p.2 = true)
    (hb : final_held [] b = [] ∧ ∀ p ∈ lock_states [] b, lock_step_ok p.1 p.2 = true) :
    final_held [] (a ++ b) = [] ∧
      ∀ p ∈ lock_states [] (a ++ b), lock_step_ok p.1 p.2 = true := by
  constructor
  · rw [final_held_append, ha.1, hb.1]
  · intro p hp
    rw [lock_states_append, ha.1, List.mem_append] at hp
    rcases hp with hp | hp
    · exact ha.2 p hp
    · exact hb.2 p hp

theorem segment_flatten (ts : List (List LockOp))
    (h : ∀ t ∈ ts, final_held [] t = [] ∧ ∀ p ∈ lock_states [] t, lock_step_ok p.1 p.2 = true) :
    final_held [] ts.flatten = [] ∧
      ∀ p ∈ lock_states [] ts.flatten, lock_step_ok p.1 p.2 = true := by
  induction ts with
  | nil => exact ⟨rfl, fun p hp => by simp [lock_states] at hp⟩
  | cons t ts ih =>
    rw [List.flatten_cons]
    exact segment_append t ts.flatten (h t (List.mem_cons_self _ _))
      (ih (fun u hu => h u (List.mem_cons_of_mem _ hu)))

/-- Waits on the only mutex held, followed by more calls. -/
theorem segment_waits (m : Mutex) (rest : List LockOp) (n : Nat) :
    final_held [m] (List.replicate n (LockOp.cond_wait m) ++ rest) = final_held [m] rest ∧
    ∀ p ∈ lock_states [m] (List.replicate n (LockOp.cond_wait m) ++ rest),
      p = ([m], LockOp.cond_wait m) ∨ p ∈ lock_states [m] rest := by
  induction n with
  | zero => exact ⟨rfl, fun p hp => Or.inr hp⟩
  | succ n ih =>
    constructor
    · rw [List.replicate_succ, List.cons_append]
      exact ih.1
    · intro p hp
      rw [List.replicate_succ, List.cons_append] at hp
      simp only [lock_states, held_after, List.mem_cons] at hp
      rcases hp with hp | hp
      · exact Or.inl hp
      · exact ih.2 p hp

/-- A sequence that takes a mutex with none held, waits on it, and goes on. -/
theorem segment_lock_waits (m : Mutex) (rest : List LockOp) (n : Nat)
    (hf : final_held [m] rest = [])
    (hr : ∀ p ∈ lock_states [m] rest, lock_step_ok p.1 p.2 = true) :
    final_held [] (LockOp.lock m :: (List.replicate n (LockOp.cond_wait m) ++ rest)) = [] ∧
      ∀ p ∈ lock_states [] (LockOp.lock m :: (List.replicate n (LockOp.cond_wait m) ++ rest)),
        lock_step_ok p.1 p.2 = true := by
  obtain ⟨w1, w2⟩ := segment_waits m rest n
  constructor
  · show final_held [m] (List.replicate n (LockOp.cond_wait m) ++ rest) = []
    rw [w1, hf]
  · intro p hp
    simp only [lock_states, held_after, List.mem_cons] at hp
    rcases hp with hp | hp
    · subst hp; rfl
    · rcases w2 p hp with e | e
      · subst e; simp [lock_step_ok]
      · exact hr p e

theorem segment_decide (waits : Nat) :
    final_held [] (x264_lookahead_slicetype_decide_locks waits) = [] ∧
      ∀ p ∈ lock_states [] (x264_lookahead_slicetype_decide_locks waits),
        lock_step_ok p.1 p.2 = true :=
  segment_lock_waits Mutex.ofbuf _ waits rfl (by decide)

theorem segment_push (m : Mutex) (waits : Nat) :
    final_held [] (x264_synch_frame_list_push_locks m waits) = [] ∧
      ∀ p ∈ lock_states [] (x264_synch_frame_list_push_locks m waits),
        lock_step_ok p.1 p.2 = true :=
  segment_lock_waits m _ waits (by cases m <;> rfl) (by cases m <;> decide)

theorem segment_turn (b_decide : Bool) (waits : Nat) :
    final_held [] (x264_lookahead_thread_turn_locks b_decide waits) = [] ∧
      ∀ p ∈ lock_states [] (x264_lookahead_thread_turn_locks b_decide waits),
        lock_step_ok p.1 p.2 = true := by
  unfold x264_lookahead_thread_turn_locks
  cases b_decide with
  | true =>
    simp only [if_true]
    have h1 : final_held [] [LockOp.lock Mutex.ifbuf, LockOp.lock Mutex.next,
        LockOp.unlock Mutex.next, LockOp.unlock Mutex.ifbuf] = [] ∧
        ∀ p ∈ lock_states [] [LockOp.lock Mutex.ifbuf, LockOp.lock Mutex.next,
          LockOp.unlock Mutex.next, LockOp.unlock Mutex.ifbuf],
          lock_step_ok p.1 p.2 = true := ⟨rfl, by decide⟩
    have := segment_append _ _ h1 (segment_decide waits)
    exact this
  | false =>
    simp only [Bool.false_eq_true, if_false]
    obtain ⟨w1, w2⟩ := segment_waits Mutex.ifbuf [LockOp.unlock Mutex.ifbuf] waits
    constructor
    · show final_held [Mutex.ifbuf]
        (List.replicate waits (LockOp.cond_wait Mutex.ifbuf) ++ [LockOp.unlock Mutex.ifbuf]) = []
      rw [w1]; rfl
    · intro p hp
      simp only [List.cons_append, List.nil_append, lock_states, held_after,
        List.mem_cons] at hp
      rcases hp with hp | hp | hp | hp
      · subst hp; rfl
      · subst hp; rfl
      · subst hp; rfl
      · have hp2 : p ∈ lock_states [Mutex.ifbuf]
            (List.replicate waits (LockOp.cond_wait Mutex.ifbuf) ++
              [LockOp.unlock Mutex.ifbuf]) := hp
        rcases w2 p hp2 with e | e
        · subst e; rfl
        · simp only [lock_states, held_after, List.mem_cons, List.mem_nil_iff, or_false] at e
          subst e; rfl

theorem segment_thread (turns : List (Bool × Nat)) (decisions : List Nat) :
    final_held [] (x264_lookahead_thread_locks turns decisions) = [] ∧
      ∀ p ∈ lock_states [] (x264_lookahead_thread_locks turns decisions),
        lock_step_ok p.1 p.2 = true := by
  unfold x264_lookahead_thread_locks
  refine segment_append _ _ (segment_flatten _ ?_) (segment_append _ _ ⟨rfl, by decide⟩
    (segment_append _ _ (segment_flatten _ ?_) ⟨rfl, by decide⟩))
  · intro t ht
    obtain ⟨x, _, rfl⟩ := List.mem_map.mp ht
    exact segment_turn x.1 x.2
  · intro t ht
    obtain ⟨x, _, rfl⟩ := List.mem_map.mp ht
    exact segment_decide x

theorem segment_encoder (threaded : Bool) (calls : List EncoderCall) :
    final_held [] (encoder_locks threaded calls) = [] ∧
      ∀ p ∈ lock_states [] (encoder_locks threaded calls),
        lock_step_ok p.1 p.2 = true := by
  unfold encoder_locks
  refine segment_flatten _ ?_
  intro t ht
  obtain ⟨c, _, rfl⟩ := List.mem_map.mp ht
  cases c with
  | put_frame waits =>
    simp only [EncoderCall.locks, x264_lookahead_put_frame_locks]
    cases threaded
    · exact segment_push Mutex.next waits
    · exact segment_push Mutex.ifbuf waits
  | is_empty => cases threaded <;> exact ⟨rfl, by decide⟩
  | get_frames waits =>
    cases threaded
    · exact ⟨rfl, fun p hp => by simp [EncoderCall.locks, x264_lookahead_get_frames_locks,
        lock_states] at hp⟩
    · exact segment_lock_waits Mutex.ofbuf _ waits rfl (by decide)
  | delete =>
    cases threaded
    · exact ⟨rfl, by decide⟩
    · exact ⟨rfl, by decide⟩

/-- A call that keeps the discipline leaves the thread with one of the sets of
mutexes it can hold. -/
theorem held_after_shape (held : List Mutex) (op : LockOp)
    (hall : held = [] ∨ held = [Mutex.ifbuf] ∨ held = [Mutex.ofbuf] ∨ held = [Mutex.next] ∨
      held = [Mutex.next, Mutex.ifbuf] ∨ held = [Mutex.next, Mutex.ofbuf])
    (h0 : lock_step_ok held op = true) :
    held_after held op = [] ∨ held_after held op = [Mutex.ifbuf] ∨
      held_after held op = [Mutex.ofbuf] ∨ held_after held op = [Mutex.next] ∨
      held_after held op = [Mutex.next, Mutex.ifbuf] ∨
      held_after held op = [Mutex.next, Mutex.ofbuf] := by
  rcases hall with e | e | e | e | e | e <;> subst e <;> cases op with
  | lock m => cases m <;> revert h0 <;> decide
  | unlock m => cases m <;> revert h0 <;> decide
  | cond_wait m => cases m <;> revert h0 <;> decide

/-- The sets of mutexes a thread that keeps the discipline can hold. -/
theorem held_shapes (t : List LockOp) : ∀ (held : List Mutex),
    (held = [] ∨ held = [Mutex.ifbuf] ∨ held = [Mutex.ofbuf] ∨ held = [Mutex.next] ∨
      held = [Mutex.next, Mutex.ifbuf] ∨ held = [Mutex.next, Mutex.ofbuf]) →
    (∀ p ∈ lock_states held t, lock_step_ok p.1 p.2 = true) →
    ∀ p ∈ lock_states held t,
      p.1 = [] ∨ p.1 = [Mutex.ifbuf] ∨ p.1 = [Mutex.ofbuf] ∨ p.1 = [Mutex.next] ∨
        p.1 = [Mutex.next, Mutex.ifbuf] ∨ p.1 = [Mutex.next, Mutex.ofbuf] := by
  induction t with
  | nil => intro held _ _ p hp; simp [lock_states] at hp
  | cons op ops ih =>
    intro held hall hok p hp
    simp only [lock_states, List.mem_cons] at hp
    rcases hp with hp | hp
    · subst hp; exact hall
    · have h0 := hok (held, op) (by simp [lock_states])
      exact ih (held_after held op) (held_after_shape held op hall h0) (fun q hq => hok q (by
        simp only [lock_states, List.mem_cons]; exact Or.inr hq)) p hp

/-- What the discipline at one call says of the mutexes held at that call. -/
theorem step_discipline (held : List Mutex) (op : LockOp)
    (hs : held = [] ∨ held = [Mutex.ifbuf] ∨ held = [Mutex.ofbuf] ∨ held = [Mutex.next] ∨
      held = [Mutex.next, Mutex.ifbuf] ∨ held = [Mutex.next, Mutex.ofbuf])
    (hk : lock_step_ok held op = true) :
    ¬ (Mutex.ifbuf ∈ held ∧ Mutex.ofbuf ∈ held) ∧
    held.length ≤ 2 ∧
    (held.length = 2 →
      held = [Mutex.next, Mutex.ifbuf] ∨ held = [Mutex.next, Mutex.ofbuf]) ∧
    (∀ m, op = LockOp.lock m → m ∉ held ∧
      (held ≠ [] → m = Mutex.next ∧ (held = [Mutex.ifbuf] ∨ held = [Mutex.ofbuf]))) ∧
    (∀ m, op = LockOp.unlock m → m ∈ held) ∧
    (∀ m, op = LockOp.cond_wait m → held = [m]) := by
  rcases hs with e | e | e | e | e | e <;> subst e <;> cases op with
  | lock m => cases m <;> simp_all [lock_step_ok]
  | unlock m => cases m <;> simp_all [lock_step_ok]
  | cond_wait m => cases m <;> simp_all [lock_step_ok]

/-- The discipline at each call gives the lock discipline of the whole sequence. -/
theorem segment_discipline (t : List LockOp)
    (h : final_held [] t = [] ∧ ∀ p ∈ lock_states [] t, lock_step_ok p.1 p.2 = true) :
    LockDiscipline t := by
  refine ⟨h.1, ?_⟩
  intro held op hp
  exact step_discipline held op (held_shapes t [] (Or.inl rfl) h.2 (held, op) hp)
    (h.2 (held, op) hp)

/-- C12. Lock discipline. Whatever the number of turns of the main loop, the
branch each turn takes, the number of waits and the number of decision steps,
the lookahead thread keeps the lock discipline, and so does the encoder thread
over any sequence of calls of `x264_lookahead_put_frame`,
`x264_lookahead_is_empty`, `x264_lookahead_get_frames` and
`x264_lookahead_delete`, with or without a lookahead thread: no thread holds
`ifbuf.mutex` and `ofbuf.mutex` together, two mutexes held together are those of
`ifbuf` and `next` or of `ofbuf` and `next` with that of `next` taken last, a
wait is made with no other mutex held, and every sequence ends with no mutex
held. Both pairs occur. Hence no circular wait: when two threads each ask for a
mutex, neither asks for a mutex the other holds while holding one the other asks
for. -/
theorem x264_lookahead_lock_discipline (turns : List (Bool × Nat)) (decisions : List Nat)
    (threaded : Bool) (calls : List EncoderCall) :
    LockDiscipline (x264_lookahead_thread_locks turns decisions) ∧
    LockDiscipline (encoder_locks threaded calls) ∧
    ([Mutex.ifbuf], LockOp.lock Mutex.next) ∈
      lock_states [] (x264_lookahead_thread_locks [] []) ∧
    ([Mutex.ofbuf], LockOp.lock Mutex.next) ∈
      lock_states [] (x264_lookahead_thread_locks [] [0]) ∧
    ([Mutex.ofbuf], LockOp.lock Mutex.next) ∈
      lock_states [] (encoder_locks threaded [EncoderCall.is_empty]) ∧
    (∀ held1 m1 held2 m2,
      (held1, LockOp.lock m1) ∈ lock_states [] (x264_lookahead_thread_locks turns decisions) →
      (held2, LockOp.lock m2) ∈ lock_states [] (encoder_locks threaded calls) →
      ¬ (m1 ∈ held2 ∧ m2 ∈ held1)) := by
  have ht := segment_discipline _ (segment_thread turns decisions)
  have he := segment_discipline _ (segment_encoder threaded calls)
  refine ⟨ht, he, by decide, by decide, by cases threaded <;> decide, ?_⟩
  intro held1 m1 held2 m2 h1 h2 hc
  obtain ⟨_, _, _, a1, _, _⟩ := ht.2 held1 _ h1
  obtain ⟨_, _, _, a2, _, _⟩ := he.2 held2 _ h2
  obtain ⟨n1, b1⟩ := a1 m1 rfl
  obtain ⟨n2, b2⟩ := a2 m2 rfl
  have hne1 : held1 ≠ [] := by
    intro e; rw [e] at hc; exact absurd hc.2 (by simp)
  have hne2 : held2 ≠ [] := by
    intro e; rw [e] at hc; exact absurd hc.1 (by simp)
  obtain ⟨e1, s1⟩ := b1 hne1
  obtain ⟨e2, s2⟩ := b2 hne2
  subst e1
  rcases s2 with s | s <;> rw [s] at hc <;> simp at hc

/-! ## Backpressure (C18) -/

/-- What the part of a decision step that follows the wait does when the wait is
over: with an anchor set and a head of `next` of run length `r`, `0 ≤ r` and
`r + 1 ≤ next.i_size`, it moves the run when `ofbuf` has room for all of it and
fails an assertion when it has not. -/
theorem decide_wait_outcome (hk : Hooks) (hfo : hk.frames_only) (h : x264_t) (head : Nat)
    (rest : List Nat) (p : Nat)
    (wo : h.lookahead.ofbuf.wf) (wn : h.lookahead.next.wf)
    (hl : h.lookahead.next.list = head :: rest) (hlast : h.lookahead.last_nonb = some p)
    (h0 : 0 ≤ (h.mem head).i_bframes)
    (h1 : (h.mem head).i_bframes + 1 ≤ h.lookahead.next.i_size)
    (hwait : h.lookahead.ofbuf.i_size < h.lookahead.ofbuf.i_max_size) :
    (h.lookahead.ofbuf.i_size + (h.mem head).i_bframes + 1 ≤ h.lookahead.ofbuf.i_max_size →
      ∃ h3, x264_lookahead_slicetype_decide_wait hk h = Result.ok h3 ∧
        h3.lookahead.ofbuf.list = h.lookahead.ofbuf.list ++
          (head :: rest).take ((h.mem head).i_bframes + 1).toNat ∧
        h3.lookahead.next.list = (head :: rest).drop ((h.mem head).i_bframes + 1).toNat) ∧
    (h.lookahead.ofbuf.i_max_size < h.lookahead.ofbuf.i_size + (h.mem head).i_bframes + 1 →
      x264_lookahead_slicetype_decide_wait hk h = Result.abort) := by
  have hnf : ¬ h.lookahead.ofbuf.i_size = h.lookahead.ofbuf.i_max_size := by omega
  constructor
  · intro hroom
    have hsh := shift_ok h.lookahead.ofbuf h.lookahead.next ((h.mem head).i_bframes + 1)
      wo wn (by omega) h1 (by omega)
    have hpos : 0 < (h.mem head).i_bframes + 1 := by omega
    unfold x264_lookahead_slicetype_decide_wait
    simp only [hnf, if_false, hl, hsh, hlast, hpos, if_true]
    split_ifs
    all_goals first
      | exact ⟨_, rfl, rfl, rfl⟩
      | exact ⟨_, rfl, by rw [(call_analyse_shape hk hfo _ 1).1],
          by rw [(call_analyse_shape hk hfo _ 1).1]⟩
  · intro hno
    have hsh := shift_no_room h.lookahead.ofbuf h.lookahead.next
      ((h.mem head).i_bframes + 1) wo wn (by omega) (by omega)
    unfold x264_lookahead_slicetype_decide_wait
    simp only [hnf, if_false, hl, hsh]

/-- C18, counterexample. A retrieval from a full `ofbuf` does not always let the
parked decision step move its run. In this reachable state of a session with a
lookahead thread `ofbuf` is full with `[1, 2, 3, 4, 5]`, and the decision step on
`next = [6, 7]`, whose head has the run length `1`, is parked in its wait. The
retrieval delivers the run `[1]` and leaves `ofbuf` with four frames of five;
the wait is over, and the woken step fails the assertion
`dst->i_size < dst->i_max_size` at the second frame of its run instead of
moving it. -/
theorem x264_lookahead_backpressure_counterexample :
    Reachable (stub_hooks [0, 0, 0, 0, 0, 1] true) (sample_after [0, 0, 0, 0, 0, 1] 1 [Action.submit 1, Action.submit 2, Action.submit 3,
        Action.submit 4, Action.fill, Action.decide, Action.decide, Action.decide,
        Action.decide, Action.submit 5, Action.submit 6, Action.submit 7, Action.fill,
        Action.decide, Action.decide]) ∧
    (sample_after [0, 0, 0, 0, 0, 1] 1 [Action.submit 1, Action.submit 2, Action.submit 3,
        Action.submit 4, Action.fill, Action.decide, Action.decide, Action.decide,
        Action.decide, Action.submit 5, Action.submit 6, Action.submit 7, Action.fill,
        Action.decide, Action.decide]).parked = true ∧
    (sample_after [0, 0, 0, 0, 0, 1] 1 [Action.submit 1, Action.submit 2, Action.submit 3,
        Action.submit 4, Action.fill, Action.decide, Action.decide, Action.decide,
        Action.decide, Action.submit 5, Action.submit 6, Action.submit 7, Action.fill,
        Action.decide, Action.decide]).h.param.i_sync_lookahead = 1 ∧
    (sample_after [0, 0, 0, 0, 0, 1] 1 [Action.submit 1, Action.submit 2, Action.submit 3,
        Action.submit 4, Action.fill, Action.decide, Action.decide, Action.decide,
        Action.decide, Action.submit 5, Action.submit 6, Action.submit 7, Action.fill,
        Action.decide, Action.decide]).h.lookahead.ofbuf.list = [1, 2, 3, 4, 5] ∧
    (sample_after [0, 0, 0, 0, 0, 1] 1 [Action.submit 1, Action.submit 2, Action.submit 3,
        Action.submit 4, Action.fill, Action.decide, Action.decide, Action.decide,
        Action.decide, Action.submit 5, Action.submit 6, Action.submit 7, Action.fill,
        Action.decide, Action.decide]).h.lookahead.ofbuf.i_size = (sample_after [0, 0, 0, 0, 0, 1] 1 [Action.submit 1, Action.submit 2, Action.submit 3,
        Action.submit 4, Action.fill, Action.decide, Action.decide, Action.decide,
        Action.decide, Action.submit 5, Action.submit 6, Action.submit 7, Action.fill,
        Action.decide, Action.decide]).h.lookahead.ofbuf.i_max_size ∧
    (sample_after [0, 0, 0, 0, 0, 1] 1 [Action.submit 1, Action.submit 2, Action.submit 3,
        Action.submit 4, Action.fill, Action.decide, Action.decide, Action.decide,
        Action.decide, Action.submit 5, Action.submit 6, Action.submit 7, Action.fill,
        Action.decide, Action.decide]).h.lookahead.next.list = [6, 7] ∧
    ((sample_after [0, 0, 0, 0, 0, 1] 1 [Action.submit 1, Action.submit 2, Action.submit 3,
        Action.submit 4, Action.fill, Action.decide, Action.decide, Action.decide,
        Action.decide, Action.submit 5, Action.submit 6, Action.submit 7, Action.fill,
        Action.decide, Action.decide]).h.mem 6).i_bframes = 1 ∧
    ∃ h2, x264_lookahead_get_frames (stub_hooks [0, 0, 0, 0, 0, 1] true) (sample_after [0, 0, 0, 0, 0, 1] 1 [Action.submit 1, Action.submit 2, Action.submit 3,
        Action.submit 4, Action.fill, Action.decide, Action.decide, Action.decide,
        Action.decide, Action.submit 5, Action.submit 6, Action.submit 7, Action.fill,
        Action.decide, Action.decide]).h = Result.ok h2 ∧
      h2.frames_current = [1] ∧
      (h2.lookahead.ofbuf.i_size = 4 ∧ h2.lookahead.ofbuf.i_max_size = 5) ∧
      x264_lookahead_slicetype_decide_wait (stub_hooks [0, 0, 0, 0, 0, 1] true) h2 =
        Result.abort :=
  ⟨sample_after_reachable [0, 0, 0, 0, 0, 1] 1 _ (by decide), rfl, rfl, rfl, rfl, rfl, rfl,
    _, rfl, rfl, ⟨rfl, rfl⟩, rfl⟩

/-- C18, amended. Backpressure of `ofbuf` on the decision step. The hooks write
into frames only, `next` is well formed and `ofbuf` is within its capacity. A
decision step that completes, from its start or from its wait, found
`ofbuf.i_size < ofbuf.i_max_size`. While `ofbuf.i_size = ofbuf.i_max_size` the
wait parks with the state unchanged, a decision step on a non-empty `next` parks
with `ofbuf` and `next` as they were, and it parks again each time it is woken
without a retrieval. A retrieval with a lookahead thread that puts a frame into
`frames.current` from a full `ofbuf` leaves `ofbuf.i_size < ofbuf.i_max_size` and
`next` as it was, and the wait of the decision step does not park after it. What
the woken step does then depends on the room: with `ofbuf` well formed, an
anchor set and the head of `next` of run length `r`, `0 ≤ r` and
`r + 1 ≤ next.i_size`, it completes and moves the `r + 1` frames of the run to
the tail of `ofbuf` when `ofbuf.i_size + r + 1 ≤ ofbuf.i_max_size` after the
retrieval, and it fails the assertion `dst->i_size < dst->i_max_size` of
`x264_lookahead_shift` otherwise. -/
theorem x264_lookahead_backpressure (hk : Hooks) (hfo : hk.frames_only) (h : x264_t)
    (wn : h.lookahead.next.wf)
    (hcap : h.lookahead.ofbuf.i_size ≤ h.lookahead.ofbuf.i_max_size) :
    (∀ h1, x264_lookahead_slicetype_decide_wait hk h = Result.ok h1 →
      h.lookahead.ofbuf.i_size < h.lookahead.ofbuf.i_max_size) ∧
    (∀ h1, x264_lookahead_slicetype_decide hk h = Result.ok h1 →
      h.lookahead.ofbuf.i_size < h.lookahead.ofbuf.i_max_size) ∧
    (h.lookahead.ofbuf.i_size = h.lookahead.ofbuf.i_max_size →
      x264_lookahead_slicetype_decide_wait hk h = Result.blocked h ∧
      (h.lookahead.next.i_size ≠ 0 →
        ∃ h1, x264_lookahead_slicetype_decide hk h = Result.blocked h1 ∧
          h1.lookahead.ofbuf = h.lookahead.ofbuf ∧ h1.lookahead.next = h.lookahead.next ∧
          x264_lookahead_slicetype_decide_wait hk h1 = Result.blocked h1) ∧
      (∀ h2, h.param.i_sync_lookahead ≠ 0 →
        x264_lookahead_get_frames hk h = Result.ok h2 →
        h2.frames_current ≠ h.frames_current →
        h2.lookahead.ofbuf.i_size < h2.lookahead.ofbuf.i_max_size ∧
        h2.lookahead.next = h.lookahead.next ∧
        (∀ h3, x264_lookahead_slicetype_decide_wait hk h2 ≠ Result.blocked h3) ∧
        (∀ head rest p, h.lookahead.ofbuf.wf → h.lookahead.next.list = head :: rest →
          h.lookahead.last_nonb = some p → 0 ≤ (h.mem head).i_bframes →
          (h.mem head).i_bframes + 1 ≤ h.lookahead.next.i_size →
          (h2.lookahead.ofbuf.i_size + (h.mem head).i_bframes + 1 ≤
              h2.lookahead.ofbuf.i_max_size →
            ∃ h3, x264_lookahead_slicetype_decide_wait hk h2 = Result.ok h3 ∧
              h3.lookahead.ofbuf.list = h2.lookahead.ofbuf.list ++
                (head :: rest).take ((h.mem head).i_bframes + 1).toNat ∧
              h3.lookahead.next.list =
                (head :: rest).drop ((h.mem head).i_bframes + 1).toNat) ∧
          (h2.lookahead.ofbuf.i_max_size <
              h2.lookahead.ofbuf.i_size + (h.mem head).i_bframes + 1 →
            x264_lookahead_slicetype_decide_wait hk h2 = Result.abort)))) := by
  have hw : ∀ g : x264_t, g.lookahead.ofbuf.i_size ≤ g.lookahead.ofbuf.i_max_size →
      ∀ g1, x264_lookahead_slicetype_decide_wait hk g = Result.ok g1 →
      g.lookahead.ofbuf.i_size < g.lookahead.ofbuf.i_max_size := by
    intro g gc g1 hd
    by_cases hf : g.lookahead.ofbuf.i_size = g.lookahead.ofbuf.i_max_size
    · rw [(decide_wait_blocked_iff hk g).1 hf] at hd
      exact absurd hd (by simp)
    · omega
  refine ⟨hw h hcap, ?_, ?_⟩
  · intro h1 hd
    obtain ⟨head, rest, _, _, _, e⟩ := decide_reads_head hk hfo h wn (by
      intro hz
      unfold x264_lookahead_slicetype_decide at hd
      obtain ⟨a, _, _⟩ := call_decide_shape hk hfo h
      unfold x264_synch_frame_list_t.wf at wn
      have hl : (call_slicetype_decide hk h).lookahead.next.list = [] := by
        rw [a]
        rw [hz] at wn
        exact List.length_eq_zero.mp (by exact_mod_cast wn.symm)
      simp only [hl] at hd
      exact absurd hd (by simp))
    rw [e] at hd
    have := hw _ (by
      rw [(update_last_nonb_shape _ head).1, (call_decide_shape hk hfo h).1]
      exact hcap) h1 hd
    rw [(update_last_nonb_shape _ head).1, (call_decide_shape hk hfo h).1] at this
    exact this
  · intro hf
    refine ⟨(decide_wait_blocked_iff hk h).1 hf, ?_, ?_⟩
    · intro hne
      obtain ⟨head, rest, _, _, _, e⟩ := decide_reads_head hk hfo h wn hne
      have hb := (decide_wait_blocked_iff hk
        (x264_lookahead_update_last_nonb (call_slicetype_decide hk h) head)).1 (by
          rw [(update_last_nonb_shape _ head).1, (call_decide_shape hk hfo h).1]
          exact hf)
      refine ⟨_, e.trans hb, ?_, ?_, hb⟩
      · rw [(update_last_nonb_shape _ head).1, (call_decide_shape hk hfo h).1]
      · rw [(update_last_nonb_shape _ head).1, (call_decide_shape hk hfo h).1]
    · intro h2 hm hg hc
      unfold x264_lookahead_get_frames at hg
      simp only [hm, ne_eq, not_false_eq_true, if_true] at hg
      split at hg
      · exact absurd hg (by simp)
      · cases hes : x264_lookahead_encoder_shift h with
        | none => simp [hes] at hg
        | some g =>
          simp only [hes, Result.ok.injEq] at hg
          subst hg
          by_cases hz : h.lookahead.ofbuf.i_size = 0
          · simp only [x264_lookahead_encoder_shift, hz, if_true, Option.some.injEq] at hes
            subst hes
            exact absurd rfl hc
          · obtain ⟨head, rest, hl, h0, h1⟩ := encoder_shift_some h g hz hes
            rw [encoder_shift_ok h head rest hz hl h0 h1, Option.some.injEq] at hes
            subst hes
            simp only at hc ⊢
            have hpos : 0 < (h.mem head).i_bframes + 1 := by
              rcases lt_or_eq_of_le h0 with hlt | heq
              · exact hlt
              · exfalso
                apply hc
                rw [← heq]
                simp
            have hlt : h.lookahead.ofbuf.i_size - ((h.mem head).i_bframes + 1) <
                h.lookahead.ofbuf.i_max_size := by omega
            refine ⟨hlt, trivial, (decide_wait_blocked_iff hk _).2 (by simp only; omega), ?_⟩
            intro head2 rest2 p wo hln hlast r0 r1
            have wo' := wo
            unfold x264_synch_frame_list_t.wf at wo'
            have w2 : ({ h.lookahead.ofbuf with
                list := (head :: rest).drop ((h.mem head).i_bframes + 1).toNat
                i_size := h.lookahead.ofbuf.i_size - ((h.mem head).i_bframes + 1)
                cv_empty := h.lookahead.ofbuf.cv_empty + 1 } :
                  x264_synch_frame_list_t).wf := by
              unfold x264_synch_frame_list_t.wf
              simp only [List.length_drop]
              rw [wo', hl]
              rw [hl] at wo'
              simp only [List.length_cons] at h1 ⊢
              push_cast at h1 ⊢
              omega
            exact decide_wait_outcome hk hfo
              { h with
                frames_current :=
                  h.frames_current ++ (head :: rest).take ((h.mem head).i_bframes + 1).toNat
                lookahead := { h.lookahead with
                  ofbuf := { h.lookahead.ofbuf with
                    list := (head :: rest).drop ((h.mem head).i_bframes + 1).toNat
                    i_size := h.lookahead.ofbuf.i_size - ((h.mem head).i_bframes + 1)
                    cv_empty := h.lookahead.ofbuf.cv_empty + 1 } } }
              head2 rest2 p w2 wn hln hlast r0 r1 hlt

theorem x264_lookahead_backpressure_witness :
    (sample_after [] 1 [Action.submit 1, Action.submit 2, Action.submit 3,
        Action.submit 4, Action.fill, Action.decide, Action.decide, Action.decide,
        Action.decide, Action.submit 5, Action.submit 6, Action.submit 7, Action.fill,
        Action.decide, Action.decide]).parked = true ∧
    (sample_after [] 1 [Action.submit 1, Action.submit 2, Action.submit 3,
        Action.submit 4, Action.fill, Action.decide, Action.decide, Action.decide,
        Action.decide, Action.submit 5, Action.submit 6, Action.submit 7, Action.fill,
        Action.decide, Action.decide]).h.lookahead.ofbuf.list = [1, 2, 3, 4, 5] ∧
    (sample_after [] 1 [Action.submit 1, Action.submit 2, Action.submit 3,
        Action.submit 4, Action.fill, Action.decide, Action.decide, Action.decide,
        Action.decide, Action.submit 5, Action.submit 6, Action.submit 7, Action.fill,
        Action.decide, Action.decide]).h.lookahead.ofbuf.i_size = (sample_after [] 1 [Action.submit 1, Action.submit 2, Action.submit 3,
        Action.submit 4, Action.fill, Action.decide, Action.decide, Action.decide,
        Action.decide, Action.submit 5, Action.submit 6, Action.submit 7, Action.fill,
        Action.decide, Action.decide]).h.lookahead.ofbuf.i_max_size ∧
    (sample_after [] 1 [Action.submit 1, Action.submit 2, Action.submit 3,
        Action.submit 4, Action.fill, Action.decide, Action.decide, Action.decide,
        Action.decide, Action.submit 5, Action.submit 6, Action.submit 7, Action.fill,
        Action.decide, Action.decide]).h.lookahead.next.list = [6, 7] ∧
    x264_lookahead_get_frames (stub_hooks [] true) (sample_after [] 1 [Action.submit 1, Action.submit 2, Action.submit 3,
        Action.submit 4, Action.fill, Action.decide, Action.decide, Action.decide,
        Action.decide, Action.submit 5, Action.submit 6, Action.submit 7, Action.fill,
        Action.decide, Action.decide]).h = Result.ok (sample_after [] 1 [Action.submit 1, Action.submit 2, Action.submit 3,
        Action.submit 4, Action.fill, Action.decide, Action.decide, Action.decide,
        Action.decide, Action.submit 5, Action.submit 6, Action.submit 7, Action.fill,
        Action.decide, Action.decide, Action.retrieve]).h ∧
    (sample_after [] 1 [Action.submit 1, Action.submit 2, Action.submit 3,
        Action.submit 4, Action.fill, Action.decide, Action.decide, Action.decide,
        Action.decide, Action.submit 5, Action.submit 6, Action.submit 7, Action.fill,
        Action.decide, Action.decide, Action.retrieve]).h.frames_current = [1] ∧
    (sample_after [] 1 [Action.submit 1, Action.submit 2, Action.submit 3,
        Action.submit 4, Action.fill, Action.decide, Action.decide, Action.decide,
        Action.decide, Action.submit 5, Action.submit 6, Action.submit 7, Action.fill,
        Action.decide, Action.decide, Action.retrieve]).h.lookahead.ofbuf.list = [2, 3, 4, 5] ∧
    ∃ h3, x264_lookahead_slicetype_decide_wait (stub_hooks [] true) (sample_after [] 1 [Action.submit 1, Action.submit 2, Action.submit 3,
        Action.submit 4, Action.fill, Action.decide, Action.decide, Action.decide,
        Action.decide, Action.submit 5, Action.submit 6, Action.submit 7, Action.fill,
        Action.decide, Action.decide, Action.retrieve]).h = Result.ok h3 ∧
      h3.lookahead.ofbuf.list = [2, 3, 4, 5, 6] ∧ h3.lookahead.next.list = [7] :=
  ⟨rfl, rfl, by decide, rfl, rfl, rfl, rfl,
    match (((x264_lookahead_backpressure (stub_hooks [] true) (stub_frames_only [] true)
      (sample_after [] 1 [Action.submit 1, Action.submit 2, Action.submit 3,
        Action.submit 4, Action.fill, Action.decide, Action.decide, Action.decide,
        Action.decide, Action.submit 5, Action.submit 6, Action.submit 7, Action.fill,
        Action.decide, Action.decide]).h rfl (by decide)).2.2 (by decide)).2.2 (sample_after [] 1 [Action.submit 1, Action.submit 2, Action.submit 3,
        Action.submit 4, Action.fill, Action.decide, Action.decide, Action.decide,
        Action.decide, Action.submit 5, Action.submit 6, Action.submit 7, Action.fill,
        Action.decide, Action.decide, Action.retrieve]).h (by decide) rfl (by decide)).2.2.2
        6 [7] 6 rfl rfl rfl (by decide) (by decide) with
    | ⟨hok, _⟩ =>
      match hok (by decide) with
      | ⟨h3, hd, ho, hn⟩ => ⟨h3, hd, ho.trans rfl, hn.trans rfl⟩⟩

end Lookahead
